import Mathlib

/-! # esp-idf-st7789: animation streamer and display controller

A shallow embedding of

* `main/decode_rgb565ani.c` (`play_rgb565ani`), and
* `.history/main/st7796s_20241117044112.c` (the SPI transport helpers and the
  drawing primitives),

together with theorems about them.

Conventions.

* The target is a 32-bit ESP32: `int` and `size_t`/`uint32_t` are 32 bits wide,
  `uint16_t` is 16 bits wide.  Unsigned arithmetic is written with an explicit
  `% 2 ^ 32` or `% 2 ^ 16`; signed `int` arithmetic goes through `wrap32`.
* Everything the C code does to the outside world is recorded as a trace (a list
  of events), in program order.
* Loops are unrolled by structural recursion on a fuel argument.
-/

namespace Rgb565Ani

/-! ## The animation streamer: `decode_rgb565ani.c` -/

/-- One octet of the stream or of a buffer. -/
abbrev Byte := Fin 256

/-- The three status codes `play_rgb565ani` can return. -/
inductive esp_err_t
  | ESP_OK
  | ESP_FAIL
  | ESP_ERR_NO_MEM
  deriving DecidableEq

/-- The three heap blocks `play_rgb565ani` asks for. -/
inductive Buf
  | frame_buffer_a
  | frame_buffer_b
  | dma_buffer
  deriving DecidableEq

/-- The log lines of `play_rgb565ani`, one constructor per `ESP_LOGx` call site. -/
inductive Msg
  | open_failed          -- line 42
  | magic_read_failed    -- line 49
  | invalid_magic        -- line 56
  | frame_count_failed   -- line 65
  | width_failed         -- line 74
  | height_failed        -- line 80
  | header_info          -- line 88
  | dimension_mismatch   -- line 92
  | frame_alloc_failed   -- line 110
  | dma_alloc_failed     -- line 122
  | end_of_file          -- line 140
  | duration_failed      -- line 144
  | short_frame          -- line 157
  | reached_end          -- line 196
  | statistics           -- line 219
  deriving DecidableEq

/-- What `play_rgb565ani` does to its environment, in program order. -/
inductive Event
  | wdt_add
  | wdt_reset
  | wdt_delete
  | fopen (ok : Bool)
  | fclose
  | logE (m : Msg)
  | logW (m : Msg)
  | logI (m : Msg)
  | fread (size nmemb got : Nat)
  | malloc (b : Buf) (size : Nat) (ok : Bool)
  | free (b : Buf)
  | memcpy (src : Buf) (offset n : Nat)
  | blit (x y w h : Nat) (data : List Byte)
  deriving DecidableEq

/-- An open stream: the bytes it will still deliver, whether running out of them is
an I/O error (`true`) or the end of the file (`false`), and the end-of-file
indicator that `feof` reads. -/
structure FILE where
  data : List Byte
  ioError : Bool
  eofFlag : Bool
  deriving DecidableEq

/-- What one `fread` call gives back: the bytes stored, the item count returned and
the stream afterwards. -/
structure ReadResult where
  bytes : List Byte
  count : Nat
  fp : FILE

/-- The C library `fread(ptr, size, nmemb, fp)`: it returns the number of complete
items read; a short read at the end of the file sets the end-of-file indicator. -/
def fread (size nmemb : Nat) (fp : FILE) : ReadResult :=
  let got := fp.data.take (size * nmemb)
  { bytes := got
    count := got.length / size
    fp :=
      { data := fp.data.drop (size * nmemb)
        ioError := fp.ioError
        eofFlag := fp.eofFlag || (decide (got.length < size * nmemb) && !fp.ioError) } }

/-- The C library `feof`. -/
def feof (fp : FILE) : Bool := fp.eofFlag

/-- The value of a little-endian byte string (the ESP32 is little-endian, so this is
what `fread` into a `uint32_t` or `uint16_t` yields). -/
def le : List Byte → Nat
  | [] => 0
  | b :: bs => b.val + 256 * le bs

/-- The C library `strcmp` on two NUL-terminated character arrays. -/
def strcmp : List Byte → List Byte → Int
  | a :: as, b :: bs =>
    if a ≠ b then (a.val : Int) - (b.val : Int)
    else if a.val = 0 then 0
    else strcmp as bs
  | _, _ => 0

/-- The string literal `"RGB565ANI"` without its terminator. -/
def MAGIC : List Byte := [82, 71, 66, 53, 54, 53, 65, 78, 73]

/-- The three header fields after the magic. -/
structure Header where
  frame_count : Nat
  width : Nat
  height : Nat
  deriving DecidableEq

/-- Lines 46-84 of `play_rgb565ani`: read the magic, compare it, read `frame_count`,
`width` and `height`.  Returns the events and, when every step succeeded, the header
and the stream positioned after it. -/
def read_header (fp : FILE) : List Event × Option (Header × FILE) :=
  let r1 := fread 1 9 fp
  if r1.count ≠ 9 then
    ([.fread 1 9 r1.count, .logE .magic_read_failed, .fclose, .wdt_delete], none)
  else if strcmp (r1.bytes ++ [0]) (MAGIC ++ [0]) ≠ 0 then
    ([.fread 1 9 r1.count, .logE .invalid_magic, .fclose, .wdt_delete], none)
  else
    let r2 := fread 4 1 r1.fp
    if r2.count ≠ 1 then
      ([.fread 1 9 r1.count, .fread 4 1 r2.count, .logE .frame_count_failed, .fclose,
        .wdt_delete], none)
    else
      let r3 := fread 2 1 r2.fp
      if r3.count ≠ 1 then
        ([.fread 1 9 r1.count, .fread 4 1 r2.count, .fread 2 1 r3.count,
          .logE .width_failed, .fclose, .wdt_delete], none)
      else
        let r4 := fread 2 1 r3.fp
        if r4.count ≠ 1 then
          ([.fread 1 9 r1.count, .fread 4 1 r2.count, .fread 2 1 r3.count,
            .fread 2 1 r4.count, .logE .height_failed, .fclose, .wdt_delete], none)
        else
          ([.fread 1 9 r1.count, .fread 4 1 r2.count, .fread 2 1 r3.count,
            .fread 2 1 r4.count, .logI .header_info],
           some ({ frame_count := le r2.bytes, width := le r3.bytes, height := le r4.bytes },
                 r4.fp))

/-- Why a run of the model stops without `play_rgb565ani` returning. -/
inductive Fault
  | undefined_behaviour   -- a `memcpy` outside its buffers, or signed overflow
  | out_of_fuel           -- the unrolling bound was too small
  deriving DecidableEq

/-- How a run of `play_rgb565ani` ends. -/
inductive Outcome
  | returned (e : esp_err_t)
  | fault (f : Fault)
  deriving DecidableEq

/-- Lines 165-184: the band loop over one frame held in `frame` (the contents of
`next_frame_buffer`, `frame_buffer_size` bytes).  `current_line * width * 2` is an
`int` product; the `memcpy` must stay inside both buffers. -/
def band_loop (fuel : Nat) (width : Nat) (src : Buf) (frame : List Byte)
    (frame_buffer_size dma_buffer_size : Nat) (lines_remaining current_line : Nat) :
    Option Fault × List Event :=
  match fuel with
  | 0 => if lines_remaining > 0 then (some .out_of_fuel, []) else (none, [])
  | fuel + 1 =>
    if lines_remaining > 0 then
      let lines_to_transfer := if lines_remaining > 160 then 160 else lines_remaining
      let bytes_to_transfer := (width * lines_to_transfer * 2) % 2 ^ 32
      let offset := current_line * width * 2
      if 2 ^ 31 ≤ offset ∨ frame_buffer_size < offset + bytes_to_transfer
          ∨ dma_buffer_size < bytes_to_transfer then
        (some .undefined_behaviour, [])
      else
        let dma := (frame.drop offset).take bytes_to_transfer
        let rest := band_loop fuel width src frame frame_buffer_size dma_buffer_size
          (lines_remaining - lines_to_transfer)
          ((current_line + lines_to_transfer % 2 ^ 16) % 2 ^ 16)
        (rest.1,
          [.memcpy src offset bytes_to_transfer,
           .blit 0 current_line width (lines_to_transfer % 2 ^ 16) dma,
           .wdt_reset] ++ rest.2)
    else (none, [])

/-- Lines 135-200: the main playback loop.  Returns the fault (if any), the events
and the final `frame_number`. -/
def playback_loop (fuel : Nat) (hdr : Header) (frame_buffer_size dma_buffer_size : Nat)
    (fp : FILE) (frame_number : Nat) (current next : Buf) :
    Option Fault × List Event × Nat :=
  match fuel with
  | 0 => (some .out_of_fuel, [], frame_number)
  | fuel + 1 =>
    let r := fread 4 1 fp
    if r.count ≠ 1 then
      if feof r.fp then (none, [.fread 4 1 r.count, .logI .end_of_file], frame_number)
      else (none, [.fread 4 1 r.count, .logE .duration_failed], frame_number)
    else
      let frame_number := (frame_number + 1) % 2 ^ 32
      let r2 := fread 1 frame_buffer_size r.fp
      if r2.count ≠ frame_buffer_size then
        (none, [.fread 4 1 r.count, .fread 1 frame_buffer_size r2.count, .logE .short_frame],
          frame_number)
      else
        let bands := band_loop hdr.height hdr.width next r2.bytes frame_buffer_size
          dma_buffer_size hdr.height 0
        match bands.1 with
        | some f =>
          (some f, [.fread 4 1 r.count, .fread 1 frame_buffer_size r2.count] ++ bands.2,
            frame_number)
        | none =>
          if hdr.frame_count ≤ frame_number then
            (none, [.fread 4 1 r.count, .fread 1 frame_buffer_size r2.count] ++ bands.2
              ++ [.wdt_reset, .logI .reached_end], frame_number)
          else
            let rest := playback_loop fuel hdr frame_buffer_size dma_buffer_size r2.fp
              frame_number next current
            (rest.1, [.fread 4 1 r.count, .fread 1 frame_buffer_size r2.count] ++ bands.2
              ++ [.wdt_reset] ++ rest.2.1, rest.2.2)

/-- Lines 90-94: the geometry check only logs a warning. -/
def dimension_warning (hdr : Header) (screenWidth screenHeight : Int) : List Event :=
  if (hdr.width : Int) ≠ screenWidth ∨ (hdr.height : Int) ≠ screenHeight then
    [.logW .dimension_mismatch]
  else []

/-- Lines 96-225: everything after the geometry check.  `heap b size` says whether the
`heap_caps_malloc` call for block `b` succeeds. -/
def playback (heap : Buf → Nat → Bool) (hdr : Header) (fp : FILE) : Outcome × List Event :=
  let frame_buffer_size := (hdr.width * hdr.height * 2) % 2 ^ 32
  let a := heap .frame_buffer_a frame_buffer_size
  let b := heap .frame_buffer_b frame_buffer_size
  if !a || !b then
    (.returned .ESP_ERR_NO_MEM,
      [.malloc .frame_buffer_a frame_buffer_size a,
       .malloc .frame_buffer_b frame_buffer_size b,
       .logE .frame_alloc_failed]
        ++ (if a then [.free .frame_buffer_a] else [])
        ++ (if b then [.free .frame_buffer_b] else [])
        ++ [.fclose, .wdt_delete])
  else
    let dma_buffer_size := (hdr.width * 160 * 2) % 2 ^ 32
    let d := heap .dma_buffer dma_buffer_size
    if !d then
      (.returned .ESP_ERR_NO_MEM,
        [.malloc .frame_buffer_a frame_buffer_size a,
         .malloc .frame_buffer_b frame_buffer_size b,
         .malloc .dma_buffer dma_buffer_size d, .logE .dma_alloc_failed,
         .free .frame_buffer_a, .free .frame_buffer_b, .fclose, .wdt_delete])
    else
      let run := playback_loop (fp.data.length + 1) hdr frame_buffer_size
        dma_buffer_size fp 0 .frame_buffer_a .frame_buffer_b
      match run.1 with
      | some f =>
        (.fault f,
          [.malloc .frame_buffer_a frame_buffer_size a,
           .malloc .frame_buffer_b frame_buffer_size b,
           .malloc .dma_buffer dma_buffer_size d] ++ run.2.1)
      | none =>
        (.returned .ESP_OK,
          [.malloc .frame_buffer_a frame_buffer_size a,
           .malloc .frame_buffer_b frame_buffer_size b,
           .malloc .dma_buffer dma_buffer_size d] ++ run.2.1 ++
            [.free .frame_buffer_a, .free .frame_buffer_b, .free .dma_buffer, .fclose,
             .logI .statistics, .wdt_delete])

/-- The function `play_rgb565ani(dev, file, screenWidth, screenHeight)`; `file` is
`none` when `fopen` fails, otherwise the opened stream.

The display handle `dev` is only passed on to `lcdDrawBitmap`, recorded as a `blit`
event.  Tick counting, `srand` and the floating-point statistics have no effect on
the status or on the events and are left out. -/
def play_rgb565ani (heap : Buf → Nat → Bool) (file : Option FILE)
    (screenWidth screenHeight : Int) : Outcome × List Event :=
  match file with
  | none => (.returned .ESP_FAIL, [.wdt_add, .fopen false, .logE .open_failed])
  | some fp0 =>
    let h := read_header fp0
    match h.2 with
    | none => (.returned .ESP_FAIL, [.wdt_add, .fopen true] ++ h.1)
    | some (hdr, fp) =>
      let r := playback heap hdr fp
      (r.1, [.wdt_add, .fopen true] ++ h.1 ++ dimension_warning hdr screenWidth screenHeight
        ++ r.2)

/-- Whether an event is a call of `lcdDrawBitmap`. -/
def Event.isBlit : Event → Bool
  | .blit _ _ _ _ _ => true
  | _ => false

/-- The `lcdDrawBitmap` calls of a trace, in order. -/
def blits (t : List Event) : List Event := t.filter Event.isBlit

/-! ### Specification-side definitions for the streamer -/

/-- The allocator that never fails. -/
def heap_ok : Buf → Nat → Bool := fun _ _ => true

/-- Whether an event allocates or releases a heap block. -/
def Event.isHeap : Event → Bool
  | .malloc _ _ _ => true
  | .free _ => true
  | _ => false

/-- One step of the heap monitor: `live` lists the blocks currently allocated.  A
successful `malloc` of a live block, or a `free` of a block that is not live, is an
error (`none`). -/
def heap_step (live : List Buf) : Event → Option (List Buf)
  | .malloc b _ true => if b ∈ live then none else some (b :: live)
  | .free b => if b ∈ live then some (live.erase b) else none
  | _ => some live

/-- The heap monitor run over a trace. -/
def heap_run : List Buf → List Event → Option (List Buf)
  | live, [] => some live
  | live, e :: t =>
    match heap_step live e with
    | none => none
    | some l => heap_run l t

/-- The source can be opened, holds at least 17 bytes and starts with the magic. -/
def good_header : Option FILE → Prop
  | none => False
  | some fp => 17 ≤ fp.data.length ∧ fp.data.take 9 = MAGIC

instance (file : Option FILE) : Decidable (good_header file) := by
  cases file <;> unfold good_header <;> infer_instance

/-- The blit the specification prescribes for band number `i` of a `w` x `h` frame. -/
def expected_band (w h : Nat) (payload : List Byte) (i : Nat) : Event :=
  .blit 0 (160 * i) w (min 160 (h - 160 * i))
    ((payload.drop (160 * i * w * 2)).take (w * min 160 (h - 160 * i) * 2))

/-- The blits the specification prescribes for one frame: one per band start row
`0, 160, 320, ...` below `h`, in increasing order. -/
def expected_bands (w h : Nat) (payload : List Byte) : List Event :=
  (List.range ((h + 159) / 160)).map (expected_band w h payload)

/-- The byte string of a sequence of frame records, each a 4-byte duration followed
by its pixel payload. -/
def frame_records : List (List Byte × List Byte) → List Byte
  | [] => []
  | f :: fs => f.1 ++ f.2 ++ frame_records fs

/-- The blits the specification prescribes for a sequence of frames, in file order. -/
def expected_blits (w h : Nat) : List (List Byte × List Byte) → List Event
  | [] => []
  | f :: fs => expected_bands w h f.2 ++ expected_blits w h fs

/-- A container with `frame_count = 1`, `width = 2`, `height = 1` whose only frame
carries three of its four payload bytes. -/
def short_frame_file : FILE :=
  { data := MAGIC ++ [1, 0, 0, 0] ++ [2, 0] ++ [1, 0] ++ [40, 0, 0, 0] ++ [7, 7, 7]
    ioError := false
    eofFlag := false }

/-- A container that declares `frame_count = 0`, `width = 1`, `height = 1` and still
carries one complete frame record. -/
def zero_count_file : FILE :=
  { data := MAGIC ++ [0, 0, 0, 0] ++ [1, 0] ++ [1, 0] ++ [40, 0, 0, 0] ++ [7, 9]
    ioError := false
    eofFlag := false }

/-- A 17-byte stream whose magic has a zero byte in fourth place. -/
def zero_magic_file : FILE :=
  { data := [82, 71, 66, 0, 54, 53, 65, 78, 73] ++ [1, 0, 0, 0] ++ [1, 0] ++ [1, 0]
    ioError := false
    eofFlag := false }

/-- Sixteen pixels of one colour, high byte first. -/
def solid (hi lo : Byte) : List Byte := (List.replicate 16 [hi, lo]).flatten

/-- Two 4 x 4 frames, the first red (0xF800), the second blue (0x001F). -/
def two_frames : List (List Byte × List Byte) :=
  [([100, 0, 0, 0], solid 0xF8 0x00), ([100, 0, 0, 0], solid 0x00 0x1F)]

/-- The container of the specification's example: `frame_count = 2`, `width = 4`,
`height = 4`, two solid-colour frames. -/
def two_frame_file : FILE :=
  { data := MAGIC ++ [2, 0, 0, 0] ++ [4, 0] ++ [4, 0] ++ frame_records two_frames
    ioError := false
    eofFlag := false }

/-- A 65535 x 32769 frame: `65535 * 32769 * 2` bytes of payload after the duration. -/
def huge_frame : List Byte := List.replicate (65535 * 32769 * 2) 0

/-- A well-formed container with one complete 65535 x 32769 frame. -/
def huge_file : FILE :=
  { data := MAGIC ++ [1, 0, 0, 0] ++ [255, 255] ++ [1, 128]
      ++ frame_records [([0, 0, 0, 0], huge_frame)]
    ioError := false
    eofFlag := false }

/-- The liveness monitor over a trace.  `pending` says that a band has been handed to
`lcdDrawBitmap` and `esp_task_wdt_reset` has not been called since.  The trace is
accepted when no blit and no read from the source happens while an acknowledgement is
pending, and none is pending at the end. -/
def acknowledged (pending : Bool) : List Event → Bool
  | [] => !pending
  | .blit _ _ _ _ _ :: t => !pending && acknowledged true t
  | .fread _ _ _ :: t => !pending && acknowledged pending t
  | .wdt_reset :: t => acknowledged false t
  | _ :: t => acknowledged pending t

/-- Band number `i` of a frame of `h` rows as the specification cuts it: its first row
and its number of rows. -/
def band_rows (h i : Nat) : Nat × Nat := (160 * i, min 160 (h - 160 * i))

/-- The bands of a frame of `h` rows, from the top: one per start row `0, 160, 320, ...`
below `h`. -/
def bands (h : Nat) : List (Nat × Nat) := (List.range ((h + 159) / 160)).map (band_rows h)

/-- What streaming one band `(first row, rows)` of a `w` pixel wide frame does: copy the
byte slice of the band into the transfer buffer, hand the band to `lcdDrawBitmap`, feed
the watchdog. -/
def band_events (w : Nat) (src : Buf) (frame : List Byte) (b : Nat × Nat) : List Event :=
  [.memcpy src (b.1 * w * 2) (w * b.2 * 2),
   .blit 0 b.1 w b.2 ((frame.drop (b.1 * w * 2)).take (w * b.2 * 2)),
   .wdt_reset]

/-- A 65535 x 32768 frame: its byte size `65535 * 32768 * 2` fits `size_t`. -/
def wide_frame : List Byte := List.replicate (65535 * 32768 * 2) 0

/-- A well-formed container with one complete 65535 x 32768 frame. -/
def wide_file : FILE :=
  { data := MAGIC ++ [1, 0, 0, 0] ++ [255, 255] ++ [0, 128]
      ++ frame_records [([0, 0, 0, 0], wide_frame)]
    ioError := false
    eofFlag := false }

/-- The allocator respects the address space of the 32-bit target: the two frame
buffers are live at the same time, so when `heap_caps_malloc` grants both, their sizes
together are at most `2 ^ 32` bytes. -/
def address_space_ok (heap : Buf → Nat → Bool) : Prop :=
  ∀ na nb, heap .frame_buffer_a na = true → heap .frame_buffer_b nb = true →
    na + nb ≤ 2 ^ 32

/-- An allocator that grants every request of at most 8 MiB, the size of the external
RAM of the module. -/
def heap_psram : Buf → Nat → Bool := fun _ n => decide (n ≤ 2 ^ 23)

end Rgb565Ani

namespace ST7796S

/-! ## The display controller: `st7796s_20241117044112.c` -/

/-- Conversion of an `int` value to `uint16_t`. -/
def u16 (z : Int) : Nat := (z % 65536).toNat

/-- The result of an `int` operation on a 32-bit target, taken as wrapping. -/
def wrap32 (z : Int) : Int := (z + 2 ^ 31) % 2 ^ 32 - 2 ^ 31

/-- Conversion of an `int` value to `uint32_t`. -/
def u32 (z : Int) : Nat := (z % 2 ^ 32).toNat

/-- Modelled from the spec: the device context `TFT_t`, declared in `st7796s.h`, which
is not among the sources.  The spec's device context owns the display width and height
and the two coordinate offsets; they are held as `uint16_t` values here.  The font
state, the GPIO numbers and the SPI handle do not influence what is sent. -/
structure TFT_t where
  _width : Nat
  _height : Nat
  _offsetx : Nat
  _offsety : Nat
  deriving DecidableEq

/-- The fields of a device context fit their 16-bit type. -/
def TFT_t.wf (dev : TFT_t) : Prop :=
  dev._width < 65536 ∧ dev._height < 65536 ∧ dev._offsetx < 65536 ∧ dev._offsety < 65536

instance (dev : TFT_t) : Decidable dev.wf := by
  unfold TFT_t.wf
  infer_instance

/-- Source: `static const int SPI_Command_Mode = 0;` -/
def SPI_Command_Mode : Nat := 0

/-- Source: `static const int SPI_Data_Mode = 1;` -/
def SPI_Data_Mode : Nat := 1

/-- What the driver does to the bus: it sets the D/C line (`gpio_set_level(dev->_dc, level)`)
and it transmits bytes (`spi_device_polling_transmit`). -/
inductive Bus
  | dc (level : Nat)
  | tx (bytes : List Nat)
  deriving DecidableEq

/-- The function `spi_master_write_byte`: nothing is transmitted when `DataLength` is 0. -/
def spi_master_write_byte (data : List Nat) : List Bus :=
  if data.length > 0 then [.tx data] else []

/-- The function `spi_master_write_command`. -/
def spi_master_write_command (cmd : Nat) : List Bus :=
  .dc SPI_Command_Mode :: spi_master_write_byte [cmd]

/-- The function `spi_master_write_data_byte`. -/
def spi_master_write_data_byte (data : Nat) : List Bus :=
  .dc SPI_Data_Mode :: spi_master_write_byte [data]

/-- The function `spi_master_write_data_word`: high byte first. -/
def spi_master_write_data_word (data : Nat) : List Bus :=
  .dc SPI_Data_Mode :: spi_master_write_byte [data / 256 % 256, data % 256]

/-- The function `spi_master_write_addr`. -/
def spi_master_write_addr (addr1 addr2 : Nat) : List Bus :=
  .dc SPI_Data_Mode ::
    spi_master_write_byte [addr1 / 256 % 256, addr1 % 256, addr2 / 256 % 256, addr2 % 256]

/-- The `while (len > 0)` loop of `spi_master_write_color`.  `len` is always even, so
the `chunk_size / 2` colours written into `Byte` fill all `chunk_size` bytes sent. -/
def spi_master_write_color_loop (fuel : Nat) (color len : Nat) : Option (List Bus) :=
  match fuel with
  | 0 => if len > 0 then none else some []
  | fuel + 1 =>
    if len > 0 then
      let chunk_size := if len > 1024 then 1024 else len
      let color_count := chunk_size / 2
      let bytes := (List.replicate color_count [color / 256 % 256, color % 256]).flatten
      (spi_master_write_color_loop fuel color (len - chunk_size)).map
        (fun rest => .dc SPI_Data_Mode :: (spi_master_write_byte bytes ++ rest))
    else some []

/-- The function `spi_master_write_color(dev, color, size)` with `uint32_t size`; the
byte count `size * 2` is a `uint32_t` product. -/
def spi_master_write_color (color size : Nat) : Option (List Bus) :=
  spi_master_write_color_loop ((size * 2) % 2 ^ 32) color ((size * 2) % 2 ^ 32)

/-- The `while (len > 0)` loop of `spi_master_write_colors`; reading `colors` past its
end yields 0. -/
def spi_master_write_colors_loop (fuel : Nat) (colors : List Nat) (index len : Nat) :
    Option (List Bus) :=
  match fuel with
  | 0 => if len > 0 then none else some []
  | fuel + 1 =>
    if len > 0 then
      let chunk_size := if len > 1024 then 1024 else len
      let color_count := chunk_size / 2
      let bytes := ((List.range color_count).map fun i =>
        [colors.getD (index + i) 0 / 256 % 256, colors.getD (index + i) 0 % 256]).flatten
      (spi_master_write_colors_loop fuel colors (index + color_count) (len - chunk_size)).map
        (fun rest => .dc SPI_Data_Mode :: (spi_master_write_byte bytes ++ rest))
    else some []

/-- The function `spi_master_write_colors(dev, colors, size)` with `uint16_t size`. -/
def spi_master_write_colors (colors : List Nat) (size : Nat) : Option (List Bus) :=
  spi_master_write_colors_loop (size * 2) colors 0 ((size * 2) % 2 ^ 32)

/-- The function `lcdDrawPixel`. -/
def lcdDrawPixel (dev : TFT_t) (x y color : Nat) : List Bus :=
  if x ≥ dev._width then []
  else if y ≥ dev._height then []
  else
    let _x := u16 (x + dev._offsetx)
    let _y := u16 (y + dev._offsety)
    spi_master_write_command 0x2A ++ spi_master_write_addr _x _x
      ++ spi_master_write_command 0x2B ++ spi_master_write_addr _y _y
      ++ spi_master_write_command 0x2C ++ spi_master_write_data_word color

/-- The function `lcdDrawMultiPixels`. -/
def lcdDrawMultiPixels (dev : TFT_t) (x y size : Nat) (colors : List Nat) :
    Option (List Bus) :=
  if x + size > dev._width then some []
  else if y ≥ dev._height then some []
  else
    let _x1 := u16 (x + dev._offsetx)
    let _x2 := u16 ((_x1 : Int) + ((size : Int) - 1))
    let _y1 := u16 (y + dev._offsety)
    let _y2 := _y1
    (spi_master_write_colors colors size).map fun px =>
      spi_master_write_command 0x2A ++ spi_master_write_addr _x1 _x2
        ++ spi_master_write_command 0x2B ++ spi_master_write_addr _y1 _y2
        ++ spi_master_write_command 0x2C ++ px

/-- The function `lcdDrawFillRect`.  The pixel count is an `int` product converted to
`uint32_t`. -/
def lcdDrawFillRect (dev : TFT_t) (x1 y1 x2 y2 color : Nat) : Option (List Bus) :=
  if x1 ≥ dev._width then some []
  else
    let x2 := if x2 ≥ dev._width then u16 ((dev._width : Int) - 1) else x2
    if y1 ≥ dev._height then some []
    else
      let y2 := if y2 ≥ dev._height then u16 ((dev._height : Int) - 1) else y2
      let _x1 := u16 (x1 + dev._offsetx)
      let _x2 := u16 (x2 + dev._offsetx)
      let _y1 := u16 (y1 + dev._offsety)
      let _y2 := u16 (y2 + dev._offsety)
      let size := u32 (wrap32 (((_x2 : Int) - _x1 + 1) * ((_y2 : Int) - _y1 + 1)))
      (spi_master_write_color color size).map fun px =>
        spi_master_write_command 0x2A ++ spi_master_write_addr _x1 _x2
          ++ spi_master_write_command 0x2B ++ spi_master_write_addr _y1 _y2
          ++ spi_master_write_command 0x2C ++ px

/-- The function `lcdFillScreen`. -/
def lcdFillScreen (dev : TFT_t) (color : Nat) : Option (List Bus) :=
  lcdDrawFillRect dev 0 0 (u16 ((dev._width : Int) - 1)) (u16 ((dev._height : Int) - 1)) color

/-- The `while (1)` loop of `lcdDrawLine`: the points handed to `lcdDrawPixel`, in
order.  `x1` and `y1` are `uint16_t`; `err` and `e2` are `int`. -/
def lcdDrawLine_loop (fuel : Nat) (x2 y2 : Nat) (dx dy sx sy : Int) (x1 y1 : Nat)
    (err : Int) : Option (List (Nat × Nat)) :=
  match fuel with
  | 0 => none
  | fuel + 1 =>
    if x1 = x2 ∧ y1 = y2 then some [(x1, y1)]
    else
      let e2 := wrap32 (2 * err)
      let err1 := if e2 ≥ dy then wrap32 (err + dy) else err
      let x1' := if e2 ≥ dy then u16 ((x1 : Int) + sx) else x1
      let err2 := if e2 ≤ dx then wrap32 (err1 + dx) else err1
      let y1' := if e2 ≤ dx then u16 ((y1 : Int) + sy) else y1
      (lcdDrawLine_loop fuel x2 y2 dx dy sx sy x1' y1' err2).map fun rest => (x1, y1) :: rest

/-- The points `lcdDrawLine(dev, x1, y1, x2, y2, color)` hands to `lcdDrawPixel`, in
order; the loop is cut after `2 ^ 17` iterations. -/
def lcdDrawLine_points (x1 y1 x2 y2 : Nat) : Option (List (Nat × Nat)) :=
  let dx : Int := wrap32 |wrap32 ((x2 : Int) - x1)|
  let dy : Int := wrap32 (- |wrap32 ((y2 : Int) - y1)|)
  let sx : Int := if x1 < x2 then 1 else -1
  let sy : Int := if y1 < y2 then 1 else -1
  let err : Int := wrap32 (dx + dy)
  lcdDrawLine_loop (2 ^ 17) x2 y2 dx dy sx sy x1 y1 err

/-- The bus traffic of a sequence of `lcdDrawPixel` calls. -/
def draw_points (dev : TFT_t) (color : Nat) (pts : List (Nat × Nat)) : List Bus :=
  (pts.map fun p => lcdDrawPixel dev p.1 p.2 color).flatten

/-- The function `lcdDrawLine`. -/
def lcdDrawLine (dev : TFT_t) (x1 y1 x2 y2 color : Nat) : Option (List Bus) :=
  (lcdDrawLine_points x1 y1 x2 y2).map (draw_points dev color)

/-- The points `lcdDrawRect` hands to `lcdDrawPixel`: four lines. -/
def lcdDrawRect_points (x1 y1 x2 y2 : Nat) : Option (List (Nat × Nat)) :=
  (lcdDrawLine_points x1 y1 x2 y1).bind fun l1 =>
  (lcdDrawLine_points x2 y1 x2 y2).bind fun l2 =>
  (lcdDrawLine_points x2 y2 x1 y2).bind fun l3 =>
  (lcdDrawLine_points x1 y2 x1 y1).map fun l4 => l1 ++ l2 ++ l3 ++ l4

/-- The function `lcdDrawRect`. -/
def lcdDrawRect (dev : TFT_t) (x1 y1 x2 y2 color : Nat) : Option (List Bus) :=
  (lcdDrawRect_points x1 y1 x2 y2).map (draw_points dev color)

/-- All bytes transmitted in a trace, in order. -/
def tx_bytes : List Bus → List Nat
  | [] => []
  | .tx b :: t => b ++ tx_bytes t
  | .dc _ :: t => tx_bytes t

/-- A window-setting write sequence as it appears on the bus: the column range, the
row range and the number of 16-bit pixels streamed after the memory-write command. -/
structure WindowWrite where
  x1 : Nat
  x2 : Nat
  y1 : Nat
  y2 : Nat
  pixels : Nat
  deriving DecidableEq

/-- Read a trace as: command 0x2A, four address bytes, command 0x2B, four address
bytes, command 0x2C, pixel data. -/
def parse_window_write : List Bus → Option WindowWrite
  | .dc 0 :: .tx [0x2A] :: .dc 1 :: .tx [a, b, c, d] :: .dc 0 :: .tx [0x2B] :: .dc 1
      :: .tx [e, f, g, h] :: .dc 0 :: .tx [0x2C] :: rest =>
    some { x1 := a * 256 + b, x2 := c * 256 + d, y1 := e * 256 + f, y2 := g * 256 + h,
           pixels := (tx_bytes rest).length / 2 }
  | _ => none

/-- The invariant of the addressing window: pixels streamed equals
`(x2 - x1 + 1) * (y2 - y1 + 1)`. -/
def WindowWrite.pixels_match (w : WindowWrite) : Prop :=
  (w.pixels : Int) = ((w.x2 : Int) - w.x1 + 1) * ((w.y2 : Int) - w.y1 + 1)

instance (w : WindowWrite) : Decidable w.pixels_match := by
  unfold WindowWrite.pixels_match
  infer_instance

/-- The loop of the Bresenham rule as the specification states it, on mathematical
integers: plot; stop when the current point is `(x2, y2)`; `e2 = 2 * err`; if
`e2 ≥ dy` then `err += dy`, `x += sx`; if `e2 ≤ dx` then `err += dx`, `y += sy`. -/
def bresenham_loop (fuel : Nat) (x2 y2 dx dy sx sy : Int) (x y err : Int) :
    Option (List (Int × Int)) :=
  match fuel with
  | 0 => none
  | fuel + 1 =>
    if x = x2 ∧ y = y2 then some [(x, y)]
    else
      let e2 := 2 * err
      let err1 := if e2 ≥ dy then err + dy else err
      let x' := if e2 ≥ dy then x + sx else x
      let err2 := if e2 ≤ dx then err1 + dx else err1
      let y' := if e2 ≤ dx then y + sy else y
      (bresenham_loop fuel x2 y2 dx dy sx sy x' y' err2).map fun rest => (x, y) :: rest

/-- The Bresenham rule of the specification: `dx = |x2 - x1|`, `dy = -|y2 - y1|`,
`sx = 1` if `x1 < x2` else `-1`, `sy = 1` if `y1 < y2` else `-1`, `err = dx + dy`. -/
def bresenham (fuel : Nat) (x1 y1 x2 y2 : Int) : Option (List (Int × Int)) :=
  bresenham_loop fuel x2 y2 |x2 - x1| (- |y2 - y1|) (if x1 < x2 then 1 else -1)
    (if y1 < y2 then 1 else -1) x1 y1 (|x2 - x1| + - |y2 - y1|)

/-- A point with 16-bit coordinates read as a point of the integer plane. -/
def to_int_point (p : Nat × Nat) : Int × Int := ((p.1 : Int), (p.2 : Int))

/-- The C conversion `(int)` of a `double`: truncation toward zero. -/
def to_int (q : ℚ) : Int := if 0 ≤ q then ⌊q⌋ else ⌈q⌉

/-- The four corners computed by `lcdDrawRectAngle`. -/
structure Corners where
  x1 : Int
  y1 : Int
  x2 : Int
  y2 : Int
  x3 : Int
  y3 : Int
  x4 : Int
  y4 : Int
  deriving DecidableEq

/-- The corner computation of `lcdDrawRectAngle` (lines 481-498).  `c` and `s` stand for
the values `cos(rd)` and `sin(rd)`; `double` arithmetic is written as exact rational
arithmetic, which is what it is as long as every intermediate value is an integer of
moderate size, as is the case for `c = 1`, `s = 0`. -/
def lcdDrawRectAngle_corners (c s : ℚ) (xc yc w h : Nat) : Corners :=
  let xd : ℚ := 0 - ((w / 2 : Nat) : ℚ)
  let yd : ℚ := ((h / 2 : Nat) : ℚ)
  let x1 := to_int (xd * c - yd * s + xc)
  let y1 := to_int (xd * s + yd * c + yc)
  let yd : ℚ := 0 - yd
  let x2 := to_int (xd * c - yd * s + xc)
  let y2 := to_int (xd * s + yd * c + yc)
  let xd : ℚ := ((w / 2 : Nat) : ℚ)
  let yd : ℚ := ((h / 2 : Nat) : ℚ)
  let x3 := to_int (xd * c - yd * s + xc)
  let y3 := to_int (xd * s + yd * c + yc)
  let yd : ℚ := 0 - yd
  let x4 := to_int (xd * c - yd * s + xc)
  let y4 := to_int (xd * s + yd * c + yc)
  { x1 := x1, y1 := y1, x2 := x2, y2 := y2, x3 := x3, y3 := y3, x4 := x4, y4 := y4 }

/-- The points `lcdDrawRectAngle` hands to `lcdDrawPixel` (lines 500-503): the `int`
corners are converted to the `uint16_t` parameters of `lcdDrawLine`. -/
def lcdDrawRectAngle_points (c s : ℚ) (xc yc w h : Nat) : Option (List (Nat × Nat)) :=
  let k := lcdDrawRectAngle_corners c s xc yc w h
  (lcdDrawLine_points (u16 k.x1) (u16 k.y1) (u16 k.x2) (u16 k.y2)).bind fun l1 =>
  (lcdDrawLine_points (u16 k.x1) (u16 k.y1) (u16 k.x3) (u16 k.y3)).bind fun l2 =>
  (lcdDrawLine_points (u16 k.x2) (u16 k.y2) (u16 k.x4) (u16 k.y4)).bind fun l3 =>
  (lcdDrawLine_points (u16 k.x3) (u16 k.y3) (u16 k.x4) (u16 k.y4)).map fun l4 =>
    l1 ++ l2 ++ l3 ++ l4

/-- The function `lcdDrawRectAngle`, with `c = cos(rd)` and `s = sin(rd)` for
`rd = -angle * M_PI / 180.0`. -/
def lcdDrawRectAngle (dev : TFT_t) (c s : ℚ) (xc yc w h color : Nat) : Option (List Bus) :=
  (lcdDrawRectAngle_points c s xc yc w h).map (draw_points dev color)

/-- The window-setting part of a write sequence: column range, row range, memory
write. -/
def set_window (xa xb ya yb : Nat) : List Bus :=
  spi_master_write_command 0x2A ++ spi_master_write_addr xa xb
    ++ spi_master_write_command 0x2B ++ spi_master_write_addr ya yb
    ++ spi_master_write_command 0x2C

/-- A 10 x 10 panel without offsets. -/
def small_panel : TFT_t := { _width := 10, _height := 10, _offsetx := 0, _offsety := 0 }

/-- A 10 x 10 panel with offsets 2 and 3. -/
def offset_panel : TFT_t := { _width := 10, _height := 10, _offsetx := 2, _offsety := 3 }

/-- A 240 x 320 panel whose column offset is the largest 16-bit value. -/
def wrap_panel : TFT_t := { _width := 240, _height := 320, _offsetx := 65535, _offsety := 0 }

/-- Read a trace as a sequence of data-mode sub-transfers: the D/C line is set to
`SPI_Data_Mode` and one block of bytes is transmitted, again and again.  The result is
the list of blocks; a trace of any other shape gives `none`. -/
def sub_transfers : List Bus → Option (List (List Nat))
  | [] => some []
  | .dc 1 :: .tx b :: rest => (sub_transfers rest).map fun bs => b :: bs
  | _ => none

/-- The two bytes of a 16-bit pixel on the wire, high byte first. -/
def big_endian (c : Nat) : List Nat := [c / 256, c % 256]

/-- Two points of the integer plane that differ by at most 1 in each coordinate. -/
def near (p q : Int × Int) : Prop :=
  -1 ≤ q.1 - p.1 ∧ q.1 - p.1 ≤ 1 ∧ -1 ≤ q.2 - p.2 ∧ q.2 - p.2 ≤ 1

/-- The shape of the rest of a line: `n + 1` points that start at `(x, y)`, end at
`(x2, y2)`, move by at most one step per coordinate, and stay within `rx` columns and
`ry` rows of the end point, on the side the line comes from. -/
def line_shape (x2 y2 sx sy x y : Int) (rx ry n : Nat) (pts : List (Int × Int)) : Prop :=
  pts.length = n + 1 ∧ pts.head? = some (x, y) ∧ pts.getLast? = some (x2, y2) ∧
    List.Chain' near pts ∧
    ∀ p ∈ pts, 0 ≤ sx * (x2 - p.1) ∧ sx * (x2 - p.1) ≤ rx ∧
      0 ≤ sy * (y2 - p.2) ∧ sy * (y2 - p.2) ≤ ry

/-- Two points with 16-bit coordinates that differ by at most 1 in each coordinate. -/
def adjacent (p q : Nat × Nat) : Prop :=
  p.1 ≤ q.1 + 1 ∧ q.1 ≤ p.1 + 1 ∧ p.2 ≤ q.2 + 1 ∧ q.2 ≤ p.2 + 1

end ST7796S

namespace Rgb565Ani

/-! ## Theorems about the animation streamer -/

theorem heap_step_of_not_isHeap (live : List Buf) (e : Event) (h : e.isHeap = false) :
    heap_step live e = some live := by
  cases e <;> simp_all [Event.isHeap, heap_step]

theorem heap_run_filter (live : List Buf) (t : List Event) :
    heap_run live (t.filter Event.isHeap) = heap_run live t := by
  induction t generalizing live with
  | nil => rfl
  | cons e t ih =>
    by_cases h : e.isHeap = true
    · rw [List.filter_cons_of_pos h]
      simp only [heap_run]
      cases heap_step live e with
      | none => rfl
      | some l => exact ih l
    · have h' : e.isHeap = false := by simpa using h
      rw [List.filter_cons_of_neg h]
      simp only [heap_run, heap_step_of_not_isHeap live e h']
      exact ih live

theorem read_header_filter_isHeap (fp : FILE) :
    (read_header fp).1.filter Event.isHeap = [] := by
  unfold read_header
  simp only []
  split_ifs <;> rfl

theorem band_loop_filter_isHeap (fuel width : Nat) (src : Buf) (frame : List Byte)
    (fbs dbs lr cl : Nat) :
    (band_loop fuel width src frame fbs dbs lr cl).2.filter Event.isHeap = [] := by
  induction fuel generalizing lr cl with
  | zero => unfold band_loop; split_ifs <;> rfl
  | succ n ih =>
    unfold band_loop
    simp only []
    split_ifs <;> simp [List.filter_cons, Event.isHeap, ih]

theorem playback_loop_filter_isHeap (fuel : Nat) (hdr : Header) (fbs dbs : Nat) (fp : FILE)
    (fn : Nat) (cur nxt : Buf) :
    (playback_loop fuel hdr fbs dbs fp fn cur nxt).2.1.filter Event.isHeap = [] := by
  induction fuel generalizing fp fn cur nxt with
  | zero => rfl
  | succ n ih =>
    unfold playback_loop
    simp only []
    split_ifs <;> (try split) <;>
      simp [List.filter_cons, Event.isHeap, band_loop_filter_isHeap, ih]

/-- The loop `band_loop` never runs out of fuel when given one unit per remaining line. -/
theorem band_loop_fuel (fuel width : Nat) (src : Buf) (frame : List Byte)
    (fbs dbs lr cl : Nat) (h : lr ≤ fuel) :
    (band_loop fuel width src frame fbs dbs lr cl).1 ≠ some .out_of_fuel := by
  induction fuel generalizing lr cl with
  | zero =>
    have : lr = 0 := by omega
    subst this
    simp [band_loop]
  | succ n ih =>
    unfold band_loop
    simp only []
    split_ifs with h1 h2 h3
    · simp
    · exact ih _ _ (by omega)
    · simp
    · exact ih _ _ (by omega)
    · simp

theorem fread_data_length (size nmemb : Nat) (fp : FILE) :
    (fread size nmemb fp).fp.data.length = fp.data.length - size * nmemb := by
  simp [fread]

/-- The loop `playback_loop` never runs out of fuel when given more fuel than the stream has
bytes left. -/
theorem playback_loop_fuel (fuel : Nat) (hdr : Header) (fbs dbs : Nat) (fp : FILE)
    (fn : Nat) (cur nxt : Buf) (h : fp.data.length < fuel) :
    (playback_loop fuel hdr fbs dbs fp fn cur nxt).1 ≠ some .out_of_fuel := by
  induction fuel generalizing fp fn cur nxt with
  | zero => omega
  | succ n ih =>
    unfold playback_loop
    simp only []
    have hb := band_loop_fuel hdr.height hdr.width nxt
      (fread 1 fbs (fread 4 1 fp).fp).bytes fbs dbs hdr.height 0 (Nat.le_refl _)
    split_ifs with h1 h2 h3 <;> (try split) <;> (try simp)
    all_goals first
      | (rename_i f hf
         rw [hf] at hb
         simpa using hb)
      | (apply ih
         have h5 : (fread 4 1 fp).count = 1 := by simpa using h1
         have h6 : 4 ≤ fp.data.length := by
           simp only [fread, List.length_take] at h5
           omega
         rw [fread_data_length, fread_data_length]
         omega)

theorem playback_terminates (heap : Buf → Nat → Bool) (hdr : Header) (fp : FILE) :
    (playback heap hdr fp).1 ≠ .fault .out_of_fuel := by
  unfold playback
  have := playback_loop_fuel (fp.data.length + 1) hdr
    ((hdr.width * hdr.height * 2) % 2 ^ 32) ((hdr.width * 160 * 2) % 2 ^ 32) fp 0
    .frame_buffer_a .frame_buffer_b (Nat.lt_succ_self _)
  simp only []
  split
  · simp
  · split
    · simp
    · split
      · rename_i f hf
        rw [hf] at this
        simpa using this
      · simp

theorem playback_heap (heap : Buf → Nat → Bool) (hdr : Header) (fp : FILE) (e : esp_err_t)
    (h : (playback heap hdr fp).1 = .returned e) :
    heap_run [] ((playback heap hdr fp).2.filter Event.isHeap) = some [] := by
  have hrun := playback_loop_filter_isHeap (fp.data.length + 1) hdr
    ((hdr.width * hdr.height * 2) % 2 ^ 32) ((hdr.width * 160 * 2) % 2 ^ 32) fp 0
    .frame_buffer_a .frame_buffer_b
  revert h hrun
  unfold playback
  simp only []
  generalize playback_loop (fp.data.length + 1) hdr ((hdr.width * hdr.height * 2) % 2 ^ 32)
    ((hdr.width * 160 * 2) % 2 ^ 32) fp 0 .frame_buffer_a .frame_buffer_b = run
  generalize heap Buf.frame_buffer_a (hdr.width * hdr.height * 2 % 2 ^ 32) = a
  generalize heap Buf.frame_buffer_b (hdr.width * hdr.height * 2 % 2 ^ 32) = b
  generalize heap Buf.dma_buffer (hdr.width * 160 * 2 % 2 ^ 32) = d
  rcases run with ⟨_ | f, evs, n⟩ <;> cases a <;> cases b <;> cases d <;> intro h hrun <;>
    simp only [] at hrun <;>
    simp [List.filter_cons, Event.isHeap, heap_run, heap_step, hrun] at h ⊢

theorem play_rgb565ani_terminates (heap : Buf → Nat → Bool) (file : Option FILE)
    (sw sh : Int) : (play_rgb565ani heap file sw sh).1 ≠ .fault .out_of_fuel := by
  unfold play_rgb565ani
  cases file with
  | none => simp
  | some fp0 =>
    simp only []
    split
    · simp
    · exact playback_terminates _ _ _

theorem dimension_warning_filter_isHeap (hdr : Header) (sw sh : Int) :
    (dimension_warning hdr sw sh).filter Event.isHeap = [] := by
  unfold dimension_warning
  split_ifs <;> rfl

theorem play_rgb565ani_heap (heap : Buf → Nat → Bool) (file : Option FILE)
    (sw sh : Int) (e : esp_err_t) (h : (play_rgb565ani heap file sw sh).1 = .returned e) :
    heap_run [] (play_rgb565ani heap file sw sh).2 = some [] := by
  rw [← heap_run_filter]
  revert h
  unfold play_rgb565ani
  cases file with
  | none => intro _; rfl
  | some fp0 =>
    simp only []
    split
    · intro _
      simp [List.filter_cons, Event.isHeap, read_header_filter_isHeap, heap_run]
    · intro h
      simp only [List.filter_append, read_header_filter_isHeap,
        dimension_warning_filter_isHeap]
      simpa [List.filter_cons, Event.isHeap] using playback_heap _ _ _ e h

theorem strcmp_eq_zero_iff (a b : List Byte) (hlen : a.length = b.length)
    (hb : ∀ x ∈ b, x ≠ 0) : strcmp (a ++ [0]) (b ++ [0]) = 0 ↔ a = b := by
  induction a generalizing b with
  | nil =>
    cases b with
    | nil => simp [strcmp]
    | cons y bs => simp at hlen
  | cons x as ih =>
    cases b with
    | nil => simp at hlen
    | cons y bs =>
      have hy : y ≠ 0 := hb y (by simp)
      simp only [List.cons_append, strcmp]
      by_cases hxy : x = y
      · subst hxy
        have hx : x.val ≠ 0 := fun h => hy (Fin.ext h)
        simp only [ne_eq, not_true_eq_false, ↓reduceIte, hx, List.cons.injEq, true_and]
        exact ih bs (by simpa using hlen) (fun z hz => hb z (by simp [hz]))
      · have : (x.val : Int) - (y.val : Int) ≠ 0 := by
          intro h
          apply hxy
          apply Fin.ext
          omega
        simp [hxy, this]

theorem MAGIC_ne_zero : ∀ x ∈ MAGIC, x ≠ 0 := by
  simp [MAGIC]

/-- When the stream holds a good header, `read_header` succeeds and decodes it. -/
theorem read_header_ok (fp : FILE) (h17 : 17 ≤ fp.data.length) (hm : fp.data.take 9 = MAGIC) :
    read_header fp =
      ([.fread 1 9 9, .fread 4 1 1, .fread 2 1 1, .fread 2 1 1, .logI .header_info],
        some ({ frame_count := le ((fp.data.drop 9).take 4)
                width := le ((fp.data.drop 13).take 2)
                height := le ((fp.data.drop 15).take 2) },
              { data := fp.data.drop 17, ioError := fp.ioError, eofFlag := fp.eofFlag })) := by
  have hs : strcmp (fp.data.take 9 ++ [0]) (MAGIC ++ [0]) = 0 := by
    rw [hm]; decide
  unfold read_header
  simp only [fread, Nat.mul_one, Nat.one_mul, List.length_take, List.length_drop, hs]
  have e1 : min 9 fp.data.length = 9 := by omega
  have e2 : min 4 (fp.data.length - 9) = 4 := by omega
  have e3 : min 2 (fp.data.length - 9 - 4) = 2 := by omega
  have e4 : min 2 (fp.data.length - 9 - 4 - 2) = 2 := by omega
  simp [e1, e2, e3, e4]

/-- The events of a failed header read. -/
theorem read_header_fail (fp : FILE) (h : ¬ (17 ≤ fp.data.length ∧ fp.data.take 9 = MAGIC)) :
    (read_header fp).2 = none ∧
      ∀ e ∈ (read_header fp).1,
        e.isHeap = false ∧ e.isBlit = false ∧ e ≠ .logI .header_info := by
  have hs : 9 ≤ fp.data.length →
      (strcmp (fp.data.take 9 ++ [0]) (MAGIC ++ [0]) = 0 ↔ fp.data.take 9 = MAGIC) := by
    intro h9
    apply strcmp_eq_zero_iff _ _ _ MAGIC_ne_zero
    simp [MAGIC]; omega
  unfold read_header
  simp only [fread, Nat.mul_one, Nat.one_mul, List.length_take, List.length_drop]
  split_ifs with h1 h2 h3 h4 h5
  all_goals try (simp [Event.isHeap, Event.isBlit])
  exfalso
  apply h
  have h9 : 9 ≤ fp.data.length := by omega
  refine ⟨by omega, (hs h9).1 (by simpa using h2)⟩

theorem play_rgb565ani_header_info (heap : Buf → Nat → Bool) (file : Option FILE)
    (sw sh : Int) :
    Event.logI Msg.header_info ∈ (play_rgb565ani heap file sw sh).2 ↔ good_header file := by
  cases file with
  | none => simp [play_rgb565ani, good_header]
  | some fp0 =>
    by_cases hg : 17 ≤ fp0.data.length ∧ fp0.data.take 9 = MAGIC
    · have := read_header_ok fp0 hg.1 hg.2
      simp only [play_rgb565ani, this]
      simp [good_header, hg]
    · have := read_header_fail fp0 hg
      have h2 := this.1
      simp only [play_rgb565ani]
      split
      · simp only [good_header, hg, iff_false]
        intro hmem
        simp only [List.cons_append, List.nil_append, List.mem_cons, reduceCtorEq,
          false_or] at hmem
        exact (this.2 _ hmem).2.2 rfl
      · rename_i heq
        rw [h2] at heq
        cases heq

theorem play_rgb565ani_bad_header (heap : Buf → Nat → Bool) (file : Option FILE)
    (sw sh : Int) (hbad : ¬ good_header file) :
    (play_rgb565ani heap file sw sh).1 = .returned .ESP_FAIL ∧
      ∀ e ∈ (play_rgb565ani heap file sw sh).2, e.isHeap = false ∧ e.isBlit = false := by
  cases file with
  | none => simp [play_rgb565ani, Event.isHeap, Event.isBlit]
  | some fp0 =>
    have hg : ¬ (17 ≤ fp0.data.length ∧ fp0.data.take 9 = MAGIC) := hbad
    have := read_header_fail fp0 hg
    have h2 := this.1
    simp only [play_rgb565ani]
    split
    · refine ⟨rfl, ?_⟩
      intro e he
      simp only [List.cons_append, List.nil_append, List.mem_cons] at he
      rcases he with rfl | rfl | he
      · simp [Event.isHeap, Event.isBlit]
      · simp [Event.isHeap, Event.isBlit]
      · exact ⟨(this.2 e he).1, (this.2 e he).2.1⟩
    · rename_i heq
      rw [h2] at heq
      cases heq

theorem dimension_warning_filter (hdr : Header) (sw sh : Int) :
    (dimension_warning hdr sw sh).filter (fun e => decide (e ≠ .logW .dimension_mismatch))
      = [] := by
  unfold dimension_warning
  split_ifs <;> simp

theorem dimension_warning_blits (hdr : Header) (sw sh : Int) :
    blits (dimension_warning hdr sw sh) = [] := by
  unfold dimension_warning blits
  split_ifs <;> simp [Event.isBlit]

theorem play_rgb565ani_screen_size (heap : Buf → Nat → Bool) (file : Option FILE)
    (sw sh sw' sh' : Int) :
    (play_rgb565ani heap file sw sh).1 = (play_rgb565ani heap file sw' sh').1 ∧
    blits (play_rgb565ani heap file sw sh).2 = blits (play_rgb565ani heap file sw' sh').2 ∧
    (play_rgb565ani heap file sw sh).2.filter
        (fun e => decide (e ≠ .logW .dimension_mismatch)) =
      (play_rgb565ani heap file sw' sh').2.filter
        (fun e => decide (e ≠ .logW .dimension_mismatch)) := by
  cases file with
  | none => simp [play_rgb565ani]
  | some fp0 =>
    simp only [play_rgb565ani]
    split
    · simp
    · refine ⟨rfl, ?_, ?_⟩
      · simp only [blits, List.filter_append]
        have h1 := dimension_warning_blits
        simp only [blits] at h1
        rw [h1, h1]
      · simp only [List.filter_append, dimension_warning_filter]

theorem blits_band_cons (src : Buf) (off n x y w h : Nat) (d : List Byte) (t : List Event) :
    blits ([Event.memcpy src off n, Event.blit x y w h d, Event.wdt_reset] ++ t)
      = Event.blit x y w h d :: blits t := by
  simp [blits, List.filter_cons, Event.isBlit]

theorem band_loop_blits (w h : Nat) (src : Buf) (frame : List Byte) (fbs dbs : Nat)
    (hh : h < 2 ^ 16) (hfbs : w * h * 2 ≤ fbs) (hsize : w * h * 2 < 2 ^ 31)
    (hdbs : w * 160 * 2 ≤ dbs) (fuel : Nat) :
    ∀ k cl, h - 160 * k ≤ fuel → (0 < h - 160 * k → cl = 160 * k) →
      (band_loop fuel w src frame fbs dbs (h - 160 * k) cl).1 = none ∧
      blits (band_loop fuel w src frame fbs dbs (h - 160 * k) cl).2
        = (List.range' k ((h + 159) / 160 - k)).map (expected_band w h frame) := by
  induction fuel with
  | zero =>
    intro k cl hk _
    have h0 : h - 160 * k = 0 := by omega
    have h1 : (h + 159) / 160 - k = 0 := by omega
    simp [band_loop, h0, h1, blits]
  | succ n ih =>
    intro k cl hk hcl
    unfold band_loop
    simp only []
    by_cases hpos : h - 160 * k > 0
    · have hcl' := hcl hpos
      subst hcl'
      set ltt := (if h - 160 * k > 160 then 160 else h - 160 * k) with hltt
      have hltt' : ltt = min 160 (h - 160 * k) := by
        rw [hltt]; split_ifs <;> omega
      have hle : 160 * k + ltt ≤ h := by omega
      have hm1 : w * (160 * k + ltt) ≤ w * h := Nat.mul_le_mul_left _ hle
      have hm2 : w * ltt ≤ w * 160 := Nat.mul_le_mul_left _ (by omega)
      have hb : w * ltt * 2 % 2 ^ 32 = w * ltt * 2 := by
        apply Nat.mod_eq_of_lt
        have : w * ltt ≤ w * (160 * k + ltt) := Nat.mul_le_mul_left _ (by omega)
        omega
      have hoff : 160 * k * w * 2 + w * ltt * 2 = w * (160 * k + ltt) * 2 := by ring
      have hcond : ¬ (2 ^ 31 ≤ 160 * k * w * 2 ∨ fbs < 160 * k * w * 2 + w * ltt * 2 % 2 ^ 32
          ∨ dbs < w * ltt * 2 % 2 ^ 32) := by
        rw [hb, hoff]
        have : 160 * k * w * 2 ≤ w * (160 * k + ltt) * 2 := by rw [← hoff]; omega
        omega
      rw [if_pos hpos, if_neg hcond]
      have hnext : h - 160 * k - ltt = h - 160 * (k + 1) := by omega
      have hrec := ih (k + 1) ((160 * k + ltt % 2 ^ 16) % 2 ^ 16) (by omega) (by
        intro hp
        omega)
      rw [hnext]
      refine ⟨hrec.1, ?_⟩
      simp only []
      rw [blits_band_cons, hrec.2]
      have hcount : (h + 159) / 160 - k = ((h + 159) / 160 - (k + 1)) + 1 := by omega
      rw [hcount, List.range'_succ, List.map_cons]
      congr 1
      simp only [expected_band, hb, ← hltt']
      congr 1
      omega
    · have h0 : h - 160 * k = 0 := by omega
      have h1 : (h + 159) / 160 - k = 0 := by omega
      rw [if_neg hpos]
      simp [h1, blits]

theorem le_lt (bs : List Byte) : le bs < 256 ^ bs.length := by
  induction bs with
  | nil => simp [le]
  | cons b bs ih =>
    have := b.isLt
    simp only [le, List.length_cons, pow_succ]
    omega

theorem fread_append (size nmemb : Nat) (fp : FILE) (a tail : List Byte)
    (hdata : fp.data = a ++ tail) (hlen : a.length = size * nmemb) (hsize : 0 < size) :
    (fread size nmemb fp).bytes = a ∧ (fread size nmemb fp).count = nmemb ∧
      (fread size nmemb fp).fp = { data := tail, ioError := fp.ioError, eofFlag := fp.eofFlag } := by
  simp only [fread, hdata, ← hlen, List.take_left', List.drop_left', true_and]
  refine ⟨?_, ?_⟩
  · rw [hlen]; exact Nat.mul_div_cancel_left _ hsize
  · simp

theorem playback_loop_blits (hdr : Header) (fbs dbs : Nat)
    (hh : hdr.height < 2 ^ 16) (hfbs : fbs = hdr.width * hdr.height * 2)
    (hsize : hdr.width * hdr.height * 2 < 2 ^ 31)
    (hdbs : hdr.width * 160 * 2 ≤ dbs) (hfc : hdr.frame_count < 2 ^ 32) :
    ∀ (frames : List (List Byte × List Byte)) (fuel : Nat) (fp : FILE) (fn : Nat)
      (cur nxt : Buf) (tail : List Byte),
      frames ≠ [] → frames.length ≤ fuel → fp.data = frame_records frames ++ tail →
      hdr.frame_count = fn + frames.length →
      (∀ f ∈ frames, f.1.length = 4 ∧ f.2.length = fbs) →
      (playback_loop fuel hdr fbs dbs fp fn cur nxt).1 = none ∧
      blits (playback_loop fuel hdr fbs dbs fp fn cur nxt).2.1
        = expected_blits hdr.width hdr.height frames := by
  intro frames
  induction frames with
  | nil => intro _ _ _ _ _ _ h; exact absurd rfl h
  | cons f fs ih =>
    intro fuel fp fn cur nxt tail _ hfuel hdata hcount hframes
    obtain ⟨n, rfl⟩ : ∃ n, fuel = n + 1 := ⟨fuel - 1, by simp at hfuel; omega⟩
    have hf := hframes f (by simp)
    have hd1 : fp.data = f.1 ++ (f.2 ++ frame_records fs ++ tail) := by
      simp [hdata, frame_records]
    obtain ⟨-, r1c, r1f⟩ := fread_append 4 1 fp f.1 _ hd1 (by simp [hf.1]) (by omega)
    obtain ⟨r2b, r2c, r2f⟩ := fread_append 1 fbs
      { data := f.2 ++ frame_records fs ++ tail, ioError := fp.ioError, eofFlag := fp.eofFlag }
      f.2 (frame_records fs ++ tail) (by simp) (by simp [hf.2]) (by omega)
    have hbands := band_loop_blits hdr.width hdr.height nxt f.2 fbs dbs hh (by omega) hsize hdbs
      hdr.height 0 0 (by omega) (by intro; rfl)
    simp only [Nat.mul_zero, Nat.sub_zero] at hbands
    have hfn : (fn + 1) % 2 ^ 32 = fn + 1 := by
      apply Nat.mod_eq_of_lt
      simp only [List.length_cons] at hcount
      omega
    unfold playback_loop
    simp only [r1c, r1f, r2b, r2c, r2f, ne_eq, not_true_eq_false, ↓reduceIte, hfn, hbands.1]
    have hexp : expected_blits hdr.width hdr.height (f :: fs)
        = blits (band_loop hdr.height hdr.width nxt f.2 fbs dbs hdr.height 0).2
          ++ expected_blits hdr.width hdr.height fs := by
      rw [hbands.2]
      simp [expected_blits, expected_bands, List.range_eq_range']
    cases fs with
    | nil =>
      have : hdr.frame_count ≤ fn + 1 := by simp at hcount; omega
      rw [if_pos this]
      refine ⟨rfl, ?_⟩
      rw [hexp]
      simp [blits, List.filter_cons, Event.isBlit, expected_blits]
    | cons g gs =>
      have : ¬ hdr.frame_count ≤ fn + 1 := by simp at hcount; omega
      rw [if_neg this]
      have hrec := ih n
        { data := frame_records (g :: gs) ++ tail, ioError := fp.ioError, eofFlag := fp.eofFlag }
        (fn + 1) nxt cur tail (by simp) (by simp at hfuel ⊢; omega) rfl
        (by simp at hcount ⊢; omega) (fun x hx => hframes x (by simp [hx]))
      refine ⟨hrec.1, ?_⟩
      rw [hexp, ← hrec.2]
      simp [blits, List.filter_cons, Event.isBlit]

/-- Running `read_header` on a stream that starts with magic, frame count, width, height. -/
theorem read_header_append (fp : FILE) (fc wb hb body : List Byte)
    (hdata : fp.data = MAGIC ++ fc ++ wb ++ hb ++ body)
    (hfc : fc.length = 4) (hwb : wb.length = 2) (hhb : hb.length = 2) :
    read_header fp =
      ([.fread 1 9 9, .fread 4 1 1, .fread 2 1 1, .fread 2 1 1, .logI .header_info],
        some ({ frame_count := le fc, width := le wb, height := le hb },
              { data := body, ioError := fp.ioError, eofFlag := fp.eofFlag })) := by
  have hlen : fp.data.length = 17 + body.length := by
    simp [hdata, hfc, hwb, hhb, MAGIC]; omega
  have h9 : fp.data.take 9 = MAGIC := by
    rw [hdata]; simp only [List.append_assoc]
    exact List.take_left' rfl
  have d9 : fp.data.drop 9 = fc ++ (wb ++ (hb ++ body)) := by
    rw [hdata]; simp only [List.append_assoc]
    exact List.drop_left' rfl
  have d13 : fp.data.drop 13 = wb ++ (hb ++ body) := by
    rw [show 13 = 9 + 4 from rfl, ← List.drop_drop, d9]
    exact List.drop_left' hfc
  have d15 : fp.data.drop 15 = hb ++ body := by
    rw [show 15 = 13 + 2 from rfl, ← List.drop_drop, d13]
    exact List.drop_left' hwb
  have d17 : fp.data.drop 17 = body := by
    rw [show 17 = 15 + 2 from rfl, ← List.drop_drop, d15]
    exact List.drop_left' hhb
  rw [read_header_ok fp (by omega) h9, d9, d13, d15, d17,
    List.take_left' hfc, List.take_left' hwb, List.take_left' hhb]

/-- A band whose `memcpy` does not fit the frame buffer stops the run. -/
theorem band_loop_overflow (n width : Nat) (src : Buf) (frame : List Byte)
    (fbs dbs lr : Nat) (hlr : 0 < lr)
    (hov : fbs < (width * (if lr > 160 then 160 else lr) * 2) % 2 ^ 32) :
    (band_loop (n + 1) width src frame fbs dbs lr 0).1 = some .undefined_behaviour := by
  unfold band_loop
  simp only [gt_iff_lt, hlr, ↓reduceIte, Nat.zero_mul, Nat.zero_add]
  rw [if_pos (Or.inr (Or.inl hov))]

/-- A declared geometry whose byte size wraps around `size_t` makes the first band of
the first frame read outside the frame buffer. -/
theorem playback_overflow (heap : Buf → Nat → Bool) (hdr : Header) (fp : FILE)
    (dur payload tail : List Byte)
    (hdata : fp.data = dur ++ payload ++ tail) (hdur : dur.length = 4)
    (hpay : payload.length = (hdr.width * hdr.height * 2) % 2 ^ 32)
    (hheap : ∀ b n, heap b n = true)
    (hh : 0 < hdr.height)
    (hov : (hdr.width * hdr.height * 2) % 2 ^ 32
      < (hdr.width * (if hdr.height > 160 then 160 else hdr.height) * 2) % 2 ^ 32) :
    (playback heap hdr fp).1 = .fault .undefined_behaviour := by
  have hd1 : fp.data = dur ++ (payload ++ tail) := by simp [hdata]
  obtain ⟨-, r1c, r1f⟩ := fread_append 4 1 fp dur _ hd1 (by simp [hdur]) (by omega)
  obtain ⟨r2b, r2c, r2f⟩ := fread_append 1 ((hdr.width * hdr.height * 2) % 2 ^ 32)
    { data := payload ++ tail, ioError := fp.ioError, eofFlag := fp.eofFlag }
    payload tail rfl (by simp [hpay]) (by omega)
  obtain ⟨m, hm⟩ : ∃ m, hdr.height = m + 1 := ⟨hdr.height - 1, by omega⟩
  have hband := band_loop_overflow m hdr.width .frame_buffer_b payload
    ((hdr.width * hdr.height * 2) % 2 ^ 32) ((hdr.width * 160 * 2) % 2 ^ 32) hdr.height hh hov
  rw [← hm] at hband
  unfold playback
  simp only [hheap, Bool.not_true, Bool.or_self, Bool.false_eq_true, ↓reduceIte]
  unfold playback_loop
  simp only [r1c, r1f, r2b, r2c, r2f, ne_eq, not_true_eq_false, ↓reduceIte, hband]

theorem replicate_split (n m : Nat) (a : Byte) (h : m ≤ n) :
    List.replicate n a = List.replicate m a ++ List.replicate (n - m) a := by
  rw [List.append_replicate_replicate]
  congr 1
  omega

theorem huge_frame_length : huge_frame.length = 65535 * 32769 * 2 := by
  unfold huge_frame
  exact List.length_replicate _ _

theorem huge_frame_split : huge_frame = List.replicate 65534 0 ++ List.replicate (65535 * 32769 * 2 - 65534) 0 := by
  unfold huge_frame
  exact replicate_split _ _ _ (by norm_num)

theorem play_of_header (heap : Buf → Nat → Bool) (fp0 fp : FILE) (sw sh : Int)
    (evs : List Event) (hdr : Header) (h : read_header fp0 = (evs, some (hdr, fp))) :
    (play_rgb565ani heap (some fp0) sw sh).1 = (playback heap hdr fp).1 := by
  simp only [play_rgb565ani, h]

theorem huge_header :
    read_header huge_file =
    ([Event.fread 1 9 9, Event.fread 4 1 1, Event.fread 2 1 1, Event.fread 2 1 1,
      Event.logI Msg.header_info],
      some ({ frame_count := 1, width := 65535, height := 32769 },
        { data := frame_records [([0, 0, 0, 0], huge_frame)], ioError := false,
          eofFlag := false })) := by
  have hle1 : le [255, 255] = 65535 := by decide
  have hle2 : le [1, 128] = 32769 := by decide
  have hle3 : le [1, 0, 0, 0] = 1 := by decide
  have hf1 : huge_file.ioError = false := rfl
  have hf2 : huge_file.eofFlag = false := rfl
  rw [read_header_append huge_file [1, 0, 0, 0] [255, 255] [1, 128]
    (frame_records [([0, 0, 0, 0], huge_frame)]) rfl rfl rfl rfl, hle1, hle2, hle3, hf1, hf2]

theorem huge_playback :
    (playback heap_ok { frame_count := 1, width := 65535, height := 32769 }
      { data := frame_records [([0, 0, 0, 0], huge_frame)], ioError := false,
          eofFlag := false }).1 = .fault .undefined_behaviour :=
  playback_overflow heap_ok { frame_count := 1, width := 65535, height := 32769 }
    { data := frame_records [([0, 0, 0, 0], huge_frame)], ioError := false, eofFlag := false }
    [0, 0, 0, 0] (List.replicate 65534 0) (List.replicate (65535 * 32769 * 2 - 65534) 0)
    (by simp only [frame_records, huge_frame_split, List.append_nil, List.append_assoc]) rfl
    (by rw [List.length_replicate]; norm_num) (fun _ _ => rfl) (by norm_num) (by norm_num)

theorem acknowledged_append (p : Bool) (a b : List Event) (ha : acknowledged p a = true)
    (hb : acknowledged false b = true) : acknowledged p (a ++ b) = true := by
  induction a generalizing p with
  | nil =>
    cases p
    · simpa using hb
    · simp [acknowledged] at ha
  | cons e t ih =>
    cases e <;> simp only [acknowledged, List.cons_append, Bool.and_eq_true] at ha ⊢
    all_goals first
      | exact ih _ ha
      | exact ⟨ha.1, ih _ ha.2⟩

theorem read_header_acknowledged (fp : FILE) : acknowledged false (read_header fp).1 = true := by
  unfold read_header
  simp only []
  split_ifs <;> rfl

theorem dimension_warning_acknowledged (hdr : Header) (sw sh : Int) :
    acknowledged false (dimension_warning hdr sw sh) = true := by
  unfold dimension_warning
  split_ifs <;> rfl

/-- In the band loop every blit is directly followed by `esp_task_wdt_reset`. -/
theorem band_loop_acknowledged (fuel width : Nat) (src : Buf) (frame : List Byte)
    (fbs dbs lr cl : Nat) :
    acknowledged false (band_loop fuel width src frame fbs dbs lr cl).2 = true := by
  induction fuel generalizing lr cl with
  | zero => unfold band_loop; split_ifs <;> rfl
  | succ n ih =>
    unfold band_loop
    simp only []
    split_ifs <;> simp [acknowledged, ih]

theorem playback_loop_acknowledged (fuel : Nat) (hdr : Header) (fbs dbs : Nat) (fp : FILE)
    (fn : Nat) (cur nxt : Buf) :
    acknowledged false (playback_loop fuel hdr fbs dbs fp fn cur nxt).2.1 = true := by
  induction fuel generalizing fp fn cur nxt with
  | zero => rfl
  | succ n ih =>
    unfold playback_loop
    simp only []
    have hb := band_loop_acknowledged hdr.height hdr.width nxt
      (fread 1 fbs (fread 4 1 fp).fp).bytes fbs dbs hdr.height 0
    split_ifs <;> (try split) <;>
      simp only [List.cons_append, List.nil_append, List.append_assoc] <;>
      simp only [acknowledged, Bool.not_false, Bool.true_and]
    · exact hb
    · exact acknowledged_append _ _ _ hb rfl
    · exact hb
    · exact acknowledged_append _ _ _ hb (ih _ _ _ _)

theorem playback_acknowledged (heap : Buf → Nat → Bool) (hdr : Header) (fp : FILE) :
    acknowledged false (playback heap hdr fp).2 = true := by
  have hrun := playback_loop_acknowledged (fp.data.length + 1) hdr
    ((hdr.width * hdr.height * 2) % 2 ^ 32) ((hdr.width * 160 * 2) % 2 ^ 32) fp 0
    .frame_buffer_a .frame_buffer_b
  revert hrun
  unfold playback
  simp only []
  generalize playback_loop (fp.data.length + 1) hdr ((hdr.width * hdr.height * 2) % 2 ^ 32)
    ((hdr.width * 160 * 2) % 2 ^ 32) fp 0 .frame_buffer_a .frame_buffer_b = run
  generalize heap Buf.frame_buffer_a (hdr.width * hdr.height * 2 % 2 ^ 32) = a
  generalize heap Buf.frame_buffer_b (hdr.width * hdr.height * 2 % 2 ^ 32) = b
  generalize heap Buf.dma_buffer (hdr.width * 160 * 2 % 2 ^ 32) = d
  rcases run with ⟨_ | f, evs, n⟩ <;> cases a <;> cases b <;> cases d <;> intro hrun <;>
    simp only [] at hrun <;>
    simp only [List.cons_append, List.nil_append, Bool.not_false, Bool.not_true,
      Bool.or_self, Bool.or_true, Bool.or_false, Bool.true_or, Bool.false_eq_true, ↓reduceIte,
      List.append_assoc] <;>
    simp only [acknowledged, Bool.not_false, Bool.true_and] <;>
    first
      | exact hrun
      | exact acknowledged_append _ _ _ hrun rfl

theorem play_rgb565ani_acknowledged (heap : Buf → Nat → Bool) (file : Option FILE)
    (sw sh : Int) : acknowledged false (play_rgb565ani heap file sw sh).2 = true := by
  unfold play_rgb565ani
  cases file with
  | none => rfl
  | some fp0 =>
    simp only []
    split
    · exact read_header_acknowledged fp0
    · simp only [List.cons_append, List.nil_append, List.append_assoc]
      simp only [acknowledged]
      exact acknowledged_append _ _ _ (read_header_acknowledged fp0)
        (acknowledged_append _ _ _ (dimension_warning_acknowledged _ _ _)
          (playback_acknowledged _ _ _))

/-- A trace the monitor accepts holds at least one `esp_task_wdt_reset` per blit. -/
theorem acknowledged_count (p : Bool) (t : List Event) (h : acknowledged p t = true) :
    (blits t).length + (if p then 1 else 0) ≤ t.count .wdt_reset := by
  induction t generalizing p with
  | nil =>
    cases p
    · simp [blits]
    · simp [acknowledged] at h
  | cons e t ih =>
    cases e <;>
      simp only [acknowledged, Bool.and_eq_true, Bool.not_eq_true', blits, List.filter_cons,
        Event.isBlit, Bool.false_eq_true, ↓reduceIte, List.length_cons, List.count_cons,
        beq_iff_eq, reduceCtorEq] at h ⊢
    all_goals first
      | (specialize ih _ h
         simp only [blits] at ih
         omega)
      | (specialize ih _ h.2
         have hp := h.1
         subst hp
         simp only [blits, ↓reduceIte] at ih
         simp only [Bool.false_eq_true, ↓reduceIte]
         omega)
      | (specialize ih _ h
         simp only [blits, Bool.false_eq_true, ↓reduceIte] at ih
         split_ifs <;> omega)

/-- The monitor rejects a blit that is followed by a read without an acknowledgement,
and a blit at the end of the trace. -/
theorem acknowledged_rejects :
    acknowledged false [.blit 0 0 1 1 [], .fread 4 1 0, .wdt_reset] = false ∧
      acknowledged false [.blit 0 0 1 1 [], .blit 0 1 1 1 [], .wdt_reset] = false ∧
      acknowledged false [.wdt_reset, .blit 0 0 1 1 []] = false := by
  decide

/-- The band loop on a frame whose band offsets all fit `int`: it ends without a fault
and streams the bands from number `k` on, in order. -/
theorem band_loop_events (w h : Nat) (src : Buf) (frame : List Byte) (fbs dbs : Nat)
    (hh : h < 2 ^ 16) (hfbs : w * h * 2 ≤ fbs) (hsize : w * h * 2 < 2 ^ 32)
    (hoff : ∀ i, 160 * i < h → 160 * i * w * 2 < 2 ^ 31)
    (hdbs : w * 160 * 2 ≤ dbs) (fuel : Nat) :
    ∀ k cl, h - 160 * k ≤ fuel → (0 < h - 160 * k → cl = 160 * k) →
      band_loop fuel w src frame fbs dbs (h - 160 * k) cl =
        (none, ((List.range' k ((h + 159) / 160 - k)).map
          (fun i => band_events w src frame (band_rows h i))).flatten) := by
  induction fuel with
  | zero =>
    intro k cl hk _
    have h0 : h - 160 * k = 0 := by omega
    have h1 : (h + 159) / 160 - k = 0 := by omega
    simp [band_loop, h0, h1]
  | succ n ih =>
    intro k cl hk hcl
    unfold band_loop
    simp only []
    by_cases hpos : h - 160 * k > 0
    · have hcl' := hcl hpos
      subst hcl'
      set ltt := (if h - 160 * k > 160 then 160 else h - 160 * k) with hltt
      have hltt' : ltt = min 160 (h - 160 * k) := by
        rw [hltt]; split_ifs <;> omega
      have hle : 160 * k + ltt ≤ h := by omega
      have hm1 : w * (160 * k + ltt) ≤ w * h := Nat.mul_le_mul_left _ hle
      have hm2 : w * ltt ≤ w * 160 := Nat.mul_le_mul_left _ (by omega)
      have hb : w * ltt * 2 % 2 ^ 32 = w * ltt * 2 := by
        apply Nat.mod_eq_of_lt
        have : w * ltt ≤ w * (160 * k + ltt) := Nat.mul_le_mul_left _ (by omega)
        omega
      have hoff' : 160 * k * w * 2 + w * ltt * 2 = w * (160 * k + ltt) * 2 := by ring
      have hk' := hoff k (by omega)
      have hcond : ¬ (2 ^ 31 ≤ 160 * k * w * 2 ∨ fbs < 160 * k * w * 2 + w * ltt * 2 % 2 ^ 32
          ∨ dbs < w * ltt * 2 % 2 ^ 32) := by
        rw [hb, hoff']
        omega
      rw [if_pos hpos, if_neg hcond]
      have hnext : h - 160 * k - ltt = h - 160 * (k + 1) := by omega
      have hrec := ih (k + 1) ((160 * k + ltt % 2 ^ 16) % 2 ^ 16) (by omega) (by
        intro hp
        omega)
      rw [hnext, hrec]
      have hcount : (h + 159) / 160 - k = ((h + 159) / 160 - (k + 1)) + 1 := by omega
      rw [hcount, List.range'_succ, List.map_cons, List.flatten_cons]
      have hl16 : ltt % 2 ^ 16 = ltt := Nat.mod_eq_of_lt (by omega)
      simp only [band_events, band_rows, hb, ← hltt', hl16]
    · have h0 : h - 160 * k = 0 := by omega
      have h1 : (h + 159) / 160 - k = 0 := by omega
      rw [if_neg hpos]
      simp [h1]

/-- The band loop as `play_rgb565ani` runs it, from row 0. -/
theorem band_loop_bands (w h : Nat) (src : Buf) (frame : List Byte)
    (hw : w < 2 ^ 16) (hh : h < 2 ^ 16) (hsize : w * h * 2 < 2 ^ 32)
    (hoff : (h - 1) / 160 * 160 * w * 2 < 2 ^ 31) :
    band_loop h w src frame ((w * h * 2) % 2 ^ 32) ((w * 160 * 2) % 2 ^ 32) h 0 =
      (none, ((bands h).map (band_events w src frame)).flatten) := by
  have e1 : (w * h * 2) % 2 ^ 32 = w * h * 2 := Nat.mod_eq_of_lt hsize
  have e2 : (w * 160 * 2) % 2 ^ 32 = w * 160 * 2 := Nat.mod_eq_of_lt (by omega)
  have hoff' : ∀ i, 160 * i < h → 160 * i * w * 2 < 2 ^ 31 := by
    intro i hi
    have h1 : i ≤ (h - 1) / 160 := by omega
    have h2 : 160 * i ≤ (h - 1) / 160 * 160 := by omega
    have h3 : 160 * i * w ≤ (h - 1) / 160 * 160 * w := Nat.mul_le_mul_right _ h2
    omega
  have := band_loop_events w h src frame (w * h * 2) (w * 160 * 2) hh (Nat.le_refl _) hsize
    hoff' (Nat.le_refl _) h 0 0 (by omega) (by intro; rfl)
  simp only [Nat.mul_zero, Nat.sub_zero] at this
  rw [e1, e2, this, bands, List.range_eq_range', List.map_map]
  rfl

/-- Every band is 1 to 160 rows high, fits the transfer buffer, and its byte slice
lies inside the frame buffer. -/
theorem bands_bounds (w h : Nat) (b : Nat × Nat) (hb : b ∈ bands h) :
    1 ≤ b.2 ∧ b.2 ≤ 160 ∧ w * b.2 * 2 ≤ w * 160 * 2 ∧
      b.1 * w * 2 + w * b.2 * 2 ≤ w * h * 2 := by
  simp only [bands, List.mem_map, List.mem_range] at hb
  obtain ⟨i, hi, rfl⟩ := hb
  simp only [band_rows]
  have h1 : 160 * i < h := by omega
  have h2 : w * min 160 (h - 160 * i) ≤ w * 160 := Nat.mul_le_mul_left _ (by omega)
  have h3 : w * (160 * i + min 160 (h - 160 * i)) ≤ w * h := Nat.mul_le_mul_left _ (by omega)
  have h4 : 160 * i * w * 2 + w * min 160 (h - 160 * i) * 2
      = w * (160 * i + min 160 (h - 160 * i)) * 2 := by ring
  refine ⟨by omega, by omega, by omega, ?_⟩
  rw [h4]
  omega

theorem bands_rows_from (h : Nat) :
    ∀ n k, (h + 159) / 160 - k = n →
      ((List.range' k n).map fun i => List.range' (160 * i) (min 160 (h - 160 * i))).flatten
        = List.range' (160 * k) (h - 160 * k) := by
  intro n
  induction n with
  | zero =>
    intro k hk
    have : h - 160 * k = 0 := by omega
    simp [this]
  | succ n ih =>
    intro k hk
    rw [List.range'_succ, List.map_cons, List.flatten_cons, ih (k + 1) (by omega)]
    by_cases hfull : 160 ≤ h - 160 * k
    · have e1 : 160 * (k + 1) = 160 * k + min 160 (h - 160 * k) := by omega
      rw [e1, List.range'_append_1]
      congr 1
      omega
    · have e1 : h - 160 * (k + 1) = 0 := by omega
      have e2 : min 160 (h - 160 * k) = h - 160 * k := by omega
      rw [e1, e2, List.range'_zero, List.append_nil]

/-- The bands of a frame are contiguous, do not overlap and cover the rows `0 .. h - 1`
exactly once: listing the rows of the bands in order gives `0, 1, ..., h - 1`. -/
theorem bands_rows (h : Nat) :
    ((bands h).map fun b => List.range' b.1 b.2).flatten = List.range h := by
  have := bands_rows_from h ((h + 159) / 160) 0 rfl
  simp only [Nat.mul_zero, Nat.sub_zero] at this
  rw [List.range_eq_range', ← this, bands, List.range_eq_range', List.map_map]
  rfl

/-- When the band loop cannot fault, neither can the playback loop. -/
theorem playback_loop_no_fault (hdr : Header) (fbs dbs : Nat)
    (hband : ∀ src frame,
      (band_loop hdr.height hdr.width src frame fbs dbs hdr.height 0).1 = none) :
    ∀ (fuel : Nat) (fp : FILE) (fn : Nat) (cur nxt : Buf),
      (playback_loop fuel hdr fbs dbs fp fn cur nxt).1 ≠ some .undefined_behaviour := by
  intro fuel
  induction fuel with
  | zero => intro fp fn cur nxt; simp [playback_loop]
  | succ n ih =>
    intro fp fn cur nxt
    unfold playback_loop
    simp only []
    have hb := hband nxt (fread 1 fbs (fread 4 1 fp).fp).bytes
    split_ifs <;> (try split) <;> (try simp)
    all_goals first
      | exact ih _ _ _ _
      | (rename_i f hf
         rw [hb] at hf
         cases hf)

/-- When the band loop cannot fault, `playback` returns. -/
theorem playback_returns (heap : Buf → Nat → Bool) (hdr : Header) (fp : FILE)
    (hband : ∀ src frame,
      (band_loop hdr.height hdr.width src frame ((hdr.width * hdr.height * 2) % 2 ^ 32)
        ((hdr.width * 160 * 2) % 2 ^ 32) hdr.height 0).1 = none) :
    ∃ e, (playback heap hdr fp).1 = .returned e := by
  have h1 := playback_loop_fuel (fp.data.length + 1) hdr
    ((hdr.width * hdr.height * 2) % 2 ^ 32) ((hdr.width * 160 * 2) % 2 ^ 32) fp 0
    .frame_buffer_a .frame_buffer_b (Nat.lt_succ_self _)
  have h2 := playback_loop_no_fault hdr _ _ hband (fp.data.length + 1) fp 0
    .frame_buffer_a .frame_buffer_b
  revert h1 h2
  unfold playback
  simp only []
  generalize playback_loop (fp.data.length + 1) hdr ((hdr.width * hdr.height * 2) % 2 ^ 32)
    ((hdr.width * 160 * 2) % 2 ^ 32) fp 0 .frame_buffer_a .frame_buffer_b = run
  generalize heap Buf.frame_buffer_a (hdr.width * hdr.height * 2 % 2 ^ 32) = a
  generalize heap Buf.frame_buffer_b (hdr.width * hdr.height * 2 % 2 ^ 32) = b
  generalize heap Buf.dma_buffer (hdr.width * 160 * 2 % 2 ^ 32) = d
  rcases run with ⟨_ | f, evs, n⟩ <;> cases a <;> cases b <;> cases d <;> intro h1 h2 <;>
    simp only [] at h1 h2 <;> (try cases f) <;> simp at h1 h2 ⊢

/-- A band whose byte offset does not fit `int` stops the run, however many bands
come before it. -/
theorem band_loop_int_overflow (w h : Nat) (src : Buf) (frame : List Byte) (fbs dbs : Nat)
    (hh : h < 2 ^ 16) (j : Nat) (hj : 160 * j < h) (hov : 2 ^ 31 ≤ 160 * j * w * 2)
    (fuel : Nat) :
    ∀ k, k ≤ j → h - 160 * k ≤ fuel →
      (band_loop fuel w src frame fbs dbs (h - 160 * k) (160 * k)).1
        = some .undefined_behaviour := by
  induction fuel with
  | zero =>
    intro k hk hfuel
    omega
  | succ n ih =>
    intro k hk hfuel
    unfold band_loop
    simp only []
    have hpos : h - 160 * k > 0 := by omega
    rw [if_pos hpos]
    rcases Nat.eq_or_lt_of_le hk with rfl | hlt
    · rw [if_pos (Or.inl hov)]
    · have hbig : h - 160 * k > 160 := by omega
      have e1 : (if h - 160 * k > 160 then 160 else h - 160 * k) = 160 := if_pos hbig
      have e2 : h - 160 * k - 160 = h - 160 * (k + 1) := by omega
      have e3 : (160 * k + 160 % 2 ^ 16) % 2 ^ 16 = 160 * (k + 1) := by omega
      simp only [e1, e2, e3]
      split_ifs
      · rfl
      · exact ih (k + 1) hlt (by omega)

/-- A fault of the band loop on the first frame is the outcome of `playback`. -/
theorem playback_fault (heap : Buf → Nat → Bool) (hdr : Header) (fp : FILE)
    (dur payload tail : List Byte) (f : Fault)
    (hdata : fp.data = dur ++ payload ++ tail) (hdur : dur.length = 4)
    (hpay : payload.length = (hdr.width * hdr.height * 2) % 2 ^ 32)
    (hheap : ∀ b n, heap b n = true)
    (hband : (band_loop hdr.height hdr.width .frame_buffer_b payload
      ((hdr.width * hdr.height * 2) % 2 ^ 32) ((hdr.width * 160 * 2) % 2 ^ 32)
      hdr.height 0).1 = some f) :
    (playback heap hdr fp).1 = .fault f := by
  have hd1 : fp.data = dur ++ (payload ++ tail) := by simp [hdata]
  obtain ⟨-, r1c, r1f⟩ := fread_append 4 1 fp dur _ hd1 (by simp [hdur]) (by omega)
  obtain ⟨r2b, r2c, r2f⟩ := fread_append 1 ((hdr.width * hdr.height * 2) % 2 ^ 32)
    { data := payload ++ tail, ioError := fp.ioError, eofFlag := fp.eofFlag }
    payload tail rfl (by simp [hpay]) (by omega)
  unfold playback
  simp only [hheap, Bool.not_true, Bool.or_self, Bool.false_eq_true, ↓reduceIte]
  unfold playback_loop
  simp only [r1c, r1f, r2b, r2c, r2f, ne_eq, not_true_eq_false, ↓reduceIte, hband]

theorem wide_frame_length : wide_frame.length = 65535 * 32768 * 2 := by
  unfold wide_frame
  exact List.length_replicate _ _

theorem wide_header :
    read_header wide_file =
    ([Event.fread 1 9 9, Event.fread 4 1 1, Event.fread 2 1 1, Event.fread 2 1 1,
      Event.logI Msg.header_info],
      some ({ frame_count := 1, width := 65535, height := 32768 },
        { data := frame_records [([0, 0, 0, 0], wide_frame)], ioError := false,
          eofFlag := false })) := by
  have hle1 : le [255, 255] = 65535 := by decide
  have hle2 : le [0, 128] = 32768 := by decide
  have hle3 : le [1, 0, 0, 0] = 1 := by decide
  have hf1 : wide_file.ioError = false := rfl
  have hf2 : wide_file.eofFlag = false := rfl
  rw [read_header_append wide_file [1, 0, 0, 0] [255, 255] [0, 128]
    (frame_records [([0, 0, 0, 0], wide_frame)]) rfl rfl rfl rfl, hle1, hle2, hle3, hf1, hf2]

theorem wide_band_loop (src : Buf) (frame : List Byte) (fbs dbs : Nat) :
    (band_loop 32768 65535 src frame fbs dbs 32768 0).1 = some .undefined_behaviour := by
  have := band_loop_int_overflow 65535 32768 src frame fbs dbs (by norm_num) 103
    (by norm_num) (by norm_num) 32768 0 (by norm_num) (by norm_num)
  simpa only [Nat.mul_zero, Nat.sub_zero] using this

theorem wide_playback :
    (playback heap_ok { frame_count := 1, width := 65535, height := 32768 }
      { data := frame_records [([0, 0, 0, 0], wide_frame)], ioError := false,
          eofFlag := false }).1 = .fault .undefined_behaviour :=
  playback_fault heap_ok { frame_count := 1, width := 65535, height := 32768 }
    { data := frame_records [([0, 0, 0, 0], wide_frame)], ioError := false, eofFlag := false }
    [0, 0, 0, 0] wide_frame [] .undefined_behaviour
    (by simp only [frame_records, List.append_nil, List.append_assoc]) rfl
    (by rw [wide_frame_length]; norm_num) (fun _ _ => rfl) (wide_band_loop _ _ _ _)

/-- Without the address-space assumption on the allocator the band loop can leave the
range of `int`: under an allocator that grants two frame buffers of `65535 * 32768 * 2`
bytes each, the band that starts at row 16480 has the byte offset `16480 * 65535 * 2`,
which does not fit the `int` in which `current_line * width * 2` is computed. -/
theorem wide_frame_int_overflow :
    le [255, 255] = 65535 ∧ le [0, 128] = 32768 ∧ 65535 * 32768 * 2 < 2 ^ 32 ∧
      wide_frame.length = 65535 * 32768 * 2 ∧ 2 ^ 31 ≤ 16480 * 65535 * 2 ∧
      (play_rgb565ani heap_ok (some wide_file) 65535 32768).1
        = .fault .undefined_behaviour := by
  refine ⟨by decide, by decide, by decide, wide_frame_length, by decide, ?_⟩
  rw [play_of_header _ _ _ _ _ _ _ wide_header]
  exact wide_playback

theorem heap_psram_fits : address_space_ok heap_psram := by
  intro na nb ha hb
  simp only [heap_psram, decide_eq_true_eq] at ha hb
  omega

/-- When both frame buffers fit the address space, the byte offset of the last band
fits `int`. -/
theorem last_band_offset_of_fit (w h : Nat) (hfit : w * h * 2 + w * h * 2 ≤ 2 ^ 32) :
    (h - 1) / 160 * 160 * w * 2 < 2 ^ 31 := by
  cases h with
  | zero => simp
  | succ k =>
    have h1 : (k + 1 - 1) / 160 * 160 ≤ k := by omega
    have h2 : (k + 1 - 1) / 160 * 160 * w ≤ k * w := Nat.mul_le_mul_right _ h1
    have h3 : w * (k + 1) = k * w + w := by ring
    rw [h3] at hfit
    by_cases hw0 : w = 0
    · subst hw0
      simp
    · omega

/-- Under an allocator that respects the address space, `playback` returns for every
geometry whose byte size fits `size_t`. -/
theorem playback_returns_of_fit (heap : Buf → Nat → Bool) (hfit : address_space_ok heap)
    (hdr : Header) (fp : FILE) (hw : hdr.width < 2 ^ 16) (hh : hdr.height < 2 ^ 16)
    (hsize : hdr.width * hdr.height * 2 < 2 ^ 32) :
    ∃ e, (playback heap hdr fp).1 = .returned e := by
  have e1 : (hdr.width * hdr.height * 2) % 2 ^ 32 = hdr.width * hdr.height * 2 :=
    Nat.mod_eq_of_lt hsize
  by_cases ha : heap .frame_buffer_a (hdr.width * hdr.height * 2 % 2 ^ 32) = true
  · by_cases hb : heap .frame_buffer_b (hdr.width * hdr.height * 2 % 2 ^ 32) = true
    · have hsum := hfit _ _ ha hb
      rw [e1] at hsum
      have hoff := last_band_offset_of_fit hdr.width hdr.height hsum
      apply playback_returns
      intro src frame
      rw [band_loop_bands hdr.width hdr.height src frame hw hh hsize hoff]
    · have hb' : heap .frame_buffer_b (hdr.width * hdr.height * 2 % 2 ^ 32) = false := by
        simpa using hb
      refine ⟨.ESP_ERR_NO_MEM, ?_⟩
      unfold playback
      simp only [hb', Bool.not_false, Bool.or_true, ↓reduceIte]
  · have ha' : heap .frame_buffer_a (hdr.width * hdr.height * 2 % 2 ^ 32) = false := by
      simpa using ha
    refine ⟨.ESP_ERR_NO_MEM, ?_⟩
    unfold playback
    simp only [ha', Bool.not_false, Bool.true_or, ↓reduceIte]

/-! ### The claims about `play_rgb565ani` -/

/-- Claim C1: evaluation at a container whose only frame is one byte short.  The
short read is logged as an error, and `play_rgb565ani` then returns `ESP_OK`, the
success status, where the claim asks for a failure status. -/
theorem play_short_frame_returns_ok :
    (play_rgb565ani heap_ok (some short_frame_file) 2 1).1 = .returned .ESP_OK ∧
      Event.logE Msg.short_frame ∈ (play_rgb565ani heap_ok (some short_frame_file) 2 1).2 := by
  decide

/-- Claim C2: every run of `play_rgb565ani` ends, and whenever it returns, each block
that `heap_caps_malloc` handed out has been freed exactly once: the heap monitor
accepts the whole trace (no block is freed twice or freed without having been
allocated) and ends with no live block. -/
theorem play_rgb565ani_releases_buffers (heap : Buf → Nat → Bool) (file : Option FILE)
    (sw sh : Int) :
    (play_rgb565ani heap file sw sh).1 ≠ .fault .out_of_fuel ∧
      ∀ e, (play_rgb565ani heap file sw sh).1 = .returned e →
        heap_run [] (play_rgb565ani heap file sw sh).2 = some [] :=
  ⟨play_rgb565ani_terminates heap file sw sh, fun e h => play_rgb565ani_heap heap file sw sh e h⟩

/-- Witness for claim C2: the run on the short-frame container returns and leaves no
block allocated. -/
theorem play_short_frame_releases_buffers :
    (play_rgb565ani heap_ok (some short_frame_file) 2 1).1 = .returned .ESP_OK ∧
      heap_run [] (play_rgb565ani heap_ok (some short_frame_file) 2 1).2 = some [] :=
  ⟨by decide,
    (play_rgb565ani_releases_buffers heap_ok (some short_frame_file) 2 1).2 .ESP_OK (by decide)⟩

/-- Claim C3, counterexample: a well-formed container declaring one 65535 x 32769
frame, followed by that complete frame.  The byte size `65535 * 32769 * 2` wraps
around `size_t` to 65534, so the first band (20971200 bytes) is copied from outside
the frame buffer and the run does not return success. -/
theorem play_huge_frame_overflow :
    le [255, 255] = 65535 ∧ le [1, 128] = 32769 ∧ huge_frame.length = 65535 * 32769 * 2 ∧
      (play_rgb565ani heap_ok (some huge_file) 65535 32769).1
        = .fault .undefined_behaviour := by
  refine ⟨by decide, by decide, huge_frame_length, ?_⟩
  rw [play_of_header _ _ _ _ _ _ _ huge_header]
  exact huge_playback

/-- Claim C3, amended: for a container with valid magic whose header declares
`frame_count = F`, `width = w`, `height = h` with `F ≥ 1` and `w * h * 2 < 2 ^ 31`,
followed by exactly `F` complete frame records, and with the three buffers allocated,
`play_rgb565ani` returns `ESP_OK` and its blits are exactly, frame by frame in file
order and band by band from row 0 in steps of 160, one blit at `(0, r)` of size
`w` x `min 160 (h - r)` carrying the unmodified payload bytes of that band. -/
theorem play_rgb565ani_blit_sequence (heap : Buf → Nat → Bool) (fp : FILE) (sw sh : Int)
    (fc wb hb : List Byte) (frames : List (List Byte × List Byte))
    (hdata : fp.data = MAGIC ++ fc ++ wb ++ hb ++ frame_records frames)
    (hfc : fc.length = 4) (hwb : wb.length = 2) (hhb : hb.length = 2)
    (hF : le fc = frames.length) (hF1 : 1 ≤ frames.length)
    (hframes : ∀ f ∈ frames, f.1.length = 4 ∧ f.2.length = le wb * le hb * 2)
    (hsize : le wb * le hb * 2 < 2 ^ 31)
    (ha : heap .frame_buffer_a (le wb * le hb * 2) = true)
    (hb' : heap .frame_buffer_b (le wb * le hb * 2) = true)
    (hd : heap .dma_buffer (le wb * 160 * 2) = true) :
    (play_rgb565ani heap (some fp) sw sh).1 = .returned .ESP_OK ∧
      blits (play_rgb565ani heap (some fp) sw sh).2
        = expected_blits (le wb) (le hb) frames := by
  have hw := le_lt wb
  have hh := le_lt hb
  have hc := le_lt fc
  rw [hwb] at hw
  rw [hhb] at hh
  rw [hfc] at hc
  have e1 : le wb * le hb * 2 % 2 ^ 32 = le wb * le hb * 2 := Nat.mod_eq_of_lt (by omega)
  have e2 : le wb * 160 * 2 % 2 ^ 32 = le wb * 160 * 2 := Nat.mod_eq_of_lt (by omega)
  have hne : frames ≠ [] := by
    intro h
    simp [h] at hF1
  have hloop := playback_loop_blits { frame_count := le fc, width := le wb, height := le hb }
    (le wb * le hb * 2) (le wb * 160 * 2) (by simpa using hh) rfl hsize (Nat.le_refl _)
    (by simpa using hc) frames ((frame_records frames).length + 1)
    { data := frame_records frames, ioError := fp.ioError, eofFlag := fp.eofFlag } 0
    .frame_buffer_a .frame_buffer_b [] hne ?_ (by simp) (by simp [hF]) hframes
  · simp only [play_rgb565ani, read_header_append fp fc wb hb _ hdata hfc hwb hhb, playback,
      e1, e2, ha, hb', hd, Bool.not_true, Bool.or_self, Bool.false_eq_true, ↓reduceIte,
      hloop.1]
    refine ⟨trivial, ?_⟩
    rw [← hloop.2]
    simp only [blits, List.filter_append, dimension_warning_blits]
    have := dimension_warning_blits { frame_count := le fc, width := le wb, height := le hb } sw sh
    simp only [blits] at this
    simp [List.filter_cons, Event.isBlit, this]
  · -- every record holds at least its four duration bytes
    clear hF hF1 hne hdata
    induction frames with
    | nil => simp
    | cons f fs ih =>
      have := (hframes f (by simp)).1
      have := ih (fun x hx => hframes x (by simp [hx]))
      simp only [frame_records, List.length_append, List.length_cons] at this ⊢
      omega

/-- Witness for claim C3: two solid-colour 4 x 4 frames give exactly two blits of 16
pixels each, in the colours of the frames. -/
theorem play_two_solid_frames :
    (play_rgb565ani heap_ok (some two_frame_file) 4 4).1 = .returned .ESP_OK ∧
      blits (play_rgb565ani heap_ok (some two_frame_file) 4 4).2
        = [.blit 0 0 4 4 (solid 0xF8 0x00), .blit 0 0 4 4 (solid 0x00 0x1F)] := by
  have h := play_rgb565ani_blit_sequence heap_ok two_frame_file 4 4 [2, 0, 0, 0] [4, 0] [4, 0]
    two_frames rfl rfl rfl rfl rfl (by decide) (by decide) (by decide) rfl rfl rfl
  exact ⟨h.1, h.2.trans (by decide)⟩

/-- Claim C4: `play_rgb565ani` reaches the log line that follows header validation
exactly when the source opens, holds at least 17 bytes and starts with the nine bytes
`RGB565ANI`; in every other case it returns `ESP_FAIL` and its trace holds no
`heap_caps_malloc`, no `heap_caps_free` and no blit. -/
theorem play_rgb565ani_header_validation (heap : Buf → Nat → Bool) (file : Option FILE)
    (sw sh : Int) :
    (Event.logI Msg.header_info ∈ (play_rgb565ani heap file sw sh).2 ↔ good_header file) ∧
      (¬ good_header file →
        (play_rgb565ani heap file sw sh).1 = .returned .ESP_FAIL ∧
          ∀ e ∈ (play_rgb565ani heap file sw sh).2, e.isHeap = false ∧ e.isBlit = false) :=
  ⟨play_rgb565ani_header_info heap file sw sh,
    fun h => play_rgb565ani_bad_header heap file sw sh h⟩

/-- Witness for claim C4: a zero byte inside the magic is a mismatch. -/
theorem play_zero_magic_fails :
    ¬ good_header (some zero_magic_file) ∧
      (play_rgb565ani heap_ok (some zero_magic_file) 1 1).1 = .returned .ESP_FAIL ∧
      ∀ e ∈ (play_rgb565ani heap_ok (some zero_magic_file) 1 1).2,
        e.isHeap = false ∧ e.isBlit = false :=
  ⟨by decide,
    (play_rgb565ani_header_validation heap_ok (some zero_magic_file) 1 1).2 (by decide)⟩

/-- Claim C5: the requested screen size influences neither the status nor the blits of
`play_rgb565ani`; two runs that differ only in the requested size have the same trace
once the mismatch warning is removed. -/
theorem play_rgb565ani_ignores_screen_size (heap : Buf → Nat → Bool) (file : Option FILE)
    (sw sh sw' sh' : Int) :
    (play_rgb565ani heap file sw sh).1 = (play_rgb565ani heap file sw' sh').1 ∧
    blits (play_rgb565ani heap file sw sh).2 = blits (play_rgb565ani heap file sw' sh').2 ∧
    (play_rgb565ani heap file sw sh).2.filter
        (fun e => decide (e ≠ .logW .dimension_mismatch)) =
      (play_rgb565ani heap file sw' sh').2.filter
        (fun e => decide (e ≠ .logW .dimension_mismatch)) :=
  play_rgb565ani_screen_size heap file sw sh sw' sh'

/-- Claim C6: evaluation at a container that declares `frame_count = 0` and carries one
complete frame record.  The frame count is only compared after a frame has been shown,
so that frame is blitted, where the claim asks for no blit. -/
theorem play_zero_frame_count_blits :
    (play_rgb565ani heap_ok (some zero_count_file) 1 1).1 = .returned .ESP_OK ∧
      blits (play_rgb565ani heap_ok (some zero_count_file) 1 1).2
        = [.blit 0 0 1 1 [7, 9]] := by
  decide

/-- Claim C13: in every run of `play_rgb565ani`, every `lcdDrawBitmap` call is followed
by `esp_task_wdt_reset` before the next `lcdDrawBitmap` call, before the next `fread`
and before the end of the run, so the trace holds at least one acknowledgement per
band. -/
theorem play_rgb565ani_feeds_watchdog (heap : Buf → Nat → Bool) (file : Option FILE)
    (sw sh : Int) :
    acknowledged false (play_rgb565ani heap file sw sh).2 = true ∧
      (blits (play_rgb565ani heap file sw sh).2).length
        ≤ (play_rgb565ani heap file sw sh).2.count .wdt_reset := by
  have h := play_rgb565ani_acknowledged heap file sw sh
  have h2 := acknowledged_count false _ h
  exact ⟨h, by simpa using h2⟩

/-- Claim C14: for every declared width `w` and height `h` for which `w * h * 2` does
not overflow `size_t`, under an allocator that respects the 32-bit address space: on
every frame that `play_rgb565ani` streams (both frame buffers were granted) the band
loop ends without a fault and streams exactly the bands of `bands h`; every band is 1 to
160 rows high, its byte count `w * rows * 2` is at most the transfer buffer size
`w * 160 * 2`, and its source slice ends inside the `w * h * 2` bytes of the frame
buffer; the bands are contiguous, do not overlap and cover rows `0 .. h - 1` exactly
once, in `ceil (h / 160)` iterations; and every run of `play_rgb565ani` on a container
declaring `w` and `h` returns, so no `memcpy` leaves its buffers. -/
theorem play_rgb565ani_bands (heap : Buf → Nat → Bool) (hfit : address_space_ok heap)
    (w h : Nat) (hw : w < 2 ^ 16) (hh : h < 2 ^ 16) (hsize : w * h * 2 < 2 ^ 32) :
    (heap .frame_buffer_a ((w * h * 2) % 2 ^ 32) = true →
      heap .frame_buffer_b ((w * h * 2) % 2 ^ 32) = true →
      ∀ src frame,
        band_loop h w src frame ((w * h * 2) % 2 ^ 32) ((w * 160 * 2) % 2 ^ 32) h 0 =
          (none, ((bands h).map (band_events w src frame)).flatten)) ∧
    (∀ b ∈ bands h, 1 ≤ b.2 ∧ b.2 ≤ 160 ∧ w * b.2 * 2 ≤ (w * 160 * 2) % 2 ^ 32 ∧
      b.1 * w * 2 + w * b.2 * 2 ≤ (w * h * 2) % 2 ^ 32) ∧
    ((bands h).map fun b => List.range' b.1 b.2).flatten = List.range h ∧
    (bands h).length = (h + 159) / 160 ∧
    (∀ fp0 sw sh evs fc fp,
      read_header fp0 = (evs, some ({ frame_count := fc, width := w, height := h }, fp)) →
        ∃ e, (play_rgb565ani heap (some fp0) sw sh).1 = .returned e) := by
  have e1 : (w * h * 2) % 2 ^ 32 = w * h * 2 := Nat.mod_eq_of_lt hsize
  have e2 : (w * 160 * 2) % 2 ^ 32 = w * 160 * 2 := Nat.mod_eq_of_lt (by omega)
  refine ⟨?_, ?_, bands_rows h, by simp [bands], ?_⟩
  · intro ha hb src frame
    have hsum := hfit _ _ ha hb
    rw [e1] at hsum
    exact band_loop_bands w h src frame hw hh hsize (last_band_offset_of_fit w h hsum)
  · intro b hb
    rw [e1, e2]
    exact bands_bounds w h b hb
  · intro fp0 sw sh evs fc fp hhdr
    rw [play_of_header _ _ _ _ _ _ _ hhdr]
    exact playback_returns_of_fit heap hfit _ fp hw hh hsize

/-- Witness for claim C14, with the allocator that grants up to 8 MiB: a frame of 321
rows is streamed as the bands of 160, 160 and 1 rows, and the run on the two-frame
4 x 4 container returns. -/
theorem play_rgb565ani_bands_example :
    address_space_ok heap_psram ∧ bands 321 = [(0, 160), (160, 160), (320, 1)] ∧
      (∀ src frame,
        band_loop 321 2 src frame ((2 * 321 * 2) % 2 ^ 32) ((2 * 160 * 2) % 2 ^ 32) 321 0 =
          (none, ((bands 321).map (band_events 2 src frame)).flatten)) ∧
      ∃ e, (play_rgb565ani heap_psram (some two_frame_file) 4 4).1 = .returned e := by
  have hhdr := read_header_append two_frame_file [2, 0, 0, 0] [4, 0] [4, 0]
    (frame_records two_frames) rfl rfl rfl rfl
  rw [show le [4, 0] = 4 by decide] at hhdr
  exact ⟨heap_psram_fits, by decide,
    (play_rgb565ani_bands heap_psram heap_psram_fits 2 321 (by decide) (by decide)
      (by decide)).1 (by decide) (by decide),
    (play_rgb565ani_bands heap_psram heap_psram_fits 4 4 (by decide) (by decide)
      (by decide)).2.2.2.2 two_frame_file 4 4 _ _ _ hhdr⟩

end Rgb565Ani

namespace ST7796S

/-! ## Theorems about the display controller -/

theorem tx_bytes_append (a b : List Bus) : tx_bytes (a ++ b) = tx_bytes a ++ tx_bytes b := by
  induction a with
  | nil => rfl
  | cons e t ih => cases e <;> simp [tx_bytes, ih]

theorem length_flatten_replicate_pair (n a b : Nat) :
    (List.replicate n [a, b]).flatten.length = 2 * n := by
  induction n with
  | zero => rfl
  | succ n ih => simp [List.replicate_succ, ih]; omega

/-- The colour loop ends and sends exactly `len` bytes when `len` is even. -/
theorem spi_master_write_color_loop_spec (color : Nat) :
    ∀ fuel len, len ≤ fuel → len % 2 = 0 →
      ∃ px, spi_master_write_color_loop fuel color len = some px ∧
        (tx_bytes px).length = len := by
  intro fuel
  induction fuel with
  | zero =>
    intro len h _
    have : len = 0 := by omega
    subst this
    exact ⟨[], by simp [spi_master_write_color_loop], rfl⟩
  | succ n ih =>
    intro len h heven
    unfold spi_master_write_color_loop
    by_cases hpos : len > 0
    · simp only [hpos, ↓reduceIte]
      set chunk := (if len > 1024 then 1024 else len) with hchunk
      have hc1 : chunk ≤ len := by rw [hchunk]; split_ifs <;> omega
      have hc2 : 2 ≤ chunk := by rw [hchunk]; split_ifs <;> omega
      have hc3 : chunk % 2 = 0 := by rw [hchunk]; split_ifs <;> omega
      obtain ⟨px, hpx, hlen⟩ := ih (len - chunk) (by omega) (by omega)
      refine ⟨_, by rw [hpx]; rfl, ?_⟩
      have hb : (List.replicate (chunk / 2) [color / 256 % 256, color % 256]).flatten.length
          = chunk := by
        rw [length_flatten_replicate_pair]; omega
      simp only [spi_master_write_byte, hb, gt_iff_lt, show 0 < chunk by omega, ↓reduceIte,
        tx_bytes, tx_bytes_append, List.length_append, hlen, List.singleton_append]
      omega
    · have : len = 0 := by omega
      subst this
      exact ⟨[], by simp, rfl⟩

theorem spi_master_write_color_spec (color size : Nat) :
    ∃ px, spi_master_write_color color size = some px ∧
      (tx_bytes px).length = (size * 2) % 2 ^ 32 := by
  unfold spi_master_write_color
  exact spi_master_write_color_loop_spec color _ _ (Nat.le_refl _) (by omega)

theorem length_flatten_map_pair (n : Nat) (f g : Nat → Nat) :
    ((List.range n).map fun i => [f i, g i]).flatten.length = 2 * n := by
  induction n with
  | zero => rfl
  | succ n ih =>
    simp only [List.range_succ, List.map_append, List.flatten_append, List.length_append, ih]
    simp
    omega

theorem spi_master_write_colors_loop_spec (colors : List Nat) :
    ∀ fuel index len, len ≤ fuel → len % 2 = 0 →
      ∃ px, spi_master_write_colors_loop fuel colors index len = some px ∧
        (tx_bytes px).length = len := by
  intro fuel
  induction fuel with
  | zero =>
    intro index len h _
    have : len = 0 := by omega
    subst this
    exact ⟨[], by simp [spi_master_write_colors_loop], rfl⟩
  | succ n ih =>
    intro index len h heven
    unfold spi_master_write_colors_loop
    by_cases hpos : len > 0
    · simp only [hpos, ↓reduceIte]
      set chunk := (if len > 1024 then 1024 else len) with hchunk
      have hc1 : chunk ≤ len := by rw [hchunk]; split_ifs <;> omega
      have hc2 : 2 ≤ chunk := by rw [hchunk]; split_ifs <;> omega
      have hc3 : chunk % 2 = 0 := by rw [hchunk]; split_ifs <;> omega
      obtain ⟨px, hpx, hlen⟩ := ih (index + chunk / 2) (len - chunk) (by omega) (by omega)
      refine ⟨_, by rw [hpx]; rfl, ?_⟩
      have hb := length_flatten_map_pair (chunk / 2)
        (fun i => colors.getD (index + i) 0 / 256 % 256) (fun i => colors.getD (index + i) 0 % 256)
      have hb' : 2 * (chunk / 2) = chunk := by omega
      rw [hb'] at hb
      simp only [spi_master_write_byte, hb, gt_iff_lt, show 0 < chunk by omega, ↓reduceIte,
        tx_bytes, tx_bytes_append, List.length_append, hlen, List.singleton_append]
      omega
    · have : len = 0 := by omega
      subst this
      exact ⟨[], by simp, rfl⟩

theorem spi_master_write_colors_spec (colors : List Nat) (size : Nat) (h : size < 65536) :
    ∃ px, spi_master_write_colors colors size = some px ∧
      (tx_bytes px).length = size * 2 := by
  unfold spi_master_write_colors
  have : size * 2 % 2 ^ 32 = size * 2 := Nat.mod_eq_of_lt (by omega)
  rw [this]
  exact spi_master_write_colors_loop_spec colors _ _ _ (Nat.le_refl _) (by omega)

theorem u16_add (a b : Nat) : u16 ((a : Int) + (b : Int)) = (a + b) % 65536 := by
  unfold u16
  omega

theorem u16_lt (z : Int) : u16 z < 65536 := by
  unfold u16
  omega

theorem lcdDrawFillRect_offscreen (dev : TFT_t) (x1 y1 x2 y2 color : Nat)
    (h : dev._width ≤ x1 ∨ dev._height ≤ y1) :
    lcdDrawFillRect dev x1 y1 x2 y2 color = some [] := by
  unfold lcdDrawFillRect
  by_cases hx : x1 ≥ dev._width
  · simp [hx]
  · have hy : y1 ≥ dev._height := by omega
    simp [hx, hy]

theorem lcdDrawFillRect_onscreen (dev : TFT_t) (hdev : dev.wf) (x1 y1 x2 y2 color : Nat)
    (hx : x1 < dev._width) (hy : y1 < dev._height) :
    ∃ n px, spi_master_write_color color n = some px ∧
      lcdDrawFillRect dev x1 y1 x2 y2 color = some
        (set_window ((x1 + dev._offsetx) % 65536)
            ((min x2 (dev._width - 1) + dev._offsetx) % 65536)
            ((y1 + dev._offsety) % 65536)
            ((min y2 (dev._height - 1) + dev._offsety) % 65536) ++ px) := by
  obtain ⟨hw, hh, -, -⟩ := hdev
  have hx2 : (if x2 ≥ dev._width then u16 ((dev._width : Int) - 1) else x2)
      = min x2 (dev._width - 1) := by
    unfold u16; split_ifs <;> omega
  have hy2 : (if y2 ≥ dev._height then u16 ((dev._height : Int) - 1) else y2)
      = min y2 (dev._height - 1) := by
    unfold u16; split_ifs <;> omega
  unfold lcdDrawFillRect
  simp only [ge_iff_le, not_le.mpr hx, not_le.mpr hy, ↓reduceIte]
  simp only [ge_iff_le] at hx2 hy2
  rw [hx2, hy2]
  simp only [u16_add]
  obtain ⟨px, hpx, -⟩ := spi_master_write_color_spec color
    (u32 (wrap32 (((((min x2 (dev._width - 1) + dev._offsetx) % 65536 : Nat) : Int)
      - ((x1 + dev._offsetx) % 65536 : Nat) + 1)
      * ((((min y2 (dev._height - 1) + dev._offsety) % 65536 : Nat) : Int)
      - ((y1 + dev._offsety) % 65536 : Nat) + 1))))
  refine ⟨_, px, hpx, ?_⟩
  rw [hpx]
  simp [set_window]

theorem parse_set_window (xa xb ya yb : Nat) (hxa : xa < 65536) (hxb : xb < 65536)
    (hya : ya < 65536) (hyb : yb < 65536) (px : List Bus) :
    parse_window_write (set_window xa xb ya yb ++ px)
      = some { x1 := xa, x2 := xb, y1 := ya, y2 := yb, pixels := (tx_bytes px).length / 2 } := by
  simp only [set_window, spi_master_write_command, spi_master_write_addr,
    spi_master_write_byte, SPI_Command_Mode, SPI_Data_Mode, List.length_cons, List.length_nil,
    gt_iff_lt, Nat.zero_lt_succ, ↓reduceIte, List.cons_append, List.nil_append,
    parse_window_write, Option.some.injEq, WindowWrite.mk.injEq, and_true]
  omega

theorem window_then_color_pixels (X1 X2 Y1 Y2 color : Nat) (hX1 : X1 < 65536)
    (hX2 : X2 < 65536) (hY1 : Y1 < 65536) (hY2 : Y2 < 65536) :
    ∃ t w, (spi_master_write_color color
        (u32 (wrap32 (((X2 : Int) - X1 + 1) * ((Y2 : Int) - Y1 + 1))))).map
          (fun px => spi_master_write_command 0x2A ++ spi_master_write_addr X1 X2
            ++ spi_master_write_command 0x2B ++ spi_master_write_addr Y1 Y2
            ++ spi_master_write_command 0x2C ++ px) = some t ∧
      parse_window_write t = some w ∧
      w.x1 = X1 ∧ w.x2 = X2 ∧ w.y1 = Y1 ∧ w.y2 = Y2 ∧
      w.pixels = (u32 (wrap32 (((X2 : Int) - X1 + 1) * ((Y2 : Int) - Y1 + 1))) * 2)
        % 2 ^ 32 / 2 := by
  obtain ⟨px, hpx, hlen⟩ := spi_master_write_color_spec color
    (u32 (wrap32 (((X2 : Int) - X1 + 1) * ((Y2 : Int) - Y1 + 1))))
  refine ⟨set_window X1 X2 Y1 Y2 ++ px, _, by rw [hpx]; rfl,
    parse_set_window _ _ _ _ hX1 hX2 hY1 hY2 _, rfl, rfl, rfl, rfl, ?_⟩
  simp only [hlen]

/-- The window and the pixel count of an on-screen `lcdDrawFillRect`, in terms of its
arguments. -/
theorem lcdDrawFillRect_pixels (dev : TFT_t) (x1 y1 x2 y2 color : Nat)
    (hx : x1 < dev._width) (hy : y1 < dev._height) :
    ∃ t w, lcdDrawFillRect dev x1 y1 x2 y2 color = some t ∧
      parse_window_write t = some w ∧
      w.x1 = u16 ((x1 : Int) + dev._offsetx) ∧
      w.x2 = u16 (((if x2 ≥ dev._width then u16 ((dev._width : Int) - 1) else x2 : Nat) : Int)
        + dev._offsetx) ∧
      w.y1 = u16 ((y1 : Int) + dev._offsety) ∧
      w.y2 = u16 (((if y2 ≥ dev._height then u16 ((dev._height : Int) - 1) else y2 : Nat) : Int)
        + dev._offsety) ∧
      w.pixels = (u32 (wrap32 (((w.x2 : Int) - w.x1 + 1) * ((w.y2 : Int) - w.y1 + 1))) * 2)
        % 2 ^ 32 / 2 := by
  unfold lcdDrawFillRect
  simp only [ge_iff_le, not_le.mpr hx, not_le.mpr hy, ↓reduceIte]
  obtain ⟨t, w, h1, h2, e1, e2, e3, e4, e5⟩ := window_then_color_pixels
    (u16 ((x1 : Int) + dev._offsetx))
    (u16 (((if dev._width ≤ x2 then u16 ((dev._width : Int) - 1) else x2 : Nat) : Int)
      + dev._offsetx))
    (u16 ((y1 : Int) + dev._offsety))
    (u16 (((if dev._height ≤ y2 then u16 ((dev._height : Int) - 1) else y2 : Nat) : Int)
      + dev._offsety)) color (u16_lt _) (u16_lt _) (u16_lt _) (u16_lt _)
  refine ⟨t, w, h1, h2, e1, e2, e3, e4, ?_⟩
  rw [e5, e1, e2, e3, e4]

theorem reversed_rect_pixels :
    ∃ t w, lcdDrawFillRect small_panel 5 0 3 0 7 = some t ∧ parse_window_write t = some w ∧
      w.x1 = 5 ∧ w.x2 = 3 ∧ w.y1 = 0 ∧ w.y2 = 0 ∧ w.pixels = 2147483647 := by
  obtain ⟨t, w, h1, h2, e1, e2, e3, e4, e5⟩ :=
    lcdDrawFillRect_pixels small_panel 5 0 3 0 7 (by decide) (by decide)
  have f1 : u16 (((5 : Nat) : Int) + small_panel._offsetx) = 5 := by decide
  have f2 : u16 (((if 3 ≥ small_panel._width then u16 ((small_panel._width : Int) - 1)
      else 3 : Nat) : Int) + small_panel._offsetx) = 3 := by decide
  have f3 : u16 (((0 : Nat) : Int) + small_panel._offsety) = 0 := by decide
  have f4 : u16 (((if 0 ≥ small_panel._height then u16 ((small_panel._height : Int) - 1)
      else 0 : Nat) : Int) + small_panel._offsety) = 0 := by decide
  rw [f1] at e1
  rw [f2] at e2
  rw [f3] at e3
  rw [f4] at e4
  rw [e1, e2, e3, e4] at e5
  have f5 : (u32 (wrap32 ((((3 : Nat) : Int) - (5 : Nat) + 1) * (((0 : Nat) : Int) - (0 : Nat) + 1)))
      * 2) % 2 ^ 32 / 2 = 2147483647 := by decide
  exact ⟨t, w, h1, h2, e1, e2, e3, e4, e5.trans f5⟩

theorem pixel_count_cast (N : Nat) (ha : N < 2 ^ 31) :
    (u32 (wrap32 (N : Int)) * 2) % 2 ^ 32 / 2 = N := by
  have h1 : wrap32 (N : Int) = N := by
    unfold wrap32
    omega
  have h2 : u32 (N : Int) = N := by
    unfold u32
    omega
  rw [h1, h2]
  omega

/-- The pixel count `lcdDrawFillRect` hands to `spi_master_write_color`, and what is
left of it after the byte count `size * 2` is taken as a `uint32_t`: for an ordered
window of fewer than `2 ^ 31` pixels it is the area of the window. -/
theorem pixel_count_exact (X1 X2 Y1 Y2 : Nat) (h1 : X1 ≤ X2) (h2 : Y1 ≤ Y2)
    (ha : (X2 - X1 + 1) * (Y2 - Y1 + 1) < 2 ^ 31) :
    (u32 (wrap32 (((X2 : Int) - X1 + 1) * ((Y2 : Int) - Y1 + 1))) * 2) % 2 ^ 32 / 2
      = (X2 - X1 + 1) * (Y2 - Y1 + 1) := by
  have hP : ((X2 : Int) - X1 + 1) * ((Y2 : Int) - Y1 + 1)
      = (((X2 - X1 + 1) * (Y2 - Y1 + 1) : Nat) : Int) := by
    rw [Nat.cast_mul, Nat.cast_add, Nat.cast_add, Nat.cast_sub h1, Nat.cast_sub h2]
    rfl
  rw [hP]
  exact pixel_count_cast _ ha

/-- The window and the pixel count of an on-screen `lcdDrawPixel`. -/
theorem lcdDrawPixel_exact (dev : TFT_t) (x y color : Nat)
    (hx : x < dev._width) (hy : y < dev._height) :
    ∃ w, parse_window_write (lcdDrawPixel dev x y color) = some w ∧
      w.x1 = (x + dev._offsetx) % 65536 ∧ w.x2 = (x + dev._offsetx) % 65536 ∧
      w.y1 = (y + dev._offsety) % 65536 ∧ w.y2 = (y + dev._offsety) % 65536 ∧
      w.pixels = 1 ∧ w.pixels_match := by
  have h : lcdDrawPixel dev x y color
      = set_window (u16 (x + dev._offsetx)) (u16 (x + dev._offsetx))
          (u16 (y + dev._offsety)) (u16 (y + dev._offsety))
          ++ spi_master_write_data_word color := by
    simp [lcdDrawPixel, not_le.mpr hx, not_le.mpr hy, set_window]
  rw [h, parse_set_window _ _ _ _ (u16_lt _) (u16_lt _) (u16_lt _) (u16_lt _)]
  refine ⟨_, rfl, u16_add _ _, u16_add _ _, u16_add _ _, u16_add _ _, ?_, ?_⟩
  · simp [spi_master_write_data_word, spi_master_write_byte, tx_bytes]
  · simp [WindowWrite.pixels_match, spi_master_write_data_word, spi_master_write_byte, tx_bytes]

/-- The window and the pixel count of an on-screen `lcdDrawMultiPixels` of at least one
pixel whose last column does not wrap around 16 bits. -/
theorem lcdDrawMultiPixels_exact (dev : TFT_t) (hdev : dev.wf) (x y size : Nat)
    (colors : List Nat) (hx : x + size ≤ dev._width) (hy : y < dev._height)
    (hsize : 1 ≤ size)
    (hord : (x + dev._offsetx) % 65536 ≤ ((x + dev._offsetx) % 65536 + (size - 1)) % 65536) :
    ∃ t w, lcdDrawMultiPixels dev x y size colors = some t ∧
      parse_window_write t = some w ∧
      w.x1 = (x + dev._offsetx) % 65536 ∧
      w.x2 = ((x + dev._offsetx) % 65536 + (size - 1)) % 65536 ∧
      w.y1 = (y + dev._offsety) % 65536 ∧ w.y2 = (y + dev._offsety) % 65536 ∧
      w.pixels = size ∧ w.pixels_match := by
  obtain ⟨hw, -, -, -⟩ := hdev
  obtain ⟨px, hpx, hlen⟩ := spi_master_write_colors_spec colors size (by omega)
  have h : lcdDrawMultiPixels dev x y size colors
      = some (set_window (u16 (x + dev._offsetx))
          (u16 ((u16 (x + dev._offsetx) : Int) + ((size : Int) - 1)))
          (u16 (y + dev._offsety)) (u16 (y + dev._offsety)) ++ px) := by
    simp [lcdDrawMultiPixels, not_lt.mpr hx, not_le.mpr hy, set_window, hpx]
  have e1 : u16 ((x : Int) + dev._offsetx) = (x + dev._offsetx) % 65536 := u16_add _ _
  have e3 : u16 ((y : Int) + dev._offsety) = (y + dev._offsety) % 65536 := u16_add _ _
  have e2 : u16 ((u16 ((x : Int) + dev._offsetx) : Int) + ((size : Int) - 1))
      = ((x + dev._offsetx) % 65536 + (size - 1)) % 65536 := by
    rw [e1]
    generalize (x + dev._offsetx) % 65536 = X
    unfold u16
    omega
  refine ⟨_, _, h, parse_set_window _ _ _ _ (u16_lt _) (u16_lt _) (u16_lt _) (u16_lt _) _,
    e1, e2, e3, e3, ?_, ?_⟩
  · show (tx_bytes px).length / 2 = size
    rw [hlen]
    exact Nat.mul_div_cancel size (by decide)
  · unfold WindowWrite.pixels_match
    dsimp only
    rw [hlen, e2, e1, Nat.mul_div_cancel size (by decide)]
    have hX : (x + dev._offsetx) % 65536 < 65536 := Nat.mod_lt _ (by decide)
    clear e1 e2 e3 h hpx hlen
    revert hord hX
    generalize (x + dev._offsetx) % 65536 = X
    generalize u16 ((y : Int) + dev._offsety) = Y
    intro hord hX
    have hY : ((Y : Int) - Y + 1) = 1 := by omega
    rw [hY, mul_one]
    omega

/-- The window and the pixel count of an on-screen `lcdDrawFillRect` whose window is
ordered and holds fewer than `2 ^ 31` pixels, in terms of its arguments. -/
theorem lcdDrawFillRect_exact (dev : TFT_t) (hdev : dev.wf) (x1 y1 x2 y2 color : Nat)
    (hx : x1 < dev._width) (hy : y1 < dev._height)
    (hox : (x1 + dev._offsetx) % 65536 ≤ (min x2 (dev._width - 1) + dev._offsetx) % 65536)
    (hoy : (y1 + dev._offsety) % 65536 ≤ (min y2 (dev._height - 1) + dev._offsety) % 65536)
    (harea : ((min x2 (dev._width - 1) + dev._offsetx) % 65536
        - (x1 + dev._offsetx) % 65536 + 1)
      * ((min y2 (dev._height - 1) + dev._offsety) % 65536
        - (y1 + dev._offsety) % 65536 + 1) < 2 ^ 31) :
    ∃ t w, lcdDrawFillRect dev x1 y1 x2 y2 color = some t ∧
      parse_window_write t = some w ∧
      w.x1 = (x1 + dev._offsetx) % 65536 ∧
      w.x2 = (min x2 (dev._width - 1) + dev._offsetx) % 65536 ∧
      w.y1 = (y1 + dev._offsety) % 65536 ∧
      w.y2 = (min y2 (dev._height - 1) + dev._offsety) % 65536 ∧
      w.pixels = ((min x2 (dev._width - 1) + dev._offsetx) % 65536
          - (x1 + dev._offsetx) % 65536 + 1)
        * ((min y2 (dev._height - 1) + dev._offsety) % 65536
          - (y1 + dev._offsety) % 65536 + 1) ∧
      w.pixels_match := by
  obtain ⟨hw, hh, -, -⟩ := hdev
  obtain ⟨t, w, h1, h2, e1, e2, e3, e4, e5⟩ :=
    lcdDrawFillRect_pixels dev x1 y1 x2 y2 color hx hy
  have hx2 : (if x2 ≥ dev._width then u16 ((dev._width : Int) - 1) else x2)
      = min x2 (dev._width - 1) := by
    unfold u16
    split_ifs <;> omega
  have hy2 : (if y2 ≥ dev._height then u16 ((dev._height : Int) - 1) else y2)
      = min y2 (dev._height - 1) := by
    unfold u16
    split_ifs <;> omega
  rw [u16_add] at e1 e3
  rw [hx2, u16_add] at e2
  rw [hy2, u16_add] at e4
  rw [e1, e2, e3, e4, pixel_count_exact _ _ _ _ hox hoy harea] at e5
  refine ⟨t, w, h1, h2, e1, e2, e3, e4, e5, ?_⟩
  simp only [WindowWrite.pixels_match, e1, e2, e3, e4, e5]
  push_cast [Nat.cast_sub hox, Nat.cast_sub hoy]
  ring

/-- The window and the pixel count of `lcdFillScreen` on a panel whose window is
ordered and holds fewer than `2 ^ 31` pixels. -/
theorem lcdFillScreen_exact (dev : TFT_t) (hdev : dev.wf) (color : Nat)
    (hx : 0 < dev._width) (hy : 0 < dev._height)
    (hox : (0 + dev._offsetx) % 65536 ≤ (dev._width - 1 + dev._offsetx) % 65536)
    (hoy : (0 + dev._offsety) % 65536 ≤ (dev._height - 1 + dev._offsety) % 65536)
    (harea : ((dev._width - 1 + dev._offsetx) % 65536 - (0 + dev._offsetx) % 65536 + 1)
      * ((dev._height - 1 + dev._offsety) % 65536 - (0 + dev._offsety) % 65536 + 1)
        < 2 ^ 31) :
    ∃ t w, lcdFillScreen dev color = some t ∧
      parse_window_write t = some w ∧
      w.x1 = (0 + dev._offsetx) % 65536 ∧
      w.x2 = (dev._width - 1 + dev._offsetx) % 65536 ∧
      w.y1 = (0 + dev._offsety) % 65536 ∧
      w.y2 = (dev._height - 1 + dev._offsety) % 65536 ∧
      w.pixels = ((dev._width - 1 + dev._offsetx) % 65536 - (0 + dev._offsetx) % 65536 + 1)
        * ((dev._height - 1 + dev._offsety) % 65536 - (0 + dev._offsety) % 65536 + 1) ∧
      w.pixels_match := by
  have hw := hdev.1
  have hh := hdev.2.1
  have ex : u16 ((dev._width : Int) - 1) = dev._width - 1 := by unfold u16; omega
  have ey : u16 ((dev._height : Int) - 1) = dev._height - 1 := by unfold u16; omega
  have mx : min (dev._width - 1) (dev._width - 1) = dev._width - 1 := Nat.min_self _
  have my : min (dev._height - 1) (dev._height - 1) = dev._height - 1 := Nat.min_self _
  have := lcdDrawFillRect_exact dev hdev 0 0 (dev._width - 1) (dev._height - 1) color hx hy
    (by rw [mx]; exact hox) (by rw [my]; exact hoy) (by rw [mx, my]; exact harea)
  rw [mx, my] at this
  unfold lcdFillScreen
  rw [ex, ey]
  exact this

theorem wrap32_eq (z : Int) (h1 : -2 ^ 31 ≤ z) (h2 : z < 2 ^ 31) : wrap32 z = z := by
  unfold wrap32
  omega

/-- One loop of `lcdDrawLine` and one loop of the Bresenham rule, started in the same
state `rx` columns and `ry` rows away from the end point, produce the same points. -/
theorem line_loop_sim (x2 y2 a b : Nat) (sx sy : Int)
    (hx2 : x2 < 65536) (hy2 : y2 < 65536) (ha : a < 65536) (hb : b < 65536)
    (hsx : sx = 1 ∨ (sx = -1 ∧ x2 + a < 65536))
    (hsy : sy = 1 ∨ (sy = -1 ∧ y2 + b < 65536)) :
    ∀ (f1 f2 rx ry x y : Nat) (err P Q : Int),
      rx + ry < f1 → rx + ry < f2 → rx ≤ a → ry ≤ b →
      (x : Int) + sx * rx = x2 → (y : Int) + sy * ry = y2 →
      P = (b : Int) * rx → Q = (a : Int) * ry → err = (a : Int) - b + P - Q →
      -3 * (b : Int) ≤ 2 * err → 2 * err ≤ 3 * (a : Int) →
      ∃ pts, lcdDrawLine_loop f1 x2 y2 a (-(b : Int)) sx sy x y err = some pts ∧
        bresenham_loop f2 x2 y2 a (-(b : Int)) sx sy x y err = some (pts.map to_int_point) := by
  intro f1
  induction f1 with
  | zero => intro f2 rx ry x y err P Q h; omega
  | succ n1 ih =>
    intro f2 rx ry x y err P Q hf1 hf2 hrx hry hx hy hP hQ herr hlo hhi
    obtain ⟨n2, rfl⟩ : ∃ n2, f2 = n2 + 1 := ⟨f2 - 1, by omega⟩
    unfold lcdDrawLine_loop bresenham_loop
    by_cases hfin : rx = 0 ∧ ry = 0
    · obtain ⟨rfl, rfl⟩ := hfin
      have e1 : x = x2 := by simpa using hx
      have e2 : y = y2 := by simpa using hy
      subst e1 e2
      exact ⟨[(x, y)], by simp, by simp [to_int_point]⟩
    · have hne : ¬ (x = x2 ∧ y = y2) := by
        rintro ⟨rfl, rfl⟩
        apply hfin
        rcases hsx with rfl | ⟨rfl, -⟩ <;> rcases hsy with rfl | ⟨rfl, -⟩ <;>
          constructor <;> omega
      have hne' : ¬ ((x : Int) = x2 ∧ (y : Int) = y2) := by
        rintro ⟨h1, h2⟩
        exact hne ⟨by exact_mod_cast h1, by exact_mod_cast h2⟩
      have hw : wrap32 (2 * err) = 2 * err := wrap32_eq _ (by omega) (by omega)
      -- a column step is only taken while columns remain, a row step while rows remain
      have hP0 : rx = 0 → P = 0 := by intro h; simp [hP, h]
      have hQ0 : ry = 0 → Q = 0 := by intro h; simp [hQ, h]
      have hP1 : 1 ≤ rx → (b : Int) ≤ P := by
        intro h; rw [hP]; nlinarith
      have hQ1 : 1 ≤ ry → (a : Int) ≤ Q := by
        intro h; rw [hQ]; nlinarith
      have hxs : 2 * err ≥ -(b : Int) → 1 ≤ rx := by
        intro h
        by_contra hc
        have h0 : rx = 0 := by omega
        have := hP0 h0
        have := hQ1 (by omega)
        omega
      have hys : 2 * err ≤ (a : Int) → 1 ≤ ry := by
        intro h
        by_contra hc
        have h0 : ry = 0 := by omega
        have := hQ0 h0
        have := hP1 (by omega)
        omega
      simp only [hne, hne', ↓reduceIte, hw]
      by_cases c1 : 2 * err ≥ -(b : Int) <;> by_cases c2 : 2 * err ≤ (a : Int)
      · -- both steps
        obtain ⟨rx', rfl⟩ : ∃ r, rx = r + 1 := ⟨rx - 1, by have := hxs c1; omega⟩
        obtain ⟨ry', rfl⟩ : ∃ r, ry = r + 1 := ⟨ry - 1, by have := hys c2; omega⟩
        have hP' : P - b = (b : Int) * rx' := by subst hP; push_cast; ring
        have hQ' : Q - a = (a : Int) * ry' := by subst hQ; push_cast; ring
        have w1 : wrap32 (err + -(b : Int)) = err - b := by
          rw [wrap32_eq _ (by omega) (by omega)]; ring
        have w2 : wrap32 (err - b + a) = err - b + a := wrap32_eq _ (by omega) (by omega)
        have hx' : ((u16 ((x : Int) + sx) : Nat) : Int) = x + sx := by
          unfold u16
          rcases hsx with rfl | ⟨rfl, _⟩ <;> push_cast at hx <;> omega
        have hy' : ((u16 ((y : Int) + sy) : Nat) : Int) = y + sy := by
          unfold u16
          rcases hsy with rfl | ⟨rfl, _⟩ <;> push_cast at hy <;> omega
        simp only [c1, c2, ↓reduceIte, w1, w2]
        obtain ⟨pts, h1, h2⟩ := ih n2 rx' ry' (u16 ((x : Int) + sx)) (u16 ((y : Int) + sy))
          (err - b + a) (P - b) (Q - a) (by omega) (by omega) (by omega) (by omega)
          (by rw [hx']; push_cast at hx; linarith) (by rw [hy']; push_cast at hy; linarith)
          hP' hQ' (by omega) (by omega) (by omega)
        refine ⟨(x, y) :: pts, by rw [h1]; rfl, ?_⟩
        rw [← hx', ← hy', show err + -(b : Int) + a = err - b + a by ring, h2]
        simp [to_int_point]
      · -- a column step only
        obtain ⟨rx', rfl⟩ : ∃ r, rx = r + 1 := ⟨rx - 1, by have := hxs c1; omega⟩
        have hP' : P - b = (b : Int) * rx' := by subst hP; push_cast; ring
        have w1 : wrap32 (err + -(b : Int)) = err - b := by
          rw [wrap32_eq _ (by omega) (by omega)]; ring
        have hx' : ((u16 ((x : Int) + sx) : Nat) : Int) = x + sx := by
          unfold u16
          rcases hsx with rfl | ⟨rfl, _⟩ <;> push_cast at hx <;> omega
        simp only [c1, c2, ↓reduceIte, w1]
        obtain ⟨pts, h1, h2⟩ := ih n2 rx' ry (u16 ((x : Int) + sx)) y
          (err - b) (P - b) Q (by omega) (by omega) (by omega) (by omega)
          (by rw [hx']; push_cast at hx; linarith) hy
          hP' hQ (by omega) (by omega) (by omega)
        refine ⟨(x, y) :: pts, by rw [h1]; rfl, ?_⟩
        rw [← hx', show err + -(b : Int) = err - b by ring, h2]
        simp [to_int_point]
      · -- a row step only
        obtain ⟨ry', rfl⟩ : ∃ r, ry = r + 1 := ⟨ry - 1, by have := hys c2; omega⟩
        have hQ' : Q - a = (a : Int) * ry' := by subst hQ; push_cast; ring
        have w2 : wrap32 (err + a) = err + a := wrap32_eq _ (by omega) (by omega)
        have hy' : ((u16 ((y : Int) + sy) : Nat) : Int) = y + sy := by
          unfold u16
          rcases hsy with rfl | ⟨rfl, _⟩ <;> push_cast at hy <;> omega
        simp only [c1, c2, ↓reduceIte, w2]
        obtain ⟨pts, h1, h2⟩ := ih n2 rx ry' x (u16 ((y : Int) + sy))
          (err + a) P (Q - a) (by omega) (by omega) (by omega) (by omega)
          hx (by rw [hy']; push_cast at hy; linarith)
          hP hQ' (by omega) (by omega) (by omega)
        refine ⟨(x, y) :: pts, by rw [h1]; rfl, ?_⟩
        rw [← hy', h2]
        simp [to_int_point]
      · exfalso; omega

theorem wrap32_natCast (a : Nat) (h : a < 65536) : wrap32 (a : Int) = a :=
  wrap32_eq _ (by omega) (by omega)

theorem wrap32_neg_natCast (a : Nat) (h : a < 65536) : wrap32 (-(a : Int)) = -(a : Int) :=
  wrap32_eq _ (by omega) (by omega)

theorem wrap32_natCast_sub (a b : Nat) (ha : a < 65536) (hb : b < 65536) :
    wrap32 ((a : Int) + -(b : Int)) = (a : Int) + -(b : Int) :=
  wrap32_eq _ (by omega) (by omega)

theorem wrap32_sub_natCast (a b : Nat) (ha : a < 65536) (hb : b < 65536) :
    wrap32 ((a : Int) - (b : Int)) = (a : Int) - (b : Int) :=
  wrap32_eq _ (by omega) (by omega)

/-- The direction and the distance of one coordinate of a line: the step is `1` when
the start lies before the end and `-1` otherwise, and `a` steps lead from the start to
the end. -/
theorem line_direction (u v a : Nat) (hu : u < 65536) (hv : v < 65536)
    (ha : |(v : Int) - u| = (a : Int)) :
    a < 65536 ∧
      ((if u < v then (1 : Int) else -1) = 1 ∨
        ((if u < v then (1 : Int) else -1) = -1 ∧ v + a < 65536)) ∧
      (u : Int) + (if u < v then (1 : Int) else -1) * (a : Int) = v ∧
      (if (u : Int) < v then (1 : Int) else -1) = (if u < v then (1 : Int) else -1) := by
  by_cases h : u < v
  · have h2 : ((u : Int) < v) := by exact_mod_cast h
    rw [abs_of_nonneg (by omega : (0 : Int) ≤ (v : Int) - u)] at ha
    simp only [h, h2, ↓reduceIte]
    refine ⟨by omega, ?_, by omega, ?_⟩ <;> simp
  · have h2 : ¬ ((u : Int) < v) := by intro h3; exact h (by exact_mod_cast h3)
    rw [abs_of_nonpos (by omega : (v : Int) - u ≤ 0)] at ha
    simp only [h, h2, ↓reduceIte]
    refine ⟨by omega, ?_, by omega, ?_⟩
    · simp; omega
    · simp

/-- The simulation of `line_loop_sim` for a whole line, with the two distances given
as natural numbers. -/
theorem lcdDrawLine_points_sim_aux (x1 y1 x2 y2 A B : Nat) (hx1 : x1 < 65536)
    (hy1 : y1 < 65536) (hx2 : x2 < 65536) (hy2 : y2 < 65536)
    (hA : |(x2 : Int) - x1| = (A : Int)) (hB : |(y2 : Int) - y1| = (B : Int))
    (fuel : Nat) (hfuel : A + B < fuel) :
    ∃ pts, lcdDrawLine_points x1 y1 x2 y2 = some pts ∧
      bresenham fuel x1 y1 x2 y2 = some (pts.map to_int_point) := by
  have hAlt : A < 65536 := (line_direction x1 x2 A hx1 hx2 hA).1
  have hBlt : B < 65536 := (line_direction y1 y2 B hy1 hy2 hB).1
  have e1 : -3 * (B : Int) ≤ 2 * ((A : Int) + -(B : Int)) := by
    clear hA hB hfuel hAlt hBlt
    omega
  have e2 : 2 * ((A : Int) + -(B : Int)) ≤ 3 * (A : Int) := by
    clear hA hB hfuel hAlt hBlt
    omega
  have hFex : ∃ F : Nat, 2 ^ 17 = F ∧ A + B < F := by
    refine ⟨_, rfl, ?_⟩
    clear hA hB hfuel e1 e2
    norm_num
    omega
  obtain ⟨F, hF, hFb⟩ := hFex
  have w1 := wrap32_sub_natCast x2 x1 hx2 hx1
  have w2 := wrap32_sub_natCast y2 y1 hy2 hy1
  have w3 : wrap32 (A : Int) = A := wrap32_natCast A hAlt
  have w4 : wrap32 (-(B : Int)) = -(B : Int) := wrap32_neg_natCast B hBlt
  have w5 : wrap32 ((A : Int) + -(B : Int)) = (A : Int) + -(B : Int) :=
    wrap32_natCast_sub A B hAlt hBlt
  obtain ⟨-, hsx1, hxe, hsx⟩ := line_direction x1 x2 A hx1 hx2 hA
  obtain ⟨-, hsy1, hye, hsy⟩ := line_direction y1 y2 B hy1 hy2 hB
  unfold lcdDrawLine_points bresenham
  rw [hF]
  simp only [w1, w2, hA, hB, w3, w4, w5, hsx, hsy]
  exact line_loop_sim x2 y2 A B _ _ hx2 hy2 hAlt hBlt hsx1 hsy1 F fuel A B x1 y1
    ((A : Int) + -(B : Int)) ((B : Int) * A) ((A : Int) * B) hFb hfuel (Nat.le_refl _)
    (Nat.le_refl _) hxe hye rfl rfl (by ring) e1 e2

theorem lcdDrawLine_points_sim (x1 y1 x2 y2 : Nat) (hx1 : x1 < 65536) (hy1 : y1 < 65536)
    (hx2 : x2 < 65536) (hy2 : y2 < 65536) (fuel : Nat)
    (hfuel : ((x2 : Int) - x1).natAbs + ((y2 : Int) - y1).natAbs < fuel) :
    ∃ pts, lcdDrawLine_points x1 y1 x2 y2 = some pts ∧
      bresenham fuel x1 y1 x2 y2 = some (pts.map to_int_point) :=
  lcdDrawLine_points_sim_aux x1 y1 x2 y2 _ _ hx1 hy1 hx2 hy2 (Int.natCast_natAbs _).symm
    (Int.natCast_natAbs _).symm fuel hfuel

/-- A horizontal run of the `lcdDrawLine` loop visits exactly the columns between the
current column and the end column. -/
theorem hline_loop (x2 y a : Nat) (sx sy : Int) (hx2 : x2 < 65536) (ha : a < 65536)
    (hsx : sx = 1 ∨ (sx = -1 ∧ x2 + a < 65536)) :
    ∀ (fuel rx x : Nat), rx < fuel → rx ≤ a → (x : Int) + sx * rx = x2 →
      ∃ pts, lcdDrawLine_loop fuel x2 y a 0 sx sy x y a = some pts ∧
        ∀ p : Nat × Nat, p ∈ pts ↔
          (p.2 = y ∧ ((x ≤ p.1 ∧ p.1 ≤ x2) ∨ (x2 ≤ p.1 ∧ p.1 ≤ x))) := by
  intro fuel
  induction fuel with
  | zero => intro rx x h; omega
  | succ n ih =>
    intro rx x hf hrx hx
    unfold lcdDrawLine_loop
    by_cases h0 : rx = 0
    · subst h0
      have e : x = x2 := by simpa using hx
      subst e
      refine ⟨[(x, y)], by simp, ?_⟩
      intro p
      simp only [List.mem_singleton, Prod.ext_iff]
      omega
    · obtain ⟨rx', rfl⟩ : ∃ r, rx = r + 1 := ⟨rx - 1, by omega⟩
      have hne : ¬ (x = x2 ∧ y = y) := by
        rintro ⟨rfl, -⟩
        rcases hsx with rfl | ⟨rfl, -⟩ <;> omega
      have w1 : wrap32 (2 * (a : Int)) = 2 * a := wrap32_eq _ (by omega) (by omega)
      have w2 : wrap32 ((a : Int) + 0) = a := by
        rw [wrap32_eq _ (by omega) (by omega)]; ring
      have c1 : 2 * (a : Int) ≥ 0 := by omega
      have c2 : ¬ 2 * (a : Int) ≤ a := by omega
      have hx' : ((u16 ((x : Int) + sx) : Nat) : Int) = x + sx := by
        unfold u16
        rcases hsx with rfl | ⟨rfl, _⟩ <;> push_cast at hx <;> omega
      rw [if_neg hne]
      simp only [↓reduceIte, w1, w2, c1, c2]
      obtain ⟨pts, h1, h2⟩ := ih rx' (u16 ((x : Int) + sx)) (by omega) (by omega)
        (by rw [hx']; push_cast at hx; linarith)
      refine ⟨(x, y) :: pts, by rw [h1]; rfl, ?_⟩
      intro p
      simp only [List.mem_cons, h2, Prod.ext_iff]
      have hx'' : ((u16 ((x : Int) + sx) : Nat) : Int) = x + sx := hx'
      revert hx''
      generalize u16 ((x : Int) + sx) = x'
      intro hx''
      rcases hsx with rfl | ⟨rfl, _⟩ <;> push_cast at hx <;> omega

/-- A vertical run of the `lcdDrawLine` loop visits exactly the rows between the
current row and the end row. -/
theorem vline_loop (x y2 b : Nat) (sx sy : Int) (hy2 : y2 < 65536) (hb : b < 65536)
    (hsy : sy = 1 ∨ (sy = -1 ∧ y2 + b < 65536)) :
    ∀ (fuel ry y : Nat), ry < fuel → ry ≤ b → (y : Int) + sy * ry = y2 →
      ∃ pts, lcdDrawLine_loop fuel x y2 0 (-(b : Int)) sx sy x y (-(b : Int)) = some pts ∧
        ∀ p : Nat × Nat, p ∈ pts ↔
          (p.1 = x ∧ ((y ≤ p.2 ∧ p.2 ≤ y2) ∨ (y2 ≤ p.2 ∧ p.2 ≤ y))) := by
  intro fuel
  induction fuel with
  | zero => intro ry y h; omega
  | succ n ih =>
    intro ry y hf hry hy
    unfold lcdDrawLine_loop
    by_cases h0 : ry = 0
    · subst h0
      have e : y = y2 := by simpa using hy
      subst e
      refine ⟨[(x, y)], by simp, ?_⟩
      intro p
      simp only [List.mem_singleton, Prod.ext_iff]
      omega
    · obtain ⟨ry', rfl⟩ : ∃ r, ry = r + 1 := ⟨ry - 1, by omega⟩
      have hne : ¬ (x = x ∧ y = y2) := by
        rintro ⟨-, rfl⟩
        rcases hsy with rfl | ⟨rfl, -⟩ <;> omega
      have w1 : wrap32 (2 * -(b : Int)) = 2 * -(b : Int) := wrap32_eq _ (by omega) (by omega)
      have w2 : wrap32 (-(b : Int) + 0) = -(b : Int) := by
        rw [wrap32_eq _ (by omega) (by omega)]; ring
      have c1 : ¬ 2 * -(b : Int) ≥ -(b : Int) := by omega
      have c2 : 2 * -(b : Int) ≤ 0 := by omega
      have hy' : ((u16 ((y : Int) + sy) : Nat) : Int) = y + sy := by
        unfold u16
        rcases hsy with rfl | ⟨rfl, _⟩ <;> push_cast at hy <;> omega
      rw [if_neg hne]
      simp only [↓reduceIte, w1, w2, c1, c2]
      obtain ⟨pts, h1, h2⟩ := ih ry' (u16 ((y : Int) + sy)) (by omega) (by omega)
        (by rw [hy']; push_cast at hy; linarith)
      refine ⟨(x, y) :: pts, by rw [h1]; rfl, ?_⟩
      intro p
      simp only [List.mem_cons, h2, Prod.ext_iff]
      have hy'' : ((u16 ((y : Int) + sy) : Nat) : Int) = y + sy := hy'
      revert hy''
      generalize u16 ((y : Int) + sy) = y'
      intro hy''
      rcases hsy with rfl | ⟨rfl, _⟩ <;> push_cast at hy <;> omega

theorem hline_points (xa xb y : Nat) (hxa : xa < 65536) (hxb : xb < 65536) (_hy : y < 65536) :
    ∃ pts, lcdDrawLine_points xa y xb y = some pts ∧
      ∀ p : Nat × Nat, p ∈ pts ↔ (p.2 = y ∧ min xa xb ≤ p.1 ∧ p.1 ≤ max xa xb) := by
  have hax : |(xb : Int) - xa| = (((xb : Int) - xa).natAbs : Int) := (Int.natCast_natAbs _).symm
  have w1 : wrap32 ((xb : Int) - xa) = (xb : Int) - xa := wrap32_eq _ (by omega) (by omega)
  have w2 : wrap32 ((y : Int) - y) = 0 := by rw [wrap32_eq _ (by omega) (by omega)]; ring
  have w3 : wrap32 (((xb : Int) - xa).natAbs : Int) = (((xb : Int) - xa).natAbs : Int) :=
    wrap32_eq _ (by omega) (by omega)
  have w4 : wrap32 (-(0 : Int)) = 0 := by decide
  have w5 : wrap32 ((((xb : Int) - xa).natAbs : Int) + 0) = (((xb : Int) - xa).natAbs : Int) := by
    rw [wrap32_eq _ (by omega) (by omega)]; ring
  unfold lcdDrawLine_points
  obtain ⟨F, hF, hFb⟩ : ∃ F : Nat, 2 ^ 17 = F ∧ 131072 ≤ F := ⟨_, rfl, by norm_num⟩
  rw [hF]
  simp only [w1, w2, hax, abs_zero, w3, w4, w5]
  obtain ⟨pts, h1, h2⟩ := hline_loop xb y ((xb : Int) - xa).natAbs
    (if xa < xb then 1 else -1) (if y < y then 1 else -1) hxb (by omega)
    (by split_ifs <;> [left; right] <;> first | rfl | (constructor <;> omega))
    F ((xb : Int) - xa).natAbs xa (by omega) (Nat.le_refl _) (by split_ifs <;> omega)
  refine ⟨pts, h1, ?_⟩
  intro p
  rw [h2]
  omega

theorem vline_points (x ya yb : Nat) (_hx : x < 65536) (hya : ya < 65536) (hyb : yb < 65536) :
    ∃ pts, lcdDrawLine_points x ya x yb = some pts ∧
      ∀ p : Nat × Nat, p ∈ pts ↔ (p.1 = x ∧ min ya yb ≤ p.2 ∧ p.2 ≤ max ya yb) := by
  have hay : |(yb : Int) - ya| = (((yb : Int) - ya).natAbs : Int) := (Int.natCast_natAbs _).symm
  have w1 : wrap32 ((yb : Int) - ya) = (yb : Int) - ya := wrap32_eq _ (by omega) (by omega)
  have w2 : wrap32 ((x : Int) - x) = 0 := by rw [wrap32_eq _ (by omega) (by omega)]; ring
  have w3 : wrap32 (-(((yb : Int) - ya).natAbs : Int)) = -(((yb : Int) - ya).natAbs : Int) :=
    wrap32_eq _ (by omega) (by omega)
  have w4 : wrap32 (0 : Int) = 0 := by decide
  have w5 : wrap32 (0 + -(((yb : Int) - ya).natAbs : Int)) = -(((yb : Int) - ya).natAbs : Int) := by
    rw [wrap32_eq _ (by omega) (by omega)]; ring
  unfold lcdDrawLine_points
  obtain ⟨F, hF, hFb⟩ : ∃ F : Nat, 2 ^ 17 = F ∧ 131072 ≤ F := ⟨_, rfl, by norm_num⟩
  rw [hF]
  simp only [w1, w2, hay, abs_zero, w3, w4, w5]
  obtain ⟨pts, h1, h2⟩ := vline_loop x yb ((yb : Int) - ya).natAbs
    (if x < x then 1 else -1) (if ya < yb then 1 else -1) hyb (by omega)
    (by split_ifs <;> [left; right] <;> first | rfl | (constructor <;> omega))
    F ((yb : Int) - ya).natAbs ya (by omega) (Nat.le_refl _) (by split_ifs <;> omega)
  refine ⟨pts, h1, ?_⟩
  intro p
  rw [h2]
  omega

theorem to_int_intCast (z : Int) : to_int (z : ℚ) = z := by
  unfold to_int
  split_ifs <;> simp

/-- At angle 0 (`cos = 1`, `sin = 0`) the corners are `(xc ∓ w/2, yc ± h/2)`. -/
theorem lcdDrawRectAngle_corners_zero (xc yc w h : Nat) :
    lcdDrawRectAngle_corners 1 0 xc yc w h =
      { x1 := (xc : Int) - (w / 2 : Nat), y1 := (yc : Int) + (h / 2 : Nat),
        x2 := (xc : Int) - (w / 2 : Nat), y2 := (yc : Int) - (h / 2 : Nat),
        x3 := (xc : Int) + (w / 2 : Nat), y3 := (yc : Int) + (h / 2 : Nat),
        x4 := (xc : Int) + (w / 2 : Nat), y4 := (yc : Int) - (h / 2 : Nat) } := by
  unfold lcdDrawRectAngle_corners
  generalize w / 2 = m
  generalize h / 2 = n
  have e1 : (0 - (m : ℚ)) * 1 - (n : ℚ) * 0 + (xc : ℚ)
      = (((xc : Int) - (m : Int) : Int) : ℚ) := by push_cast; ring
  have e2 : (0 - (m : ℚ)) * 0 + (n : ℚ) * 1 + (yc : ℚ)
      = (((yc : Int) + (n : Int) : Int) : ℚ) := by push_cast; ring
  have e3 : (0 - (m : ℚ)) * 1 - (0 - (n : ℚ)) * 0 + (xc : ℚ)
      = (((xc : Int) - (m : Int) : Int) : ℚ) := by push_cast; ring
  have e4 : (0 - (m : ℚ)) * 0 + (0 - (n : ℚ)) * 1 + (yc : ℚ)
      = (((yc : Int) - (n : Int) : Int) : ℚ) := by push_cast; ring
  have e5 : (m : ℚ) * 1 - (n : ℚ) * 0 + (xc : ℚ)
      = (((xc : Int) + (m : Int) : Int) : ℚ) := by push_cast; ring
  have e6 : (m : ℚ) * 0 + (n : ℚ) * 1 + (yc : ℚ)
      = (((yc : Int) + (n : Int) : Int) : ℚ) := by push_cast; ring
  have e7 : (m : ℚ) * 1 - (0 - (n : ℚ)) * 0 + (xc : ℚ)
      = (((xc : Int) + (m : Int) : Int) : ℚ) := by push_cast; ring
  have e8 : (m : ℚ) * 0 + (0 - (n : ℚ)) * 1 + (yc : ℚ)
      = (((yc : Int) - (n : Int) : Int) : ℚ) := by push_cast; ring
  simp only [e1, e2, e3, e4, e5, e6, e7, e8, to_int_intCast]

/-- The four lines of `lcdDrawRectAngle` at angle 0 and the four lines of `lcdDrawRect`
on the same corners visit the same points. -/
theorem rect_points_same (L T R B : Nat) (hL : L < 65536) (hT : T < 65536)
    (hR : R < 65536) (hB : B < 65536) :
    ∃ pa pr,
      ((lcdDrawLine_points L B L T).bind fun l1 =>
        (lcdDrawLine_points L B R B).bind fun l2 =>
        (lcdDrawLine_points L T R T).bind fun l3 =>
        (lcdDrawLine_points R B R T).map fun l4 => l1 ++ l2 ++ l3 ++ l4) = some pa ∧
      lcdDrawRect_points L T R B = some pr ∧ ∀ p, p ∈ pa ↔ p ∈ pr := by
  obtain ⟨a1, ha1, ma1⟩ := vline_points L B T hL hB hT
  obtain ⟨a2, ha2, ma2⟩ := hline_points L R B hL hR hB
  obtain ⟨a3, ha3, ma3⟩ := hline_points L R T hL hR hT
  obtain ⟨a4, ha4, ma4⟩ := vline_points R B T hR hB hT
  obtain ⟨r2, hr2, mr2⟩ := vline_points R T B hR hT hB
  obtain ⟨r3, hr3, mr3⟩ := hline_points R L B hR hL hB
  refine ⟨a1 ++ a2 ++ a3 ++ a4, a3 ++ r2 ++ r3 ++ a1, ?_, ?_, ?_⟩
  · simp [ha1, ha2, ha3, ha4]
  · simp [lcdDrawRect_points, ha3, hr2, hr3, ha1]
  · intro p
    simp only [List.mem_append, ma1, ma2, ma3, ma4, mr2, mr3]
    omega

/-- On-screen `lcdDrawPixel`: the exact bus trace. -/
theorem lcdDrawPixel_onscreen (dev : TFT_t) (x y color : Nat) (hx : x < dev._width)
    (hy : y < dev._height) (hc : color < 65536) :
    lcdDrawPixel dev x y color =
      [.dc 0, .tx [0x2A], .dc 1,
        .tx [(x + dev._offsetx) % 65536 / 256, (x + dev._offsetx) % 65536 % 256,
             (x + dev._offsetx) % 65536 / 256, (x + dev._offsetx) % 65536 % 256],
       .dc 0, .tx [0x2B], .dc 1,
        .tx [(y + dev._offsety) % 65536 / 256, (y + dev._offsety) % 65536 % 256,
             (y + dev._offsety) % 65536 / 256, (y + dev._offsety) % 65536 % 256],
       .dc 0, .tx [0x2C], .dc 1, .tx [color / 256, color % 256]] := by
  have e1 : (x + dev._offsetx) % 65536 / 256 % 256 = (x + dev._offsetx) % 65536 / 256 := by
    omega
  have e2 : (y + dev._offsety) % 65536 / 256 % 256 = (y + dev._offsety) % 65536 / 256 := by
    omega
  have e3 : color / 256 % 256 = color / 256 := by omega
  have nx : ¬ x ≥ dev._width := by omega
  have ny : ¬ y ≥ dev._height := by omega
  simp only [lcdDrawPixel, nx, ny, ↓reduceIte, u16_add, spi_master_write_command,
    spi_master_write_addr, spi_master_write_data_word, spi_master_write_byte,
    SPI_Command_Mode, SPI_Data_Mode, e1, e2, e3]
  simp

theorem lcdDrawPixel_offscreen (dev : TFT_t) (x y color : Nat)
    (h : dev._width ≤ x ∨ dev._height ≤ y) : lcdDrawPixel dev x y color = [] := by
  unfold lcdDrawPixel
  by_cases hx : x ≥ dev._width
  · simp [hx]
  · have hy : y ≥ dev._height := by omega
    simp [hx, hy]

theorem replicate_flatten_add (m n : Nat) (p : List Nat) :
    (List.replicate m p).flatten ++ (List.replicate n p).flatten
      = (List.replicate (m + n) p).flatten := by
  rw [List.replicate_add, List.flatten_append]

/-- The colour loop ends; it sends data-mode blocks of whole pixels, none longer than
1024 bytes, whose concatenation is `len / 2` copies of the colour. -/
theorem spi_master_write_color_loop_chunks (color : Nat) :
    ∀ fuel len, len ≤ fuel → len % 2 = 0 →
      ∃ px bs, spi_master_write_color_loop fuel color len = some px ∧
        sub_transfers px = some bs ∧
        (∀ b ∈ bs, 0 < b.length ∧ b.length ≤ 1024 ∧ b.length % 2 = 0) ∧
        bs.flatten = (List.replicate (len / 2) [color / 256 % 256, color % 256]).flatten := by
  intro fuel
  induction fuel with
  | zero =>
    intro len h _
    have : len = 0 := by omega
    subst this
    exact ⟨[], [], by simp [spi_master_write_color_loop], rfl, by simp, rfl⟩
  | succ n ih =>
    intro len h heven
    unfold spi_master_write_color_loop
    by_cases hpos : len > 0
    · simp only [hpos, ↓reduceIte]
      set chunk := (if len > 1024 then 1024 else len) with hchunk
      have hc1 : chunk ≤ len := by rw [hchunk]; split_ifs <;> omega
      have hc2 : 2 ≤ chunk := by rw [hchunk]; split_ifs <;> omega
      have hc3 : chunk % 2 = 0 := by rw [hchunk]; split_ifs <;> omega
      have hc4 : chunk ≤ 1024 := by rw [hchunk]; split_ifs <;> omega
      obtain ⟨px, bs, hpx, hbs, hall, hcat⟩ := ih (len - chunk) (by omega) (by omega)
      have hb : (List.replicate (chunk / 2) [color / 256 % 256, color % 256]).flatten.length
          = chunk := by
        rw [length_flatten_replicate_pair]; omega
      have hw : spi_master_write_byte
          (List.replicate (chunk / 2) [color / 256 % 256, color % 256]).flatten
          = [.tx (List.replicate (chunk / 2) [color / 256 % 256, color % 256]).flatten] := by
        simp only [spi_master_write_byte, hb, gt_iff_lt, show 0 < chunk by omega, ↓reduceIte]
      refine ⟨_, (List.replicate (chunk / 2) [color / 256 % 256, color % 256]).flatten :: bs,
        by rw [hpx]; rfl, ?_, ?_, ?_⟩
      · rw [hw]
        simp only [SPI_Data_Mode, List.singleton_append, sub_transfers]
        show Option.map _ (sub_transfers px) = _
        rw [hbs]
        rfl
      · intro b hbmem
        rcases List.mem_cons.1 hbmem with rfl | hbmem
        · rw [hb]; omega
        · exact hall b hbmem
      · rw [List.flatten_cons, hcat, replicate_flatten_add]
        congr 2
        omega
    · have : len = 0 := by omega
      subst this
      exact ⟨[], [], by simp, rfl, by simp, rfl⟩

theorem range_map_flatten_add (m n : Nat) (f : Nat → List Nat) :
    ((List.range m).map f).flatten ++ ((List.range n).map fun i => f (m + i)).flatten
      = ((List.range (m + n)).map f).flatten := by
  rw [List.range_add, List.map_append, List.flatten_append, List.map_map]
  rfl

/-- The colours loop ends; it sends data-mode blocks of whole pixels, none longer than
1024 bytes, whose concatenation is the encoding of `colors[index ..]`. -/
theorem spi_master_write_colors_loop_chunks (colors : List Nat) :
    ∀ fuel index len, len ≤ fuel → len % 2 = 0 →
      ∃ px bs, spi_master_write_colors_loop fuel colors index len = some px ∧
        sub_transfers px = some bs ∧
        (∀ b ∈ bs, 0 < b.length ∧ b.length ≤ 1024 ∧ b.length % 2 = 0) ∧
        bs.flatten = ((List.range (len / 2)).map fun i =>
          [colors.getD (index + i) 0 / 256 % 256, colors.getD (index + i) 0 % 256]).flatten := by
  intro fuel
  induction fuel with
  | zero =>
    intro index len h _
    have : len = 0 := by omega
    subst this
    exact ⟨[], [], by simp [spi_master_write_colors_loop], rfl, by simp, rfl⟩
  | succ n ih =>
    intro index len h heven
    unfold spi_master_write_colors_loop
    by_cases hpos : len > 0
    · simp only [hpos, ↓reduceIte]
      set chunk := (if len > 1024 then 1024 else len) with hchunk
      have hc1 : chunk ≤ len := by rw [hchunk]; split_ifs <;> omega
      have hc2 : 2 ≤ chunk := by rw [hchunk]; split_ifs <;> omega
      have hc3 : chunk % 2 = 0 := by rw [hchunk]; split_ifs <;> omega
      have hc4 : chunk ≤ 1024 := by rw [hchunk]; split_ifs <;> omega
      obtain ⟨px, bs, hpx, hbs, hall, hcat⟩ :=
        ih (index + chunk / 2) (len - chunk) (by omega) (by omega)
      have hb := length_flatten_map_pair (chunk / 2)
        (fun i => colors.getD (index + i) 0 / 256 % 256) (fun i => colors.getD (index + i) 0 % 256)
      have hb' : 2 * (chunk / 2) = chunk := by omega
      rw [hb'] at hb
      generalize hblk : ((List.range (chunk / 2)).map fun i =>
        [colors.getD (index + i) 0 / 256 % 256, colors.getD (index + i) 0 % 256]).flatten
        = blk at hb
      have hw : spi_master_write_byte blk = [.tx blk] := by
        simp only [spi_master_write_byte, hb, gt_iff_lt, show 0 < chunk by omega, ↓reduceIte]
      refine ⟨_, blk :: bs, by rw [hpx]; rfl, ?_, ?_, ?_⟩
      · rw [hw]
        simp only [SPI_Data_Mode, List.singleton_append, sub_transfers]
        show Option.map _ (sub_transfers px) = _
        rw [hbs]
        rfl
      · intro b hbmem
        rcases List.mem_cons.1 hbmem with rfl | hbmem
        · rw [hb]; omega
        · exact hall b hbmem
      · rw [List.flatten_cons, hcat, ← hblk]
        have hsplit : len / 2 = chunk / 2 + (len - chunk) / 2 := by omega
        rw [hsplit, ← range_map_flatten_add]
        simp only [Nat.add_assoc]
    · have : len = 0 := by omega
      subst this
      exact ⟨[], [], by simp, rfl, by simp, rfl⟩

theorem range_map_getD (colors : List Nat) (g : Nat → List Nat) :
    ((List.range colors.length).map fun i => g (colors.getD (0 + i) 0)) = colors.map g := by
  apply List.ext_getElem
  · simp
  · intro i h1 h2
    simp at h1
    simp [List.getD_eq_getElem, h1]

theorem line_shape_last (x2 y2 sx sy : Int) : line_shape x2 y2 sx sy x2 y2 0 0 0 [(x2, y2)] := by
  refine ⟨rfl, rfl, rfl, List.chain'_singleton _, ?_⟩
  intro p hp
  simp only [List.mem_singleton] at hp
  subst hp
  simp

/-- One more point in front of the rest of a line. -/
theorem line_shape_cons (x2 y2 sx sy x y x' y' : Int) (rx ry rx' ry' n : Nat)
    (pts : List (Int × Int))
    (hbx : 0 ≤ sx * (x2 - x) ∧ sx * (x2 - x) ≤ rx)
    (hby : 0 ≤ sy * (y2 - y) ∧ sy * (y2 - y) ≤ ry)
    (hrx : rx' ≤ rx) (hry : ry' ≤ ry)
    (hnx : -1 ≤ x' - x ∧ x' - x ≤ 1) (hny : -1 ≤ y' - y ∧ y' - y ≤ 1)
    (h : line_shape x2 y2 sx sy x' y' rx' ry' n pts) :
    line_shape x2 y2 sx sy x y rx ry (n + 1) ((x, y) :: pts) := by
  obtain ⟨hlen, hhead, hlast, hchain, hbox⟩ := h
  refine ⟨by simp [hlen], rfl, ?_, ?_, ?_⟩
  · cases pts with
    | nil => simp at hhead
    | cons q qs => simpa using hlast
  · refine List.chain'_cons'.2 ⟨?_, hchain⟩
    intro q hq
    rw [hhead] at hq
    simp only [Option.mem_def, Option.some.injEq] at hq
    subst hq
    exact ⟨hnx.1, hnx.2, hny.1, hny.2⟩
  · intro p hp
    rcases List.mem_cons.1 hp with rfl | hp
    · exact ⟨hbx.1, hbx.2, hby.1, hby.2⟩
    · obtain ⟨b1, b2, b3, b4⟩ := hbox p hp
      exact ⟨b1, by omega, b3, by omega⟩

/-- The Bresenham loop, started `rx` columns and `ry` rows away from the end point,
ends and plots `rx + 1` points when the line is at least as wide as it is high, and
`ry + 1` points otherwise. -/
theorem bresenham_loop_shape (x2 y2 : Int) (a b : Nat) (sx sy : Int)
    (hsx : sx = 1 ∨ sx = -1) (hsy : sy = 1 ∨ sy = -1) :
    ∀ (fuel rx ry : Nat) (x y err P Q : Int),
      rx + ry < fuel → rx ≤ a → ry ≤ b →
      x + sx * rx = x2 → y + sy * ry = y2 →
      P = (b : Int) * rx → Q = (a : Int) * ry → err = (a : Int) - b + P - Q →
      (b ≤ a → -(b : Int) ≤ 2 * err) → (¬ b ≤ a → 2 * err ≤ (a : Int)) →
      ∃ pts, bresenham_loop fuel x2 y2 a (-(b : Int)) sx sy x y err = some pts ∧
        line_shape x2 y2 sx sy x y rx ry (if b ≤ a then rx else ry) pts := by
  intro fuel
  induction fuel with
  | zero => intro rx ry x y err P Q h; omega
  | succ n ih =>
    intro rx ry x y err P Q hf hrx hry hx hy hP hQ herr hlo hhi
    unfold bresenham_loop
    by_cases hfin : rx = 0 ∧ ry = 0
    · obtain ⟨rfl, rfl⟩ := hfin
      have e1 : x = x2 := by simpa using hx
      have e2 : y = y2 := by simpa using hy
      subst e1 e2
      refine ⟨[(x, y)], by simp, ?_⟩
      simpa using line_shape_last x y sx sy
    · have hne : ¬ (x = x2 ∧ y = y2) := by
        rintro ⟨rfl, rfl⟩
        apply hfin
        rcases hsx with rfl | rfl <;> rcases hsy with rfl | rfl <;>
          constructor <;> omega
      have hP0 : rx = 0 → P = 0 := by intro h; simp [hP, h]
      have hQ0 : ry = 0 → Q = 0 := by intro h; simp [hQ, h]
      have hP1 : 1 ≤ rx → (b : Int) ≤ P := by
        intro h; rw [hP]; nlinarith
      have hQ1 : 1 ≤ ry → (a : Int) ≤ Q := by
        intro h; rw [hQ]; nlinarith
      have hxs : 2 * err ≥ -(b : Int) → 1 ≤ rx := by
        intro h
        by_contra hc
        have h0 : rx = 0 := by omega
        have := hP0 h0
        have := hQ1 (by omega)
        omega
      have hys : 2 * err ≤ (a : Int) → 1 ≤ ry := by
        intro h
        by_contra hc
        have h0 : ry = 0 := by omega
        have := hQ0 h0
        have := hP1 (by omega)
        omega
      have hbx : 0 ≤ sx * (x2 - x) ∧ sx * (x2 - x) ≤ rx := by
        rcases hsx with rfl | rfl <;> omega
      have hby : 0 ≤ sy * (y2 - y) ∧ sy * (y2 - y) ≤ ry := by
        rcases hsy with rfl | rfl <;> omega
      have hnx : -1 ≤ x + sx - x ∧ x + sx - x ≤ 1 := by
        rcases hsx with rfl | rfl <;> omega
      have hny : -1 ≤ y + sy - y ∧ y + sy - y ≤ 1 := by
        rcases hsy with rfl | rfl <;> omega
      simp only [hne, ↓reduceIte]
      by_cases c1 : 2 * err ≥ -(b : Int) <;> by_cases c2 : 2 * err ≤ (a : Int)
      · -- both steps
        obtain ⟨rx', rfl⟩ : ∃ r, rx = r + 1 := ⟨rx - 1, by have := hxs c1; omega⟩
        obtain ⟨ry', rfl⟩ : ∃ r, ry = r + 1 := ⟨ry - 1, by have := hys c2; omega⟩
        have hP' : P - b = (b : Int) * rx' := by subst hP; push_cast; ring
        have hQ' : Q - a = (a : Int) * ry' := by subst hQ; push_cast; ring
        simp only [c1, c2, ↓reduceIte]
        obtain ⟨pts, h1, h2⟩ := ih rx' ry' (x + sx) (y + sy) (err + -(b : Int) + a)
          (P - b) (Q - a) (by omega) (by omega) (by omega)
          (by push_cast at hx; linarith) (by push_cast at hy; linarith)
          hP' hQ' (by omega) (by intro; omega) (by intro; omega)
        refine ⟨(x, y) :: pts, by rw [h1]; rfl, ?_⟩
        have := line_shape_cons x2 y2 sx sy x y (x + sx) (y + sy) (rx' + 1) (ry' + 1) rx' ry'
          _ pts hbx hby (by omega) (by omega) hnx hny h2
        split_ifs at this ⊢ <;> exact this
      · -- a column step only
        obtain ⟨rx', rfl⟩ : ∃ r, rx = r + 1 := ⟨rx - 1, by have := hxs c1; omega⟩
        have hP' : P - b = (b : Int) * rx' := by subst hP; push_cast; ring
        have hma : b ≤ a := by
          by_contra hc
          have := hhi hc
          omega
        simp only [c1, c2, ↓reduceIte]
        obtain ⟨pts, h1, h2⟩ := ih rx' ry (x + sx) y (err + -(b : Int))
          (P - b) Q (by omega) (by omega) (by omega)
          (by push_cast at hx; linarith) hy
          hP' hQ (by omega) (by intro; omega) (by intro; omega)
        refine ⟨(x, y) :: pts, by rw [h1]; rfl, ?_⟩
        have := line_shape_cons x2 y2 sx sy x y (x + sx) y (rx' + 1) ry rx' ry
          _ pts hbx hby (by omega) (by omega) hnx (by omega) h2
        simp only [hma, ↓reduceIte] at this ⊢
        exact this
      · -- a row step only
        obtain ⟨ry', rfl⟩ : ∃ r, ry = r + 1 := ⟨ry - 1, by have := hys c2; omega⟩
        have hQ' : Q - a = (a : Int) * ry' := by subst hQ; push_cast; ring
        have hma : ¬ b ≤ a := by
          intro hc
          have := hlo hc
          omega
        simp only [c1, c2, ↓reduceIte]
        obtain ⟨pts, h1, h2⟩ := ih rx ry' x (y + sy) (err + a)
          P (Q - a) (by omega) (by omega) (by omega)
          hx (by push_cast at hy; linarith)
          hP hQ' (by omega) (by intro; omega) (by intro; omega)
        refine ⟨(x, y) :: pts, by rw [h1]; rfl, ?_⟩
        have := line_shape_cons x2 y2 sx sy x y x (y + sy) rx (ry' + 1) rx ry'
          _ pts hbx hby (by omega) (by omega) (by omega) hny h2
        simp only [hma, ↓reduceIte] at this ⊢
        exact this
      · exfalso
        by_cases hma : b ≤ a
        · have := hlo hma
          omega
        · have := hhi hma
          omega

/-- The Bresenham rule of the specification ends and plots `max |dx| |dy| + 1` points
from `(x1, y1)` to `(x2, y2)` in unit steps inside the bounding box. -/
theorem bresenham_shape (x1 y1 x2 y2 : Int) (A B : Nat)
    (hA : |x2 - x1| = (A : Int)) (hB : |y2 - y1| = (B : Int)) (fuel : Nat)
    (hfuel : A + B < fuel) :
    ∃ pts, bresenham fuel x1 y1 x2 y2 = some pts ∧
      line_shape x2 y2 (if x1 < x2 then 1 else -1) (if y1 < y2 then 1 else -1) x1 y1 A B
        (if B ≤ A then A else B) pts := by
  have hsx : (if x1 < x2 then (1 : Int) else -1) = 1 ∨ (if x1 < x2 then (1 : Int) else -1) = -1 := by
    split_ifs <;> simp
  have hsy : (if y1 < y2 then (1 : Int) else -1) = 1 ∨ (if y1 < y2 then (1 : Int) else -1) = -1 := by
    split_ifs <;> simp
  have hxe : x1 + (if x1 < x2 then (1 : Int) else -1) * (A : Int) = x2 := by
    split_ifs with h
    · rw [abs_of_nonneg (by omega)] at hA; omega
    · rw [abs_of_nonpos (by omega)] at hA; omega
  have hye : y1 + (if y1 < y2 then (1 : Int) else -1) * (B : Int) = y2 := by
    split_ifs with h
    · rw [abs_of_nonneg (by omega)] at hB; omega
    · rw [abs_of_nonpos (by omega)] at hB; omega
  unfold bresenham
  rw [hA, hB]
  exact bresenham_loop_shape x2 y2 A B _ _ hsx hsy fuel A B x1 y1 ((A : Int) + -(B : Int))
    ((B : Int) * A) ((A : Int) * B) hfuel (Nat.le_refl _) (Nat.le_refl _) hxe hye rfl rfl
    (by ring) (by intro h; omega) (by intro h; omega)

theorem to_int_point_eq (o : Option (Nat × Nat)) (a b : Nat)
    (h : o.map to_int_point = some ((a : Int), (b : Int))) : o = some (a, b) := by
  cases o with
  | none => simp at h
  | some p =>
    obtain ⟨p1, p2⟩ := p
    simp only [Option.map_some', to_int_point, Option.some.injEq, Prod.mk.injEq] at h
    obtain ⟨e1, e2⟩ := h
    have e1' : p1 = a := by exact_mod_cast e1
    have e2' : p2 = b := by exact_mod_cast e2
    rw [e1', e2']

theorem near_to_int_point (p q : Nat × Nat) (h : near (to_int_point p) (to_int_point q)) :
    adjacent p q := by
  simp only [near, to_int_point] at h
  simp only [adjacent]
  omega

/-- The points of `lcdDrawLine`: their number, the two ends, the unit steps and the
bounding box, with the two distances given as natural numbers. -/
theorem lcdDrawLine_points_shape (x1 y1 x2 y2 A B : Nat) (hx1 : x1 < 65536)
    (hy1 : y1 < 65536) (hx2 : x2 < 65536) (hy2 : y2 < 65536)
    (hA : |(x2 : Int) - x1| = (A : Int)) (hB : |(y2 : Int) - y1| = (B : Int)) :
    ∃ pts, lcdDrawLine_points x1 y1 x2 y2 = some pts ∧
      pts.length = max A B + 1 ∧
      pts.head? = some (x1, y1) ∧ pts.getLast? = some (x2, y2) ∧
      List.Chain' adjacent pts ∧
      ∀ p ∈ pts, min x1 x2 ≤ p.1 ∧ p.1 ≤ max x1 x2 ∧ min y1 y2 ≤ p.2 ∧ p.2 ≤ max y1 y2 := by
  obtain ⟨pts, h1, h2⟩ :=
    lcdDrawLine_points_sim_aux x1 y1 x2 y2 A B hx1 hy1 hx2 hy2 hA hB (A + B + 1) (by omega)
  obtain ⟨ipts, h3, hshape⟩ := bresenham_shape x1 y1 x2 y2 A B hA hB (A + B + 1) (by omega)
  rw [h2] at h3
  cases h3
  obtain ⟨hlen, hhead, hlast, hchain, hbox⟩ := hshape
  refine ⟨pts, h1, ?_, ?_, ?_, ?_, ?_⟩
  · rw [List.length_map] at hlen
    rw [hlen]
    split_ifs <;> omega
  · rw [List.head?_map] at hhead
    exact to_int_point_eq _ _ _ hhead
  · rw [List.getLast?_map] at hlast
    exact to_int_point_eq _ _ _ hlast
  · exact ((List.chain'_map to_int_point).1 hchain).imp near_to_int_point
  · intro p hp
    have hb := hbox (to_int_point p) (List.mem_map_of_mem to_int_point hp)
    simp only [to_int_point] at hb
    obtain ⟨b1, b2, b3, b4⟩ := hb
    have hx : min x1 x2 ≤ p.1 ∧ p.1 ≤ max x1 x2 := by
      clear b3 b4 hB
      by_cases c : (x1 : Int) < x2
      · rw [abs_of_nonneg (by omega)] at hA
        simp only [c, ↓reduceIte] at b1 b2
        omega
      · rw [abs_of_nonpos (by omega)] at hA
        simp only [c, ↓reduceIte] at b1 b2
        omega
    have hy : min y1 y2 ≤ p.2 ∧ p.2 ≤ max y1 y2 := by
      clear b1 b2 hA hx
      by_cases c : (y1 : Int) < y2
      · rw [abs_of_nonneg (by omega)] at hB
        simp only [c, ↓reduceIte] at b3 b4
        omega
      · rw [abs_of_nonpos (by omega)] at hB
        simp only [c, ↓reduceIte] at b3 b4
        omega
    exact ⟨hx.1, hx.2, hy.1, hy.2⟩

/-! ### The claims about the drawing primitives -/

/-- Claim C7, counterexample: on a panel with column offset 65535 the window of
`lcdDrawFillRect(1, 0, 2, 0)` starts at column 0, not at column `x1 + offsetx`. -/
theorem lcdDrawFillRect_offset_wraps :
    wrap_panel.wf ∧
      lcdDrawFillRect wrap_panel 1 0 2 0 7
        = some (set_window 0 1 0 0 ++ [.dc 1, .tx [0, 7, 0, 7]]) ∧
      parse_window_write (set_window 0 1 0 0 ++ [.dc 1, .tx [0, 7, 0, 7]])
        = some { x1 := 0, x2 := 1, y1 := 0, y2 := 0, pixels := 2 } ∧
      (0 : Nat) ≠ 1 + wrap_panel._offsetx := by
  decide

/-- Claim C7, amended: `lcdDrawFillRect` produces no bus activity when `x1 ≥ width` or
`y1 ≥ height`; otherwise it sets the window to columns `(x1 + offsetx) mod 2^16` ..
`(min x2 (width - 1) + offsetx) mod 2^16` and rows `(y1 + offsety) mod 2^16` ..
`(min y2 (height - 1) + offsety) mod 2^16` and then streams one colour: `x2` and `y2`
are clamped, `x1` and `y1` never are. -/
theorem lcdDrawFillRect_clamps (dev : TFT_t) (hdev : dev.wf) (x1 y1 x2 y2 color : Nat) :
    ((dev._width ≤ x1 ∨ dev._height ≤ y1) → lcdDrawFillRect dev x1 y1 x2 y2 color = some []) ∧
    (x1 < dev._width → y1 < dev._height →
      ∃ n px, spi_master_write_color color n = some px ∧
        lcdDrawFillRect dev x1 y1 x2 y2 color = some
          (set_window ((x1 + dev._offsetx) % 65536)
              ((min x2 (dev._width - 1) + dev._offsetx) % 65536)
              ((y1 + dev._offsety) % 65536)
              ((min y2 (dev._height - 1) + dev._offsety) % 65536) ++ px)) :=
  ⟨lcdDrawFillRect_offscreen dev x1 y1 x2 y2 color,
    lcdDrawFillRect_onscreen dev hdev x1 y1 x2 y2 color⟩

/-- Witness for claim C7: a rectangle reaching beyond a 10 x 10 panel with offsets
2 and 3, and a rectangle that starts off screen. -/
theorem lcdDrawFillRect_clamps_example :
    offset_panel.wf ∧ lcdDrawFillRect offset_panel 10 1 50 4 7 = some [] ∧
      ∃ n px, spi_master_write_color 7 n = some px ∧
        lcdDrawFillRect offset_panel 1 1 50 4 7 = some
          (set_window ((1 + offset_panel._offsetx) % 65536)
              ((min 50 (offset_panel._width - 1) + offset_panel._offsetx) % 65536)
              ((1 + offset_panel._offsety) % 65536)
              ((min 4 (offset_panel._height - 1) + offset_panel._offsety) % 65536) ++ px) :=
  ⟨by decide,
    (lcdDrawFillRect_clamps offset_panel (by decide) 10 1 50 4 7).1 (Or.inl (by decide)),
    (lcdDrawFillRect_clamps offset_panel (by decide) 1 1 50 4 7).2 (by decide) (by decide)⟩

/-- Claim C8, counterexample: a rectangle with `x2 < x1` writes the window
`(5,0)-(3,0)` and then streams 2147483647 pixels, and a run of 0 pixels at column 0
writes the window `(0,0)-(65535,0)` and streams none; in both cases the count differs
from `(x2 - x1 + 1) * (y2 - y1 + 1)`. -/
theorem window_pixels_mismatch :
    (∃ t w, lcdDrawFillRect small_panel 5 0 3 0 7 = some t ∧
      parse_window_write t = some w ∧ ¬ w.pixels_match) ∧
    (∃ t w, lcdDrawMultiPixels small_panel 0 0 0 [] = some t ∧
      parse_window_write t = some w ∧ ¬ w.pixels_match) := by
  constructor
  · obtain ⟨t, w, h1, h2, e1, e2, e3, e4, e5⟩ := reversed_rect_pixels
    refine ⟨t, w, h1, h2, ?_⟩
    simp only [WindowWrite.pixels_match, e1, e2, e3, e4, e5]
    decide
  · exact ⟨set_window 0 65535 0 0,
      { x1 := 0, x2 := 65535, y1 := 0, y2 := 0, pixels := 0 }, by decide, by decide, by decide⟩

/-- Claim C8, amended: every draw operation that sets an addressing window
(`lcdDrawPixel`, `lcdDrawMultiPixels`, `lcdDrawFillRect`, `lcdFillScreen`) with an
on-screen start point sends the column range, the row range and the memory-write
command, and the number of pixels streamed after them equals
`(x2 - x1 + 1) * (y2 - y1 + 1)` for the window written, provided that window is ordered
(`x1 ≤ x2`, `y1 ≤ y2`), holds fewer than `2 ^ 31` pixels, and the count of
`lcdDrawMultiPixels` is at least 1.  The window written is given in terms of the
arguments: columns `(x1 + offsetx) mod 2^16` to `(min x2 (width - 1) + offsetx) mod 2^16`
and rows likewise for a filled rectangle, columns `X = (x + offsetx) mod 2^16` to
`(X + size - 1) mod 2^16` of one row for a run of pixels. -/
theorem window_pixels_match (dev : TFT_t) (hdev : dev.wf) :
    (∀ x y color, x < dev._width → y < dev._height →
      ∃ w, parse_window_write (lcdDrawPixel dev x y color) = some w ∧
        w.x1 = (x + dev._offsetx) % 65536 ∧ w.x2 = (x + dev._offsetx) % 65536 ∧
        w.y1 = (y + dev._offsety) % 65536 ∧ w.y2 = (y + dev._offsety) % 65536 ∧
        w.pixels = 1 ∧ w.pixels_match) ∧
    (∀ x y size colors, x + size ≤ dev._width → y < dev._height → 1 ≤ size →
      (x + dev._offsetx) % 65536 ≤ ((x + dev._offsetx) % 65536 + (size - 1)) % 65536 →
      ∃ t w, lcdDrawMultiPixels dev x y size colors = some t ∧
        parse_window_write t = some w ∧
        w.x1 = (x + dev._offsetx) % 65536 ∧
        w.x2 = ((x + dev._offsetx) % 65536 + (size - 1)) % 65536 ∧
        w.y1 = (y + dev._offsety) % 65536 ∧ w.y2 = (y + dev._offsety) % 65536 ∧
        w.pixels = size ∧ w.pixels_match) ∧
    (∀ x1 y1 x2 y2 color, x1 < dev._width → y1 < dev._height →
      (x1 + dev._offsetx) % 65536 ≤ (min x2 (dev._width - 1) + dev._offsetx) % 65536 →
      (y1 + dev._offsety) % 65536 ≤ (min y2 (dev._height - 1) + dev._offsety) % 65536 →
      ((min x2 (dev._width - 1) + dev._offsetx) % 65536 - (x1 + dev._offsetx) % 65536 + 1)
        * ((min y2 (dev._height - 1) + dev._offsety) % 65536
          - (y1 + dev._offsety) % 65536 + 1) < 2 ^ 31 →
      ∃ t w, lcdDrawFillRect dev x1 y1 x2 y2 color = some t ∧
        parse_window_write t = some w ∧
        w.x1 = (x1 + dev._offsetx) % 65536 ∧
        w.x2 = (min x2 (dev._width - 1) + dev._offsetx) % 65536 ∧
        w.y1 = (y1 + dev._offsety) % 65536 ∧
        w.y2 = (min y2 (dev._height - 1) + dev._offsety) % 65536 ∧
        w.pixels = ((min x2 (dev._width - 1) + dev._offsetx) % 65536
            - (x1 + dev._offsetx) % 65536 + 1)
          * ((min y2 (dev._height - 1) + dev._offsety) % 65536
            - (y1 + dev._offsety) % 65536 + 1) ∧
        w.pixels_match) ∧
    (∀ color, 0 < dev._width → 0 < dev._height →
      (0 + dev._offsetx) % 65536 ≤ (dev._width - 1 + dev._offsetx) % 65536 →
      (0 + dev._offsety) % 65536 ≤ (dev._height - 1 + dev._offsety) % 65536 →
      ((dev._width - 1 + dev._offsetx) % 65536 - (0 + dev._offsetx) % 65536 + 1)
        * ((dev._height - 1 + dev._offsety) % 65536 - (0 + dev._offsety) % 65536 + 1)
          < 2 ^ 31 →
      ∃ t w, lcdFillScreen dev color = some t ∧
        parse_window_write t = some w ∧
        w.x1 = (0 + dev._offsetx) % 65536 ∧
        w.x2 = (dev._width - 1 + dev._offsetx) % 65536 ∧
        w.y1 = (0 + dev._offsety) % 65536 ∧
        w.y2 = (dev._height - 1 + dev._offsety) % 65536 ∧
        w.pixels = ((dev._width - 1 + dev._offsetx) % 65536 - (0 + dev._offsetx) % 65536 + 1)
          * ((dev._height - 1 + dev._offsety) % 65536 - (0 + dev._offsety) % 65536 + 1) ∧
        w.pixels_match) :=
  ⟨fun x y color hx hy => lcdDrawPixel_exact dev x y color hx hy,
    fun x y size colors hx hy hs ho =>
      lcdDrawMultiPixels_exact dev hdev x y size colors hx hy hs ho,
    fun x1 y1 x2 y2 color hx hy hox hoy ha =>
      lcdDrawFillRect_exact dev hdev x1 y1 x2 y2 color hx hy hox hoy ha,
    fun color hx hy hox hoy ha => lcdFillScreen_exact dev hdev color hx hy hox hoy ha⟩

/-- Witness for claim C8, on the 10 x 10 panel with offsets 2 and 3: the rectangle
`(1,1)-(3,2)` writes the window `(3,4)-(5,5)` and streams 6 pixels; a run of 3 pixels
from `(1,1)` writes the window `(3,4)-(5,4)` and streams 3 pixels; filling the screen
writes the window `(2,3)-(11,12)` and streams 100 pixels; one pixel at `(1,1)` writes
the window `(3,4)-(3,4)` and streams 1 pixel. -/
theorem window_pixels_match_example :
    offset_panel.wf ∧
    (∃ t w, lcdDrawFillRect offset_panel 1 1 3 2 7 = some t ∧
      parse_window_write t = some w ∧
      w.x1 = 3 ∧ w.x2 = 5 ∧ w.y1 = 4 ∧ w.y2 = 5 ∧ w.pixels = 6 ∧ w.pixels_match) ∧
    (∃ t w, lcdDrawMultiPixels offset_panel 1 1 3 [1, 2, 3] = some t ∧
      parse_window_write t = some w ∧
      w.x1 = 3 ∧ w.x2 = 5 ∧ w.y1 = 4 ∧ w.y2 = 4 ∧ w.pixels = 3 ∧ w.pixels_match) ∧
    (∃ t w, lcdFillScreen offset_panel 7 = some t ∧
      parse_window_write t = some w ∧
      w.x1 = 2 ∧ w.x2 = 11 ∧ w.y1 = 3 ∧ w.y2 = 12 ∧ w.pixels = 100 ∧ w.pixels_match) ∧
    (∃ w, parse_window_write (lcdDrawPixel offset_panel 1 1 7) = some w ∧
      w.x1 = 3 ∧ w.x2 = 3 ∧ w.y1 = 4 ∧ w.y2 = 4 ∧ w.pixels = 1 ∧ w.pixels_match) :=
  ⟨by decide,
    (window_pixels_match offset_panel (by decide)).2.2.1 1 1 3 2 7 (by decide) (by decide)
      (by decide) (by decide) (by decide),
    (window_pixels_match offset_panel (by decide)).2.1 1 1 3 [1, 2, 3] (by decide) (by decide)
      (by decide) (by decide),
    (window_pixels_match offset_panel (by decide)).2.2.2 7 (by decide) (by decide)
      (by decide) (by decide) (by decide),
    (window_pixels_match offset_panel (by decide)).1 1 1 7 (by decide) (by decide)⟩

/-- Claim C9: for all 16-bit end points the loop of `lcdDrawLine` ends, and the points
it hands to `lcdDrawPixel` are exactly the points the Bresenham rule of the
specification generates on mathematical integers (given enough steps to finish). -/
theorem lcdDrawLine_follows_bresenham (x1 y1 x2 y2 : Nat) (hx1 : x1 < 65536)
    (hy1 : y1 < 65536) (hx2 : x2 < 65536) (hy2 : y2 < 65536) :
    ∃ pts, lcdDrawLine_points x1 y1 x2 y2 = some pts ∧
      (∀ dev color, lcdDrawLine dev x1 y1 x2 y2 color = some (draw_points dev color pts)) ∧
      ∀ fuel, ((x2 : Int) - x1).natAbs + ((y2 : Int) - y1).natAbs < fuel →
        bresenham fuel x1 y1 x2 y2 = some (pts.map to_int_point) := by
  obtain ⟨pts, h1, -⟩ := lcdDrawLine_points_sim x1 y1 x2 y2 hx1 hy1 hx2 hy2 _ (Nat.lt_succ_self _)
  refine ⟨pts, h1, ?_, ?_⟩
  · intro dev color
    simp [lcdDrawLine, h1]
  · intro fuel hfuel
    obtain ⟨pts', h1', h2'⟩ := lcdDrawLine_points_sim x1 y1 x2 y2 hx1 hy1 hx2 hy2 fuel hfuel
    rw [h1] at h1'
    cases h1'
    exact h2'

/-- Witness for claim C9: the line from `(0,0)` to `(4,2)`. -/
theorem lcdDrawLine_0_0_4_2 :
    lcdDrawLine_points 0 0 4 2 = some [(0, 0), (1, 1), (2, 1), (3, 2), (4, 2)] ∧
      bresenham 7 0 0 4 2 = some [(0, 0), (1, 1), (2, 1), (3, 2), (4, 2)] := by
  obtain ⟨pts, h1, -, h2⟩ :=
    lcdDrawLine_follows_bresenham 0 0 4 2 (by decide) (by decide) (by decide) (by decide)
  have e : lcdDrawLine_points 0 0 4 2 = some [(0, 0), (1, 1), (2, 1), (3, 2), (4, 2)] := by
    decide
  rw [e] at h1
  cases h1
  exact ⟨e, h2 7 (by decide)⟩

/-- Claim C10: at angle 0 (`cos(rd) = 1`, `sin(rd) = 0`) and with `w/2 ≤ xc`,
`h/2 ≤ yc`, `lcdDrawRectAngle` computes exactly the corners `(xc - w/2, yc + h/2)`,
`(xc - w/2, yc - h/2)`, `(xc + w/2, yc + h/2)`, `(xc + w/2, yc - h/2)`; each of its four
lines joins two corners that share a coordinate; and it hands to `lcdDrawPixel` the same
set of points as `lcdDrawRect(xc - w/2, yc - h/2, xc + w/2, yc + h/2)`. -/
theorem lcdDrawRectAngle_zero_is_rect (xc yc w h : Nat) (hxc : xc < 65536) (hyc : yc < 65536)
    (hx : w / 2 ≤ xc) (hy : h / 2 ≤ yc) :
    lcdDrawRectAngle_corners 1 0 xc yc w h =
      { x1 := (xc : Int) - (w / 2 : Nat), y1 := (yc : Int) + (h / 2 : Nat),
        x2 := (xc : Int) - (w / 2 : Nat), y2 := (yc : Int) - (h / 2 : Nat),
        x3 := (xc : Int) + (w / 2 : Nat), y3 := (yc : Int) + (h / 2 : Nat),
        x4 := (xc : Int) + (w / 2 : Nat), y4 := (yc : Int) - (h / 2 : Nat) } ∧
    ∃ pa pr, lcdDrawRectAngle_points 1 0 xc yc w h = some pa ∧
      lcdDrawRect_points (xc - w / 2) (yc - h / 2) (u16 ((xc : Int) + (w / 2 : Nat)))
        (u16 ((yc : Int) + (h / 2 : Nat))) = some pr ∧
      ∀ p, p ∈ pa ↔ p ∈ pr := by
  refine ⟨lcdDrawRectAngle_corners_zero xc yc w h, ?_⟩
  have eL : u16 ((xc : Int) - (w / 2 : Nat)) = xc - w / 2 := by unfold u16; omega
  have eT : u16 ((yc : Int) - (h / 2 : Nat)) = yc - h / 2 := by unfold u16; omega
  unfold lcdDrawRectAngle_points
  simp only [lcdDrawRectAngle_corners_zero, eL, eT]
  exact rect_points_same (xc - w / 2) (yc - h / 2) _ _ (by omega) (by omega) (u16_lt _)
    (u16_lt _)

/-- Witness for claim C10: a 4 x 6 rectangle centred at `(10, 10)`. -/
theorem lcdDrawRectAngle_zero_example :
    lcdDrawRectAngle_corners 1 0 10 10 4 6 =
      { x1 := 8, y1 := 13, x2 := 8, y2 := 7, x3 := 12, y3 := 13, x4 := 12, y4 := 7 } ∧
    ∃ pa pr, lcdDrawRectAngle_points 1 0 10 10 4 6 = some pa ∧
      lcdDrawRect_points 8 7 12 13 = some pr ∧ ∀ p, p ∈ pa ↔ p ∈ pr :=
  lcdDrawRectAngle_zero_is_rect 10 10 4 6 (by decide) (by decide) (by decide) (by decide)

/-- Claim C11: `lcdDrawPixel(x, y, color)` produces no bus activity when `x ≥ width` or
`y ≥ height`; otherwise its bus trace is exactly command `0x2A`, the four data bytes
`hi X, lo X, hi X, lo X`, command `0x2B`, the four data bytes `hi Y, lo Y, hi Y, lo Y`,
command `0x2C` and the two data bytes `hi color, lo color`, where
`X = (x + offsetx) mod 2^16` and `Y = (y + offsety) mod 2^16`. -/
theorem lcdDrawPixel_bus_trace (dev : TFT_t) (x y color : Nat) (hc : color < 65536) :
    ((dev._width ≤ x ∨ dev._height ≤ y) → lcdDrawPixel dev x y color = []) ∧
    (x < dev._width → y < dev._height →
      lcdDrawPixel dev x y color =
        [.dc SPI_Command_Mode, .tx [0x2A], .dc SPI_Data_Mode,
          .tx [(x + dev._offsetx) % 65536 / 256, (x + dev._offsetx) % 65536 % 256,
               (x + dev._offsetx) % 65536 / 256, (x + dev._offsetx) % 65536 % 256],
         .dc SPI_Command_Mode, .tx [0x2B], .dc SPI_Data_Mode,
          .tx [(y + dev._offsety) % 65536 / 256, (y + dev._offsety) % 65536 % 256,
               (y + dev._offsety) % 65536 / 256, (y + dev._offsety) % 65536 % 256],
         .dc SPI_Command_Mode, .tx [0x2C], .dc SPI_Data_Mode,
          .tx [color / 256, color % 256]]) :=
  ⟨lcdDrawPixel_offscreen dev x y color,
    fun hx hy => lcdDrawPixel_onscreen dev x y color hx hy hc⟩

/-- Witness for claim C11: a red pixel at `(1, 1)` of the 10 x 10 panel with offsets 2
and 3 addresses column 3 and row 4, and a pixel at column 10 sends nothing. -/
theorem lcdDrawPixel_bus_trace_example :
    lcdDrawPixel offset_panel 10 1 0xF800 = [] ∧
      lcdDrawPixel offset_panel 1 1 0xF800 =
        [.dc 0, .tx [0x2A], .dc 1, .tx [0, 3, 0, 3], .dc 0, .tx [0x2B], .dc 1,
          .tx [0, 4, 0, 4], .dc 0, .tx [0x2C], .dc 1, .tx [0xF8, 0x00]] :=
  ⟨(lcdDrawPixel_bus_trace offset_panel 10 1 0xF800 (by decide)).1 (Or.inl (by decide)),
    (lcdDrawPixel_bus_trace offset_panel 1 1 0xF800 (by decide)).2 (by decide) (by decide)⟩

/-- Claim C12: chunking of bulk colour writes is transparent.  For a 16-bit colour and
a count `N` with `2 * N < 2^32`, `spi_master_write_color` ends and emits data-mode
sub-transfers of at most 1024 bytes each whose concatenation is `N` copies of the two
bytes of the colour, high byte first; for an array of `N ≤ 65535` 16-bit colours,
`spi_master_write_colors` ends and emits data-mode sub-transfers of at most 1024 bytes
each whose concatenation is the big-endian encoding of the colours in order; every
sub-transfer holds a whole number of pixels, so no pixel is split. -/
theorem bulk_write_chunking :
    (∀ color N, color < 65536 → 2 * N < 2 ^ 32 →
      ∃ px bs, spi_master_write_color color N = some px ∧ sub_transfers px = some bs ∧
        (∀ b ∈ bs, b.length ≤ 1024 ∧ b.length % 2 = 0) ∧
        bs.flatten = (List.replicate N (big_endian color)).flatten) ∧
    (∀ colors : List Nat, colors.length ≤ 65535 → (∀ c ∈ colors, c < 65536) →
      ∃ px bs, spi_master_write_colors colors colors.length = some px ∧
        sub_transfers px = some bs ∧
        (∀ b ∈ bs, b.length ≤ 1024 ∧ b.length % 2 = 0) ∧
        bs.flatten = (colors.map big_endian).flatten) := by
  constructor
  · intro color N hc hN
    have e : N * 2 % 2 ^ 32 = N * 2 := Nat.mod_eq_of_lt (by omega)
    obtain ⟨px, bs, h1, h2, h3, h4⟩ :=
      spi_master_write_color_loop_chunks color (N * 2) (N * 2) (Nat.le_refl _) (by omega)
    refine ⟨px, bs, ?_, h2, fun b hb => (h3 b hb).2, ?_⟩
    · unfold spi_master_write_color
      rw [e]
      exact h1
    · rw [h4, Nat.mul_div_cancel N (by decide : 0 < 2),
        show color / 256 % 256 = color / 256 by omega]
      rfl
  · intro colors hN hc
    have e : colors.length * 2 % 2 ^ 32 = colors.length * 2 := Nat.mod_eq_of_lt (by omega)
    obtain ⟨px, bs, h1, h2, h3, h4⟩ :=
      spi_master_write_colors_loop_chunks colors (colors.length * 2) 0 (colors.length * 2)
        (Nat.le_refl _) (by omega)
    refine ⟨px, bs, ?_, h2, fun b hb => (h3 b hb).2, ?_⟩
    · unfold spi_master_write_colors
      rw [e]
      exact h1
    · rw [h4, Nat.mul_div_cancel colors.length (by decide : 0 < 2),
        range_map_getD colors (fun c => [c / 256 % 256, c % 256])]
      congr 1
      apply List.map_congr_left
      intro c hcm
      have := hc c hcm
      show [c / 256 % 256, c % 256] = [c / 256, c % 256]
      rw [show c / 256 % 256 = c / 256 by omega]

/-- Witness for claim C12: three red pixels are sent as one block of six bytes, and
three different colours as one block holding them in order. -/
theorem bulk_write_chunking_example :
    (∃ px bs, spi_master_write_color 0xF800 3 = some px ∧ sub_transfers px = some bs ∧
        (∀ b ∈ bs, b.length ≤ 1024 ∧ b.length % 2 = 0) ∧
        bs.flatten = [0xF8, 0, 0xF8, 0, 0xF8, 0]) ∧
    (∃ px bs, spi_master_write_colors [0xF800, 0x07E0, 0x001F] 3 = some px ∧
        sub_transfers px = some bs ∧
        (∀ b ∈ bs, b.length ≤ 1024 ∧ b.length % 2 = 0) ∧
        bs.flatten = [0xF8, 0, 0x07, 0xE0, 0, 0x1F]) :=
  ⟨bulk_write_chunking.1 0xF800 3 (by decide) (by decide),
    bulk_write_chunking.2 [0xF800, 0x07E0, 0x001F] (by decide) (by decide)⟩

/-- Claim C15: for all 16-bit end points the loop of `lcdDrawLine` ends after plotting
exactly `max |x2 - x1| |y2 - y1| + 1` points; the first is `(x1, y1)`, the last is
`(x2, y2)`, consecutive points differ by at most 1 in each coordinate, and every point
lies in the bounding box of the two end points. -/
theorem lcdDrawLine_shape (x1 y1 x2 y2 : Nat) (hx1 : x1 < 65536) (hy1 : y1 < 65536)
    (hx2 : x2 < 65536) (hy2 : y2 < 65536) :
    ∃ pts, lcdDrawLine_points x1 y1 x2 y2 = some pts ∧
      (∀ dev color, lcdDrawLine dev x1 y1 x2 y2 color = some (draw_points dev color pts)) ∧
      pts.length = max ((x2 : Int) - x1).natAbs ((y2 : Int) - y1).natAbs + 1 ∧
      pts.head? = some (x1, y1) ∧ pts.getLast? = some (x2, y2) ∧
      List.Chain' adjacent pts ∧
      ∀ p ∈ pts, min x1 x2 ≤ p.1 ∧ p.1 ≤ max x1 x2 ∧ min y1 y2 ≤ p.2 ∧ p.2 ≤ max y1 y2 := by
  obtain ⟨pts, h1, h2, h3, h4, h5, h6⟩ :=
    lcdDrawLine_points_shape x1 y1 x2 y2 _ _ hx1 hy1 hx2 hy2 (Int.natCast_natAbs _).symm
      (Int.natCast_natAbs _).symm
  refine ⟨pts, h1, ?_, h2, h3, h4, h5, h6⟩
  intro dev color
  simp [lcdDrawLine, h1]

/-- Witness for claim C15: the line from `(3, 7)` to `(1, 2)` has 6 points. -/
theorem lcdDrawLine_3_7_1_2 :
    ∃ pts, lcdDrawLine_points 3 7 1 2 = some pts ∧ pts.length = 6 ∧
      pts.head? = some (3, 7) ∧ pts.getLast? = some (1, 2) ∧ List.Chain' adjacent pts ∧
      ∀ p ∈ pts, 1 ≤ p.1 ∧ p.1 ≤ 3 ∧ 2 ≤ p.2 ∧ p.2 ≤ 7 := by
  obtain ⟨pts, h1, -, h2, h3, h4, h5, h6⟩ :=
    lcdDrawLine_shape 3 7 1 2 (by decide) (by decide) (by decide) (by decide)
  exact ⟨pts, h1, h2, h3, h4, h5, h6⟩

end ST7796S
